import Mathlib

/-!
Rendezvous server and reliable UDP session: a shallow embedding.

Source files: `GameServer.cpp` (the matchmaking and relay server) and
`NetworkConnection.cpp` / `NetworkConnection.h` (the client session layer).

Conventions of the embedding.

* `Uint32`, `Uint16` and `int` values are natural numbers or integers; where the
  source relies on 32-bit wrap-around the reduction `% 2 ^ 32` is written out.
* A `Client*` is an index into an arena (`Server.heap`).  `new Client` takes the next
  unused index, `delete` turns the slot into `none`.  Dereferencing a slot that holds
  `none`, or indexing an array outside its bounds, is undefined behaviour in the source
  and makes the embedded function return `none`.  So does erasing an element of a
  `std::list` through the iterator of the loop that runs over it.
* Every call of `SDLNet_UDP_Send` appends the datagram it is given to the log `sent`.
* A local `int i;` that the source reads without initialising it is a parameter of
  the embedded function: its value is whatever the stack slot holds.
-/

namespace NetConn

/-! ## Wire constants (`enum message_type`, identical in both programs) -/

def message_type_ping : Nat := 60000
def message_type_connect : Nat := 60001
def message_type_requestHost : Nat := 60002
def message_type_startHost : Nat := 60003
def message_type_checkHost : Nat := 60004
def message_type_foundHost : Nat := 60005
def message_type_noHost : Nat := 60006
def message_type_holePunched : Nat := 60007
def message_type_quit : Nat := 60008
def message_type_systemState : Nat := 60009
def message_type_newGame : Nat := 60010
def message_type_check : Nat := 65535

/-- The four bytes `SDLNet_Write32` stores, most significant first. -/
def SDLNet_Write32 (v : Nat) : List Nat :=
  [v / 2 ^ 24 % 256, v / 2 ^ 16 % 256, v / 2 ^ 8 % 256, v % 256]

/-- The two bytes `SDLNet_Write16` stores, most significant first. -/
def SDLNet_Write16 (v : Nat) : List Nat :=
  [v / 2 ^ 8 % 256, v % 256]

/-- The value `SDLNet_Read32` reads from the first four bytes of an area. -/
def SDLNet_Read32 (area : List Nat) : Nat :=
  area.getD 0 0 * 2 ^ 24 + area.getD 1 0 * 2 ^ 16 + area.getD 2 0 * 2 ^ 8 + area.getD 3 0

/-- Effect of `memcpy(dst, src, src.length)` on the bytes of `dst`. -/
def memcpy (dst src : List Nat) : List Nat :=
  src ++ dst.drop src.length

/-- An `IPaddress` of SDL_net: the pair the server compares field by field. -/
structure IPaddress where
  host : Nat
  port : Nat
deriving DecidableEq, Repr

/-- What one call of `SDLNet_UDP_Send` puts on the wire: the destination and the
first `len` bytes of the packet. -/
structure Datagram where
  address : IPaddress
  data : List Nat
deriving DecidableEq, Repr

/-- The fields of `UDPpacket` the programs use. -/
structure UDPpacket where
  data : List Nat
  len : Nat
  address : IPaddress
deriving DecidableEq, Repr

/-- The datagram a send of this packet emits. -/
def UDPpacket.wire (p : UDPpacket) : Datagram :=
  ⟨p.address, p.data.take p.len⟩

/-! ## GameServer.cpp -/

def client_status_inGame : Nat := 0
def client_status_hostWaiting : Nat := 1
def client_status_free : Nat := 2
def client_status_holePunching : Nat := 3

def MAX_CLIENTS : Nat := 10000
def MAX_HOSTS_WAITING : Nat := 100

/-- The `Client` class.  Its `sd` and `packet` members always hold the one socket and
the one global packet of the server and are not represented. -/
structure Client where
  ip : IPaddress
  partner : Option Nat
  msgTime : Nat
  status : Nat
deriving DecidableEq, Repr

/-- The server: the arena of `Client` objects, the local array `client` (its first
`clientNum` slots, so `clientNum = client.length`), the globals `waiting`,
`hostsWaiting` and `packet`, and the log of datagrams sent. -/
structure Server where
  heap : List (Option Client)
  client : List Nat
  waiting : List (Option Nat)
  hostsWaiting : Nat
  packet : UDPpacket
  sent : List Datagram
deriving DecidableEq, Repr

/-- State when `main` enters its loop: no client, `waiting` zero-initialised (it is a
global), `hostsWaiting = 0`, a 512-byte packet. -/
def Server.init : Server where
  heap := []
  client := []
  waiting := List.replicate MAX_HOSTS_WAITING none
  hostsWaiting := 0
  packet := ⟨List.replicate 512 0, 512, ⟨0, 55777⟩⟩
  sent := []

/-- Read through a `Client*`. -/
def Server.deref (s : Server) (p : Nat) : Option Client :=
  (s.heap[p]?).join

/-- Write through a `Client*`. -/
def Server.store (s : Server) (p : Nat) (c : Client) : Server :=
  { s with heap := s.heap.set p (some c) }

/-- `SDLNet_UDP_Send(sd, -1, packet)`. -/
def Server.send (s : Server) : Server :=
  { s with sent := s.sent ++ [s.packet.wire] }

/-- `Client::sendMessage`. -/
def sendMessage (s : Server) (cl : Nat) (msg : Nat) : Option Server :=
  match s.deref cl with
  | none => none
  | some c =>
    some ({ s with packet :=
      ⟨memcpy s.packet.data (SDLNet_Write32 msg), 4, c.ip⟩ }).send

/-- `Client::sendPacket`, always called with the global packet. -/
def sendPacket (s : Server) (cl : Nat) : Option Server :=
  match s.deref cl with
  | none => none
  | some c => some ({ s with packet := { s.packet with address := c.ip } }).send

/-- The loop `for (...; i < 3; i++) cl->partner->sendPacket(packet)` with `n`
iterations left. -/
def sendPacketTimes (cl : Nat) : Nat → Server → Option Server
  | 0, s => some s
  | n + 1, s =>
    match sendPacket s cl with
    | none => none
    | some s1 => sendPacketTimes cl n s1

/-- `memmove(waiting + dst, waiting + src, sizeof(Client*) * n)`; `none` when the
source or destination range leaves the array. -/
def memmoveWaiting (w : List (Option Nat)) (dst src n : Nat) : Option (List (Option Nat)) :=
  if src + n ≤ w.length ∧ dst + n ≤ w.length then
    some (w.take dst ++ (w.drop src).take n ++ w.drop (dst + n))
  else none

/-- The loop of `resetClient` over `waiting`, with `n` iterations left, that is at
`i = hostsWaiting - n`. -/
def removeWaiting (cl hostsWaiting : Nat) : Nat → List (Option Nat) → Option (List (Option Nat))
  | 0, w => some w
  | n + 1, w =>
    match w[hostsWaiting - (n + 1)]? with
    | none => none
    | some e =>
      if e = some cl then
        match memmoveWaiting w (hostsWaiting - (n + 1)) (hostsWaiting - (n + 1) + 1)
            (hostsWaiting - (hostsWaiting - (n + 1))) with
        | none => none
        | some w1 => removeWaiting cl hostsWaiting n w1
      else removeWaiting cl hostsWaiting n w

/-- `resetClient(cl)`.  `i0` and `j0` are the values the two uninitialised loop
counters (`for (int i; i < hostsWaiting; i++)` and `for (int i; i < 3; i++)`) start
from.  The first loop never changes `hostsWaiting`. -/
def resetClient (i0 j0 : Int) (s : Server) (cl : Nat) : Option Server :=
  match s.deref cl with
  | none => none
  | some c =>
    let s1 : Option Server :=
      if c.status = client_status_hostWaiting then
        if i0 < (s.hostsWaiting : Int) then
          if i0 < 0 then none
          else
            match removeWaiting cl s.hostsWaiting (s.hostsWaiting - i0.toNat) s.waiting with
            | none => none
            | some w => some { s with waiting := w }
        else some s
      else some s
    match s1 with
    | none => none
    | some s1 =>
      let s2 := s1.store cl { c with status := client_status_free }
      match c.partner with
      | none => some s2
      | some p =>
        match s2.deref p with
        | none => none
        | some pc =>
          let s3 : Option Server :=
            if pc.partner = some cl then
              match sendPacketTimes p (3 - j0).toNat
                  { s2 with packet :=
                      { s2.packet with
                        data := memcpy s2.packet.data (SDLNet_Write32 message_type_quit)
                        len := 4 } } with
              | none => none
              | some s3 =>
                match s3.deref p with
                | none => none
                | some pc1 =>
                  some (s3.store p { pc1 with status := client_status_free, partner := none })
            else some s2
          match s3 with
          | none => none
          | some s3 =>
            match s3.deref cl with
            | none => none
            | some c3 => some (s3.store cl { c3 with partner := none })

/-- The scan of `main` that matches the packet address against the client table: the
last matching entry wins, every entry is dereferenced. -/
def findClient (s : Server) (addr : IPaddress) : List Nat → Option Nat → Option (Option Nat)
  | [], cl => some cl
  | p :: ps, cl =>
    match s.deref p with
    | none => none
    | some c =>
      findClient s addr ps
        (if addr.host = c.ip.host ∧ addr.port = c.ip.port then some p else cl)

/-- The `while (hostsWaiting > 0)` loop of the `requestHost` branch, with
`hostsWaiting = n`.  Returns `host`, the array and the count after the loop. -/
def popHost (s : Server) : Nat → List (Option Nat) → Option (Option Nat × List (Option Nat) × Nat)
  | 0, w => some (none, w, 0)
  | n + 1, w =>
    match w[0]? with
    | none => none
    | some host =>
      let w1 : Option (List (Option Nat)) := if 0 < n then memmoveWaiting w 0 1 n else some w
      match w1 with
      | none => none
      | some w1 =>
        match host with
        | none => popHost s n w1
        | some h =>
          match s.deref h with
          | none => none
          | some hc =>
            if hc.status = client_status_hostWaiting then some (some h, w1, n)
            else popHost s n w1

/-- The ten bytes `[id:u32][host:u32][port:u16]` the server builds in `buf`. -/
def pairingBytes (id : Nat) (ip : IPaddress) : List Nat :=
  SDLNet_Write32 id ++ SDLNet_Write32 ip.host ++ SDLNet_Write16 ip.port

/-- Fill the packet with a ten-byte pairing message about client `about` and send it
to client `dest` with `sendPacket`. -/
def sendPairing (s : Server) (id about dest : Nat) : Option Server :=
  match s.deref about with
  | none => none
  | some a =>
    sendPacket
      { s with packet :=
          { s.packet with data := memcpy s.packet.data (pairingBytes id a.ip), len := 10 } }
      dest

/-- The `requestHost` branch.  The condition `cl->status = client_status_free` is an
assignment: it stores `client_status_free` and its value, `2`, is the truth value
tested, so the `else if (cl->partner != NULL)` arm is taken only if that value is `0`. -/
def requestHostBranch (s : Server) (cl : Nat) : Option Server :=
  match s.deref cl with
  | none => none
  | some c =>
    let s1 := s.store cl { c with status := client_status_free }
    if client_status_free ≠ 0 then
      match popHost s1 s1.hostsWaiting s1.waiting with
      | none => none
      | some (none, w, n) =>
        sendMessage { s1 with waiting := w, hostsWaiting := n } cl message_type_noHost
      | some (some host, w, n) =>
        let s2 := { s1 with waiting := w, hostsWaiting := n }
        match s2.deref cl with
        | none => none
        | some c2 =>
          let s3 := s2.store cl { c2 with partner := some host }
          match s3.deref host with
          | none => none
          | some h3 =>
            let s4 := s3.store host { h3 with partner := some cl }
            match s4.deref cl with
            | none => none
            | some c4 =>
              let s5 := s4.store cl { c4 with status := client_status_inGame }
              match s5.deref host with
              | none => none
              | some h5 =>
                let s6 := s5.store host { h5 with status := client_status_inGame }
                match sendPairing s6 message_type_requestHost cl host with
                | none => none
                | some s7 =>
                  match s7.deref cl with
                  | none => none
                  | some c7 =>
                    match c7.partner with
                    | none => none
                    | some q => sendPairing s7 message_type_foundHost q cl
    else
      match c.partner with
      | none => some s1
      | some q => sendPairing s1 message_type_foundHost q cl

/-- `SDLNet_UDP_Recv(sd, packet)` returning a datagram from `src`: at most
`maxlen = 512` bytes are stored; bytes of the packet beyond them keep their value. -/
def Server.recv (s : Server) (src : IPaddress) (bytes : List Nat) : Server :=
  { s with packet := ⟨memcpy s.packet.data (bytes.take 512), (bytes.take 512).length, src⟩ }

/-- The value `main` reads into `packID`: `SDLNet_Read32` of the first four bytes of
the packet buffer. -/
def Server.packID (s : Server) : Nat :=
  SDLNet_Read32 (s.packet.data.take 4)

/-- One iteration of the loop of `main` in which `SDLNet_UDP_Recv` returned a
datagram.  `ticks` is the value of `SDL_GetTicks()`; `i0`, `j0` as in `resetClient`.
The `checkHost` arm writes ten bytes through the outer four-byte `buf`; it is
embedded with the ten bytes it copies into the packet. -/
def onPacket (i0 j0 : Int) (ticks : Nat) (src : IPaddress) (bytes : List Nat) (s0 : Server) :
    Option Server :=
  let s := s0.recv src bytes
  let packID := s.packID
  match findClient s s.packet.address s.client none with
  | none => none
  | some cl =>
    if packID = message_type_connect then
      match cl with
      | none =>
        if s.client.length < MAX_CLIENTS then
          some ({ s with
            heap := s.heap ++ [some (Client.mk s.packet.address none ticks client_status_free)]
            client := s.client ++ [s.heap.length] }).send
        else some s
      | some cl => resetClient i0 j0 s.send cl
    else
      match cl with
      | none => some s
      | some cl =>
        match s.deref cl with
        | none => none
        | some c =>
          if packID = message_type_quit then resetClient i0 j0 s cl
          else if packID = message_type_startHost ∧ c.status = client_status_free then
            if s.hostsWaiting < MAX_HOSTS_WAITING then
              match sendMessage s cl message_type_startHost with
              | none => none
              | some s1 =>
                if s1.hostsWaiting < s1.waiting.length then
                  some { s1 with
                    waiting := s1.waiting.set s1.hostsWaiting (some cl)
                    heap := s1.heap.set cl (some { c with status := client_status_hostWaiting })
                    hostsWaiting := s1.hostsWaiting + 1 }
                else none
            else some s
          else if packID = message_type_checkHost then
            match c.partner with
            | none => some s
            | some q => sendPairing s message_type_requestHost q cl
          else if packID = message_type_requestHost then requestHostBranch s cl
          else if packID < 10000 ∨ packID = message_type_check then
            match c.partner with
            | none => some s
            | some q => sendPacket s q
          else some s

/-- The stale-client sweep `for (int i = 0; i < clientNum; i++)` at index `i` with
`n` iterations of budget (the loop runs at most `clientNum` times).  A deletion
shifts the rest of the table down and the loop still increments `i`.  The
`memmove` of a deletion copies `clientNum - i` pointers, so it reads the slot
`client[clientNum]`, which lies outside the array when the table is full; the value
it copies lands behind the new `clientNum` and is never read. -/
def sweepFrom (t : Nat) : Nat → Nat → Server → Option Server
  | 0, _, s => some s
  | n + 1, i, s =>
    if i < s.client.length then
      match s.client[i]? with
      | none => none
      | some p =>
        match s.deref p with
        | none => none
        | some c =>
          if (t + 2 ^ 32 - c.msgTime % 2 ^ 32) % 2 ^ 32 > 600000 then
            if s.client.length < MAX_CLIENTS then
              sweepFrom t n (i + 1)
                { s with heap := s.heap.set p none, client := s.client.eraseIdx i }
            else none
          else sweepFrom t n (i + 1) s
    else some s

/-- One iteration of the loop of `main` in which no datagram was pending;
`t = SDL_GetTicks()`. -/
def sweep (t : Nat) (s : Server) : Option Server :=
  sweepFrom t s.client.length 0 s

/-- What one iteration of the server loop meets. -/
inductive Input where
  | packet (i0 j0 : Int) (ticks : Nat) (src : IPaddress) (bytes : List Nat)
  | idle (t : Nat)

/-- One iteration of `while (!quit)`. -/
def step (s : Server) : Input → Option Server
  | .packet i0 j0 ticks src bytes => onPacket i0 j0 ticks src bytes s
  | .idle t => sweep t s

/-- Any number of iterations. -/
def run : Server → List Input → Option Server
  | s, [] => some s
  | s, x :: xs =>
    match step s x with
    | none => none
    | some s1 => run s1 xs

/-! ## NetworkConnection.h / NetworkConnection.cpp -/

def NET_MAX_PACKET_SIZE : Nat := 512
def HASH_NUM : Nat := 5

/-- The `enum nc_event` of lifecycle events. -/
inductive nc_event where
  | connectedToServer
  | hostWaiting
  | foundClient
  | noHost
  | foundHost
  | connectionFailed
  | timeOut
  | newGame
  | playerQuit
  | connectionLost
  | reconnected
deriving DecidableEq, Repr

/-- The members of `class NetworkConnection` used by the session layer.  `std::queue`
and `std::list` are lists with the front at the head; a `PacketData` is the list of
its `size` bytes.  `events` logs `pushEvent`, `sent` logs `SDLNet_UDP_Send`.  The
`float pingTime` is not represented. -/
structure NetworkConnection where
  packet : Option UDPpacket
  serverAddress : IPaddress
  partnerAddress : IPaddress
  messageQueue : List Nat
  missingPackList : List Nat
  sentPackets : List (List Nat)
  lastPackID : Nat
  minPackRcvd : Nat
  sendBuff : List Nat
  sendSize : Nat
  sendCount : Nat
  connectedToInternetServer : Bool
  p2p : Bool
  hash : List Nat
  startTime : Nat
  inSync : Bool
  pauseTime : Nat
  events : List nc_event
  sent : List Datagram
deriving DecidableEq, Repr

/-- The constructor `NetworkConnection::NetworkConnection()`.  It assigns `lastPackID`,
`sendSize`, `sendCount`, `connectedToInternetServer`, `packet`, `p2p`, `startTime`,
`pauseTime` and `inSync`; the
members it leaves unassigned (`minPackRcvd`, `hash`, the two addresses, `sendBuff`)
hold whatever the object's storage holds and are parameters here. -/
def NetworkConnection.construct (ticks minPackRcvd0 : Nat) (hash0 sendBuff0 : List Nat)
    (serverAddress0 partnerAddress0 : IPaddress) : NetworkConnection where
  packet := none
  serverAddress := serverAddress0
  partnerAddress := partnerAddress0
  messageQueue := []
  missingPackList := []
  sentPackets := []
  lastPackID := 0
  minPackRcvd := minPackRcvd0
  sendBuff := sendBuff0
  sendSize := 0
  sendCount := 0
  connectedToInternetServer := false
  p2p := false
  hash := hash0
  startTime := ticks
  inSync := true
  pauseTime := 0
  events := []
  sent := []

/-- `NetworkConnection::pushEvent`. -/
def NetworkConnection.pushEvent (net : NetworkConnection) (e : nc_event) : NetworkConnection :=
  { net with events := net.events ++ [e] }

/-- The destination the session currently sends to. -/
def NetworkConnection.target (net : NetworkConnection) : IPaddress :=
  if net.p2p then net.partnerAddress else net.serverAddress

/-- The session together with the locals of `sendRecUDP` that live across iterations
of its loop. -/
structure RecvLoop where
  net : NetworkConnection
  minPackRvd : Nat
  connected : Bool
  lastTime : Nat
  lastCheck : Nat
  lastTimeServer : Nat
  acceptLastPack : Bool
  hashFail : Int
  playerTime : Nat
deriving DecidableEq, Repr

/-- The locals of `sendRecUDP` when its loop is entered at time `time`. -/
def RecvLoop.enter (net : NetworkConnection) (time : Nat) : RecvLoop where
  net := net
  minPackRvd := 0
  connected := true
  lastTime := time
  lastCheck := time
  lastTimeServer := time
  acceptLastPack := false
  hashFail := 0
  playerTime := 0

/-- The list after `push_front(lo)`, `push_front(lo + 1)`, ... up to but excluding
`hi`: the loops `for (int i = lo; i < hi; i++) missingPackList.push_front(i)`. -/
def pushFrontRange (lo hi : Nat) (l : List Nat) : List Nat :=
  (List.range' lo (hi - lo)).reverse ++ l

/-- Word `i` of the receive buffer: `SDLNet_Read32` of `buf[4 i .. 4 i + 3]`. -/
def wordAt (buf : List Nat) (i : Nat) : Nat :=
  SDLNet_Read32 ((buf.drop (i * 4)).take 4)

/-- The body of the word loop for `i = 0`.  The result is the new state and `none`
when the body ends in `break`, else the flag `check` and the value of `i` at the end
of the body (`1` after the `i++` of the ping arm). -/
def onFirstWord (packLen : Nat) (packID : Nat) (st : RecvLoop) :
    RecvLoop × Option (Bool × Nat) :=
  if packID = message_type_check then (st, some (true, 0))
  else if packID = message_type_quit then
    ({ st with net := st.net.pushEvent nc_event.playerQuit }, some (false, 0))
  else if packID = message_type_ping then
    if packLen = 8 then (st, some (false, 1)) else (st, some (false, 0))
  else if packID > 10000 ∨ (packID = st.net.lastPackID ∧ st.acceptLastPack = false) then
    (st, none)
  else if packID ≤ st.net.lastPackID then
    let st1 := if packID = st.net.lastPackID then { st with acceptLastPack := false } else st
    let l := st1.net.missingPackList.filter (fun x => x ≠ packID)
    let st2 := { st1 with net := { st1.net with missingPackList := l } }
    if st1.net.missingPackList.length = l.length then (st2, none)
    else (st2, some (false, 0))
  else
    let l :=
      if packID > st.net.lastPackID + 1 then
        pushFrontRange (st.net.lastPackID + 1) packID st.net.missingPackList
      else st.net.missingPackList
    ({ st with
        lastTime := 0
        acceptLastPack := false
        net := { st.net with
          missingPackList := l
          lastPackID := packID
          minPackRcvd := if l.isEmpty then packID else st.net.minPackRcvd } },
      some (false, 0))

/-- Some packet stored in `sentPackets` has `id < minPackRvd`: the test under which
the last arm of the body for check packets calls `sentPackets.erase(it)`. -/
def erasesStored (st : RecvLoop) : Bool :=
  st.net.sentPackets.any (fun pd => decide (SDLNet_Read32 (pd.take 4) < st.minPackRvd))

/-- The body of the word loop for a word `u` at `i ≥ 1` of a check packet.  The last
arm (`i ≥ 5`, a missing id) iterates over `sentPackets` and sends again every entry
whose `id` is `u`.  For an entry with `id < minPackRvd` it calls
`sentPackets.erase(it)` on the iterator of the running loop, which `++it` then
increments (and frees the bytes, allocated with `new[]`, with `delete`): that is
undefined, and the result is `none`. -/
def onCheckWord (i u : Nat) (st : RecvLoop) : Option RecvLoop :=
  if i = 1 then
    some { st with
      playerTime := u
      net := { st.net with
        sent := st.net.sent ++
          [⟨st.net.target, SDLNet_Write32 message_type_ping ++ SDLNet_Write32 u⟩] } }
  else if i = 2 then
    if 0 < HASH_NUM ∧ st.net.pauseTime = 0 then
      if u ∈ st.net.hash.take HASH_NUM then
        some { st with hashFail := 0, net := { st.net with inSync := true } }
      else if st.hashFail + 1 > 3 then
        some { st with hashFail := st.hashFail + 1, net := { st.net with inSync := false } }
      else some { st with hashFail := st.hashFail + 1 }
    else some { st with hashFail := 0 }
  else if i = 3 then some { st with minPackRvd := u }
  else if i = 4 then
    if u > st.net.lastPackID then
      some { st with
        acceptLastPack := true
        lastTime := 0
        net := { st.net with
          missingPackList :=
            pushFrontRange (st.net.lastPackID + 1) ((u + 1) % 2 ^ 32) st.net.missingPackList
          lastPackID := u } }
    else some st
  else if erasesStored st = true then none
  else
    some { st with
      net := { st.net with
        sent := st.net.sent ++
          ((st.net.sentPackets.filter (fun pd => SDLNet_Read32 (pd.take 4) = u)).map
            (fun pd => (⟨st.net.target, pd⟩ : Datagram))) } }

/-- The body of the word loop for a word `u` at `i ≥ 1` of a packet that is not a
check packet. -/
def onDataWord (u : Nat) (st : RecvLoop) : RecvLoop :=
  let net1 := if u = message_type_newGame then st.net.pushEvent nc_event.newGame else st.net
  { st with net := { net1 with messageQueue := net1.messageQueue ++ [u] } }

/-- The body of the word loop at index `i ≥ 1`. -/
def wordStep (check : Bool) (buf : List Nat) (i : Nat) (st : RecvLoop) : Option RecvLoop :=
  if check then onCheckWord i (wordAt buf i) st else some (onDataWord (wordAt buf i) st)

/-- The word loop `for (...; i < pack->len / 4; i++)` from index `i ≥ 1` on, with `k`
iterations of budget. -/
def wordLoop (check : Bool) (buf : List Nat) (n : Nat) : Nat → Nat → RecvLoop → Option RecvLoop
  | 0, _, st => some st
  | k + 1, i, st =>
    if i < n then
      match wordStep check buf i st with
      | none => none
      | some st1 => wordLoop check buf n k (i + 1) st1
    else some st

/-- The first statements of the body of `if (SDLNet_UDP_Recv(net->udpSD, pack))` in
`sendRecUDP`: `lastCheck = currentTime`, and the event `reconnected` when the link
was flagged as lost. -/
def markReceived (currentTime : Nat) (st0 : RecvLoop) : RecvLoop :=
  let st1 := { st0 with lastCheck := currentTime }
  if st1.connected = false then
    { st1 with connected := true, net := st1.net.pushEvent nc_event.reconnected }
  else st1

/-- The body of `if (SDLNet_UDP_Recv(net->udpSD, pack))` in `sendRecUDP` for a
datagram `bytes` met at `currentTime`; the packet holds at most 512 bytes.  The check
arm for `i = 1` overwrites `buf[0..7]`, which no later iteration reads.  `none` when
the word loop runs into the erase of `onCheckWord`. -/
def processPacket (currentTime : Nat) (bytes : List Nat) (st0 : RecvLoop) : Option RecvLoop :=
  let buf := bytes.take 512
  let st2 := markReceived currentTime st0
  if buf.length ≥ 4 then
    if 0 < buf.length / 4 then
      match onFirstWord buf.length (wordAt buf 0) st2 with
      | (st3, none) => some st3
      | (st3, some (check, i)) => wordLoop check buf (buf.length / 4) (buf.length / 4) (i + 1) st3
    else some st2
  else some st2

/-- The receive loop over a list of datagrams, each with the time it is met at. -/
def processAll : RecvLoop → List (Nat × List Nat) → Option RecvLoop
  | st, [] => some st
  | st, d :: ds =>
    match processPacket d.1 d.2 st with
    | none => none
    | some st1 => processAll st1 ds

/-- A datagram is a payload datagram with sequence number `q`: it has a first word,
and that word is `q`, below 10000. -/
def IsPayload (bytes : List Nat) (q : Nat) : Prop :=
  4 ≤ bytes.length ∧ wordAt bytes 0 = q ∧ q < 10000

/-- A datagram is a check beacon whose `send_count` field, when present, is below 10000. -/
def IsBeacon (bytes : List Nat) : Prop :=
  4 ≤ bytes.length ∧ wordAt bytes 0 = message_type_check ∧
    (20 ≤ bytes.length → wordAt bytes 4 < 10000)

/-! ## Properties of server states and the inputs used to exercise them -/

/-- Partner symmetry: whenever a record of the table has a partner, the partner is a
record whose partner is the first one. -/
def PartnerSymmetric (s : Server) : Prop :=
  ∀ a ∈ s.client, ∀ ca, s.deref a = some ca → ∀ b, ca.partner = some b →
    ∃ cb, s.deref b = some cb ∧ cb.partner = some a

/-- Waiting-list invariant: each of the first `hostsWaiting` slots of `waiting` points
to a record whose status is `hostWaiting`. -/
def WaitingInv (s : Server) : Prop :=
  ∀ k, k < s.hostsWaiting →
    ∃ p c, s.waiting[k]? = some (some p) ∧ s.deref p = some c ∧
      c.status = client_status_hostWaiting

/-- The age test of the sweep for the record at `p`: `t - msgTime > 600000` in
`Uint32` arithmetic. -/
def isStale (t : Nat) (s : Server) (p : Nat) : Bool :=
  match s.deref p with
  | none => false
  | some c => decide ((t + 2 ^ 32 - c.msgTime % 2 ^ 32) % 2 ^ 32 > 600000)

/-- The table the sweep leaves, given which entries pass the age test: an entry
that passes is dropped and the entry after it is kept without being tested. -/
def sweepKeep (stale : Nat → Bool) : List Nat → List Nat
  | [] => []
  | [p] => if stale p then [] else [p]
  | p :: q :: ps => if stale p then q :: sweepKeep stale ps else p :: sweepKeep stale (q :: ps)

/-- Three endpoints used in the concrete runs below. -/
def epH : IPaddress := ⟨1, 10⟩
def epJ : IPaddress := ⟨2, 20⟩
def epK : IPaddress := ⟨3, 30⟩

/-- A four-byte datagram carrying the single word `id`, received from `src` at tick
`0`, with both loop counters of `resetClient` starting from `0`. -/
def word (src : IPaddress) (id : Nat) : Input :=
  .packet 0 0 0 src (SDLNet_Write32 id)

/-- H and J connect, H starts hosting, J requests a host: H and J are paired. -/
def pairTrace : List Input :=
  [word epH message_type_connect, word epJ message_type_connect,
   word epH message_type_startHost, word epJ message_type_requestHost]

/-- After `pairTrace`, a third client K connects and starts hosting, and J sends
`requestHost` once more. -/
def pairTwiceTrace : List Input :=
  pairTrace ++ [word epK message_type_connect, word epK message_type_startHost,
    word epJ message_type_requestHost]

/-- The input is a datagram from endpoint `e` whose first word is `connect`. -/
def IsConnectFrom (e : IPaddress) : Input → Prop
  | .packet _ _ _ src bytes =>
    src = e ∧ 4 ≤ bytes.length ∧ wordAt bytes 0 = message_type_connect
  | .idle _ => False

/-- The echo of a datagram back to `e`: the bytes the packet buffer received. -/
def echoTo (e : IPaddress) : Input → List Datagram
  | .packet _ _ _ _ bytes => [⟨e, bytes.take 512⟩]
  | .idle _ => []

/-- The state reached by `pairTrace`: H (record 0) and J (record 1) are paired. -/
def pairedState : Server :=
  (run Server.init pairTrace).getD Server.init

/-- A state with two entries in the waiting list: K (record 0) started hosting and
quit while the loop counter of `resetClient` started from `1`, so its entry stayed;
then H (record 1) started hosting and J (record 2) connected. -/
def staleHeadState : Server :=
  (run Server.init
    [word epK message_type_connect, word epK message_type_startHost,
     .packet 1 0 0 epK (SDLNet_Write32 message_type_quit),
     word epH message_type_connect, word epH message_type_startHost,
     word epJ message_type_connect]).getD Server.init

/-- The bookkeeping invariant of the receive loop, for the set `seen` of sequence
numbers of the payload datagrams received so far: `missing` holds exactly the
numbers in `[1, last]` not seen; when `accept` (the local `acceptLastPack`) is off,
`last` is `0` or has been seen; and no number above `last` has been seen. -/
def MissingInv (missing : List Nat) (last : Nat) (accept : Bool) (seen : Nat → Prop) : Prop :=
  (∀ q, q ∈ missing ↔ 1 ≤ q ∧ q ≤ last ∧ ¬ seen q) ∧
  (accept = false → last = 0 ∨ seen last) ∧
  (∀ q, seen q → q ≤ last)

/-- A freshly constructed session whose receive loop is entered at time `0`. -/
def freshLoop : RecvLoop :=
  RecvLoop.enter (NetworkConnection.construct 0 0 [0, 0, 0, 0, 0] [] ⟨0, 55777⟩ ⟨0, 0⟩) 0

/-- Three payload datagrams with sequence numbers 1, 2 and 4, one word each. -/
def lossTrace : List (Nat × List Nat) :=
  [(0, SDLNet_Write32 1 ++ SDLNet_Write32 7), (0, SDLNet_Write32 2 ++ SDLNet_Write32 8),
   (0, SDLNet_Write32 4 ++ SDLNet_Write32 9)]

/-! ## The application interface of the session -/

/-- `memcpy(&dst[off], src, src.length)`. -/
def memcpyAt (dst : List Nat) (off : Nat) (src : List Nat) : List Nat :=
  dst.take off ++ src ++ dst.drop (off + src.length)

/-- `NetworkConnection::addToSendBuf`. -/
def addToSendBuf (data : Nat) (net : NetworkConnection) : NetworkConnection :=
  if net.sendSize ≥ NET_MAX_PACKET_SIZE then net
  else
    { net with
      sendBuff := memcpyAt net.sendBuff net.sendSize (SDLNet_Write32 data)
      sendSize := net.sendSize + 4 }

/-- `NetworkConnection::sendUdpPacket`.  `packet->maxlen` is the size of the data
area of the packet.  The function fills the packet, pushes a copy of the buffer to
the front of `sentPackets`, sets the packet address and resets the buffer; it
contains no call of `SDLNet_UDP_Send`. -/
def sendUdpPacket (net : NetworkConnection) : NetworkConnection :=
  match net.packet with
  | none => net
  | some pkt =>
    if pkt.data.length < net.sendSize then net
    else
      { net with
        packet := some
          ⟨memcpy pkt.data (net.sendBuff.take net.sendSize), net.sendSize, net.target⟩
        sentPackets := net.sendBuff.take net.sendSize :: net.sentPackets
        sendCount := (net.sendCount + 1) % 2 ^ 32
        sendBuff := memcpy net.sendBuff
          (SDLNet_Write32 (((net.sendCount + 1) % 2 ^ 32 + 1) % 2 ^ 32))
        sendSize := 4 }

/-- `NetworkConnection::pullMessage`: the value stored through `msg` (if the call
returns true) and the session afterwards. -/
def pullMessage (net : NetworkConnection) : Option Nat × NetworkConnection :=
  match net.messageQueue with
  | [] => (none, net)
  | m :: rest => (some m, { net with messageQueue := rest })

/-- The results of `k` successive calls of `pullMessage`. -/
def pullMessages : Nat → NetworkConnection → List (Option Nat)
  | 0, _ => []
  | k + 1, net => (pullMessage net).1 :: pullMessages k (pullMessage net).2

/-- `NetworkConnection::updateHash`.  The `memmove` copies `HASH_NUM - 1 = 4` bytes
from `&hash` to `&hash[1]`; an entry has four bytes, so it copies
`(HASH_NUM - 1) / 4 = 1` entry. -/
def updateHash (h : Nat) (net : NetworkConnection) : NetworkConnection :=
  { net with
    hash :=
      ((net.hash.take 1 ++ net.hash.take ((HASH_NUM - 1) / 4) ++
        net.hash.drop (1 + (HASH_NUM - 1) / 4)).set 0 h) }

/-- A call the application makes on the sending side. -/
inductive SendOp where
  | add (data : Nat)
  | send

/-- The effect of one call. -/
def SendOp.apply (net : NetworkConnection) : SendOp → NetworkConnection
  | .add data => addToSendBuf data net
  | .send => sendUdpPacket net

/-- The effect of a sequence of calls. -/
def applyOps (net : NetworkConnection) (ops : List SendOp) : NetworkConnection :=
  ops.foldl SendOp.apply net

/-! ## Connecting to the server -/

/-- What the network and the clock do while `connectToInternetServer` runs:
the result of `SDLNet_ResolveHost`, the data area `SDLNet_AllocPacket` returns (if
any), the results of the successive calls of `SDLNet_UDP_Send` (a call beyond the
list succeeds), the value of `SDL_GetTicks()` before the wait loop, and for each
turn of the wait loop the datagram `SDLNet_UDP_Recv` returns, if any, and the value
of `SDL_GetTicks()` read in that turn. -/
structure ConnectEnv where
  resolve : Option IPaddress
  alloc : Option (List Nat)
  sends : List Bool
  startTicks : Nat
  polls : List (Option (IPaddress × List Nat) × Nat)

/-- One call of `SDLNet_UDP_Send(udpSD, -1, packet)` by the session: whether it
succeeded, the results left for later calls, and the session (a datagram is logged
when the call succeeds). -/
def clientSend (sends : List Bool) (net : NetworkConnection) :
    Bool × List Bool × NetworkConnection :=
  match net.packet with
  | none => (false, sends, net)
  | some pkt =>
    match sends with
    | false :: rest => (false, rest, net)
    | true :: rest => (true, rest, { net with sent := net.sent ++ [pkt.wire] })
    | [] => (true, [], { net with sent := net.sent ++ [pkt.wire] })

/-- Store a four-byte message in the packet: `memcpy(packet->data, buf, 4)` and
`packet->len = 4`. -/
def setWord (msg : Nat) (net : NetworkConnection) : NetworkConnection :=
  { net with
    packet := net.packet.map fun (pkt : UDPpacket) =>
      UDPpacket.mk (memcpy pkt.data (SDLNet_Write32 msg)) 4 pkt.address }

/-- The wait loop of `connectToInternetServer`.  The result is `none` when the
script of the environment ends while the loop is still running. -/
def connectWait (startTime : Nat) :
    List (Option (IPaddress × List Nat) × Nat) → Nat → List Bool → NetworkConnection →
      Option (Int × List Bool × NetworkConnection)
  | [], _, _, _ => none
  | (some (src, bytes), _) :: _, _, sends, net =>
    let net1 := { net with
      packet := net.packet.map fun (pkt : UDPpacket) =>
        UDPpacket.mk (memcpy pkt.data (bytes.take pkt.data.length))
          (bytes.take pkt.data.length).length src }
    some (1, sends,
      { net1 with
        connectedToInternetServer := true
        sendBuff := memcpy net1.sendBuff (SDLNet_Write32 ((net1.sendCount + 1) % 2 ^ 32))
        sendSize := 4 })
  | (none, currentTime) :: rest, lastTime, sends, net =>
    if currentTime > (lastTime + 500) % 2 ^ 32 then
      match clientSend sends (setWord message_type_connect net) with
      | (false, sends1, net1) => some (0, sends1, net1)
      | (true, sends1, net1) =>
        if currentTime > (startTime + 10000) % 2 ^ 32 then some (0, sends1, net1)
        else connectWait startTime rest currentTime sends1 net1
    else if currentTime > (startTime + 10000) % 2 ^ 32 then some (0, sends, net)
    else connectWait startTime rest lastTime sends net

/-- The part of `connectToInternetServer` from the first send of `connect` on. -/
def connectFrom (env : ConnectEnv) (net : NetworkConnection) :
    Option (Int × List Bool × NetworkConnection) :=
  match clientSend env.sends (setWord message_type_connect net) with
  | (false, sends1, net1) => some (0, sends1, net1)
  | (true, sends1, net1) => connectWait env.startTicks env.polls env.startTicks sends1 net1

/-- `NetworkConnection::connectToInternetServer`: its return value (`0` or `1`), the
send results left, and the session afterwards.  `none` when the wait loop outlasts
the script, or when `packet` is a null pointer although the session is flagged as
connected. -/
def connectToInternetServer (env : ConnectEnv) (net : NetworkConnection) :
    Option (Int × List Bool × NetworkConnection) :=
  if net.connectedToInternetServer = false then
    match env.resolve with
    | none => some (0, env.sends, net)
    | some ip =>
      match net.packet with
      | some pkt =>
        connectFrom env { net with
          serverAddress := ip
          packet := some (UDPpacket.mk pkt.data pkt.len ip) }
      | none =>
        match env.alloc with
        | none => some (0, env.sends, net)
        | some data =>
          connectFrom env { net with
            serverAddress := ip
            packet := some (UDPpacket.mk data 0 ip) }
  else
    match net.packet with
    | none => none
    | some pkt =>
      connectFrom env { net with
        packet := some (UDPpacket.mk pkt.data pkt.len net.serverAddress)
        p2p := false }

/-- How far a role thread got: it returned with a value, or it reached its first
wait loop. -/
inductive Progress where
  | returned (code : Int)
  | waiting
deriving DecidableEq, Repr

/-- The common part of the two role threads after the handshake: the event
`connectedToServer` and the first send of the role message (`startHost` or
`requestHost`).  `none` when `net->packet` is a null pointer at
`net->packet->address = net->serverAddress`. -/
def roleStart (role : Nat) (sends : List Bool) (net : NetworkConnection) :
    Option (Progress × NetworkConnection) :=
  let net1 := net.pushEvent nc_event.connectedToServer
  match net1.packet with
  | none => none
  | some pkt =>
    match clientSend sends { net1 with
        packet := some
          (UDPpacket.mk (memcpy pkt.data (SDLNet_Write32 role)) pkt.len net1.serverAddress) } with
    | (false, _, net3) => some (Progress.returned (-1), net3)
    | (true, _, net3) => some (Progress.waiting, net3)

/-- `netStartHost` up to its first wait loop. -/
def netStartHost (env : ConnectEnv) (net : NetworkConnection) :
    Option (Progress × NetworkConnection) :=
  match connectToInternetServer env net with
  | none => none
  | some (ret, sends, net1) =>
    if ret = -1 then
      some (Progress.returned (-1), net1.pushEvent nc_event.connectionFailed)
    else roleStart message_type_startHost sends net1

/-- `netConnectToHost` up to its first wait loop. -/
def netConnectToHost (env : ConnectEnv) (net : NetworkConnection) :
    Option (Progress × NetworkConnection) :=
  if net.connectedToInternetServer = false then
    match connectToInternetServer env net with
    | none => none
    | some (ret, sends, net1) =>
      if ret = -1 then
        some (Progress.returned (-1), net1.pushEvent nc_event.connectionFailed)
      else roleStart message_type_requestHost sends net1
  else roleStart message_type_requestHost env.sends net

/-! ## Sessions and environments used in the concrete runs -/

/-- A freshly constructed session whose storage happened to hold zeros, except for
`minPackRcvd`, which holds `garbage`. -/
def constructed (garbage : Nat) : NetworkConnection :=
  NetworkConnection.construct 0 garbage [0, 0, 0, 0, 0] (List.replicate 512 0) ⟨0, 0⟩ ⟨0, 0⟩

/-- The server answers the first `connect` at once. -/
def replyEnv : ConnectEnv :=
  ⟨some ⟨7, 55777⟩, some (List.replicate 512 0), [], 0,
    [(some (⟨7, 55777⟩, SDLNet_Write32 message_type_connect), 0)]⟩

/-- No datagram arrives; the clock is read at 400, 501 and 10001 ms. -/
def timeoutEnv : ConnectEnv :=
  ⟨some ⟨7, 55777⟩, some (List.replicate 512 0), [], 0,
    [(none, 400), (none, 501), (none, 10001)]⟩

/-- The first `SDLNet_UDP_Send` fails; later ones succeed. -/
def sendFailEnv : ConnectEnv :=
  ⟨some ⟨7, 55777⟩, some (List.replicate 512 0), [false], 0, []⟩

/-- The session after a successful `connectToInternetServer`. -/
def connectedSession : NetworkConnection :=
  match connectToInternetServer replyEnv (constructed 0) with
  | some (_, _, net) => net
  | none => constructed 0

/-- The bounds of the outbound buffer: the array has `NET_MAX_PACKET_SIZE` bytes, and
`sendSize` is a multiple of four not above that size. -/
def SendBufInv (net : NetworkConnection) : Prop :=
  net.sendBuff.length = NET_MAX_PACKET_SIZE ∧ net.sendSize % 4 = 0 ∧
    net.sendSize ≤ NET_MAX_PACKET_SIZE

/-- The session after `updateHash(1)`, `updateHash(2)`, `updateHash(3)` on a
constructed session whose hash array held zeros, flagged as out of sync. -/
def threeHashes : NetworkConnection :=
  { updateHash 3 (updateHash 2 (updateHash 1 (constructed 0))) with inSync := false }

/-- A check beacon that carries the state hash `h` (word 2). -/
def IsHashBeacon (bytes : List Nat) (h : Nat) : Prop :=
  12 ≤ bytes.length ∧ wordAt bytes 0 = message_type_check ∧ wordAt bytes 2 = h

/-- A receive loop entered at time `0` that has flagged the link as lost. -/
def lostLoop : RecvLoop :=
  { freshLoop with connected := false }

/-- The sequence number of a stored packet: `SDLNet_Read32` of its first four bytes. -/
def packetSeq (pd : List Nat) : Nat :=
  SDLNet_Read32 (pd.take 4)

/-- The connected session after two calls of `sendUdpPacket`: `sentPackets` holds the
packets with sequence numbers 2 and 1, and `sendCount = 2`. -/
def twoSent : RecvLoop :=
  RecvLoop.enter (applyOps connectedSession [SendOp.send, SendOp.send]) 0

/-- Four beacons carrying the state hash `9`. -/
def desyncTrace : List (Nat × List Nat) :=
  List.replicate 4
    (0, SDLNet_Write32 message_type_check ++ SDLNet_Write32 0 ++ SDLNet_Write32 9)

/-- The sequence number `q` is done: it is at or below `lastPackID`, not on the
missing list, and if it is `lastPackID` itself then `acceptLastPack` is off. -/
def SeqDone (st : RecvLoop) (q : Nat) : Prop :=
  q ≤ st.net.lastPackID ∧ q ∉ st.net.missingPackList ∧
    (q = st.net.lastPackID → st.acceptLastPack = false)

/-- No number on the missing list is above `lastPackID`. -/
def MissingBelow (st : RecvLoop) : Prop :=
  ∀ x ∈ st.net.missingPackList, x ≤ st.net.lastPackID

/-- The receive loop accepts the datagram: the body for the first word does not end
in `break`, so the words behind it are processed. -/
def Accepts (st : RecvLoop) (bytes : List Nat) : Prop :=
  4 ≤ bytes.length ∧
    (onFirstWord (bytes.take 512).length (wordAt bytes 0) st).2 ≠ none


/-- The connected session after 10000 calls of `sendUdpPacket`. -/
def lateSender : NetworkConnection :=
  applyOps connectedSession (List.replicate 10000 SendOp.send)

/-- The calls `addToSendBuf(w1)`, ..., `addToSendBuf(wk)`. -/
def addWords (ws : List Nat) (net : NetworkConnection) : NetworkConnection :=
  ws.foldl (fun n w => addToSendBuf w n) net

/-- The bytes of a payload datagram: the sequence number, then the words. -/
def payloadBytes (s : Nat) (ws : List Nat) : List Nat :=
  SDLNet_Write32 s ++ ws.flatMap SDLNet_Write32

/-! ## The head of the loop of `sendRecUDP` -/

/-- The bytes `NetworkConnection::sendCheckPacket` writes to `buf`: the word 65535,
the time since `startTime` (in `Uint32` arithmetic), `hash[0]`, `minPackRcvd`,
`sendCount`, and the entries of `missingPackList`. -/
def checkBytes (ticks : Nat) (net : NetworkConnection) : List Nat :=
  SDLNet_Write32 65535 ++
  SDLNet_Write32 ((ticks + 2 ^ 32 - net.startTime % 2 ^ 32) % 2 ^ 32) ++
  SDLNet_Write32 (net.hash.getD 0 0) ++
  SDLNet_Write32 net.minPackRcvd ++
  SDLNet_Write32 net.sendCount ++
  net.missingPackList.flatMap SDLNet_Write32

/-- `NetworkConnection::sendCheckPacket`, with `ticks` the value of `SDL_GetTicks()`
in its body.  `none` when the words do not fit `char buf[512]`, that is with more than
123 entries in `missingPackList`.  The call of `SDLNet_UDP_Send` is logged in `sent`. -/
def sendCheckPacket (ticks : Nat) (net : NetworkConnection) : Option NetworkConnection :=
  if 5 + net.missingPackList.length > NET_MAX_PACKET_SIZE / 4 then none
  else some { net with sent := net.sent ++ [⟨net.target, checkBytes ticks net⟩] }

/-- `NetworkConnection::sendUdpMessage`: the word is written to `packet->data`, the
packet is addressed to `receiver` and sent.  `none` when `packet` is a null pointer. -/
def sendUdpMessage (message : Nat) (receiver : IPaddress) (net : NetworkConnection) :
    Option NetworkConnection :=
  match net.packet with
  | none => none
  | some pkt =>
    some { net with
      packet := some (UDPpacket.mk (memcpy pkt.data (SDLNet_Write32 message)) 4 receiver)
      sent := net.sent ++
        [UDPpacket.wire (UDPpacket.mk (memcpy pkt.data (SDLNet_Write32 message)) 4 receiver)] }

/-- The interval `timeLen` the loop selects: 500 when the `min_pack_rcvd` last read
from a beacon of the peer equals `sendCount`, else 200. -/
def timeLen (st : RecvLoop) : Nat :=
  if st.minPackRvd = st.net.sendCount then 500 else 200

/-- The part of one iteration of the loop of `sendRecUDP` ahead of
`SDLNet_UDP_Recv`, at `currentTime`: the test for a lost link, the choice of
`timeLen`, the regular check packet, and the ping that keeps the server informed
during a peer-to-peer connection.  The sums are `Uint32` sums. -/
def loopHead (currentTime ticks : Nat) (st : RecvLoop) : Option RecvLoop :=
  let st1 :=
    if st.connected = true ∧ currentTime > (st.lastCheck + 2000) % 2 ^ 32 then
      { st with connected := false, net := st.net.pushEvent nc_event.connectionLost }
    else st
  let r2 : Option RecvLoop :=
    if currentTime > (st1.lastTime + timeLen st1) % 2 ^ 32 then
      match sendCheckPacket ticks st1.net with
      | none => none
      | some net2 => some { st1 with lastTime := currentTime, net := net2 }
    else some st1
  match r2 with
  | none => none
  | some st2 =>
    if st2.net.p2p = true then
      if currentTime > (st2.lastTimeServer + 30000) % 2 ^ 32 then
        match sendUdpMessage message_type_ping st2.net.serverAddress st2.net with
        | none => none
        | some net3 => some { st2 with lastTimeServer := currentTime, net := net3 }
      else some st2
    else some st2

/-- One iteration of the loop of `sendRecUDP`: the head, then the body for the
datagram `SDLNet_UDP_Recv` delivers, if any. -/
def loopIter (currentTime ticks : Nat) (recv : Option (List Nat)) (st : RecvLoop) :
    Option RecvLoop :=
  match loopHead currentTime ticks st with
  | none => none
  | some st1 =>
    match recv with
    | none => some st1
    | some bytes => processPacket currentTime bytes st1

/-- The loop of `sendRecUDP` entered at time 0 on the session that has just
connected to the server: a fresh session, no payload sent or received. -/
def connectedLoop : RecvLoop :=
  RecvLoop.enter connectedSession 0

/-- The fresh session after the payloads 1, 2 and 4: the number 3 is missing. -/
def gapState : RecvLoop :=
  match processAll connectedLoop lossTrace with
  | some st => st
  | none => connectedLoop

/-- The state `gapState` after an iteration at time 1000 without a datagram: the
check packet with the missing number 3 has been sent. -/
def gapBeaconed : RecvLoop :=
  match loopHead 1000 1000 gapState with
  | some st => st
  | none => gapState

/-- The datagram `d` sends again a packet stored in `sentPackets` whose sequence number
is one of the missing-id entries (words 5 onward) of the beacon `bytes`. -/
def Retransmits (bytes : List Nat) (net : NetworkConnection) (d : Datagram) : Prop :=
  ∃ pd ∈ net.sentPackets, d = ⟨net.target, pd⟩ ∧
    ∃ j, 5 ≤ j ∧ j * 4 + 4 ≤ bytes.length ∧ wordAt bytes j = packetSeq pd

/-- The answer to the time word of a beacon: `ping` and the time read from word 1. -/
def pingEcho (bytes : List Nat) (net : NetworkConnection) : Datagram :=
  ⟨net.target, SDLNet_Write32 message_type_ping ++ SDLNet_Write32 (wordAt bytes 1)⟩

/-- A check beacon with `min_pack_rcvd = 1`, the peer's `send_count = 0` and the
missing-id entries 9 and 2. -/
def nakBeacon : List Nat :=
  SDLNet_Write32 message_type_check ++ SDLNet_Write32 0 ++ SDLNet_Write32 0 ++
    SDLNet_Write32 1 ++ SDLNet_Write32 0 ++ SDLNet_Write32 9 ++ SDLNet_Write32 2

/-- The beacon `bytes` does not make the receive loop erase an entry of the stored
packets `stored`: it is no check packet, or it has no missing-id entry (fewer than
six words), or no stored packet has a sequence number below its `min_pack_rcvd`
(word 3). -/
def NoErase (stored : List (List Nat)) (bytes : List Nat) : Prop :=
  wordAt bytes 0 = message_type_check → 24 ≤ bytes.length →
    ∀ pd ∈ stored, ¬ packetSeq pd < wordAt bytes 3

/-- The connected session after three calls of `sendUdpPacket`: `sentPackets` holds the
packets with sequence numbers 3, 2 and 1. -/
def threeSent : RecvLoop :=
  RecvLoop.enter (applyOps connectedSession [SendOp.send, SendOp.send, SendOp.send]) 0

/-- A check beacon with `min_pack_rcvd = 2`, the peer's `send_count = 0` and the
missing-id entries 9 and 3. -/
def eraseBeacon : List Nat :=
  SDLNet_Write32 message_type_check ++ SDLNet_Write32 0 ++ SDLNet_Write32 0 ++
    SDLNet_Write32 2 ++ SDLNet_Write32 0 ++ SDLNet_Write32 9 ++ SDLNet_Write32 3

/-- A check beacon with `min_pack_rcvd = 2`, the peer's `send_count = 0` and no
missing-id entry. -/
def ackBeacon : List Nat :=
  SDLNet_Write32 message_type_check ++ SDLNet_Write32 0 ++ SDLNet_Write32 0 ++
    SDLNet_Write32 2 ++ SDLNet_Write32 0
/-! ## Concrete runs of the server -/

/-- C1: partner symmetry does not hold in every reachable state.  After H and J are
paired, a second `requestHost` from J pairs J with the waiting host K, because the
test `cl->status = client_status_free` is an assignment: H still names J as its
partner while J names K. -/
theorem C1_partner_symmetry_broken_by_second_requestHost :
    ∃ s, run Server.init pairTwiceTrace = some s ∧
      s.deref 0 = some ⟨epH, some 1, 0, client_status_inGame⟩ ∧
      s.deref 1 = some ⟨epJ, some 2, 0, client_status_inGame⟩ ∧
      ¬ PartnerSymmetric s := by
  refine ⟨_, rfl, rfl, rfl, ?_⟩
  intro h
  obtain ⟨cb, hcb, hp⟩ := h 0 (by decide) ⟨epH, some 1, 0, client_status_inGame⟩ rfl 1 rfl
  have h1 : cb = ⟨epJ, some 2, 0, client_status_inGame⟩ :=
    Option.some.inj (hcb.symm.trans rfl)
  rw [h1] at hp
  exact absurd hp (by decide)

/-- C2: the waiting-list invariant does not hold in every reachable state.  H
connects, starts hosting and quits.  When the loop counter of `resetClient` starts
from `0` the slot of H is overwritten by the null slot behind it while `hostsWaiting`
stays `1`; when it starts from `1` the slot keeps H, whose status is now `free`. -/
theorem C2_waiting_invariant_broken_by_reset :
    (∃ s, run Server.init
        [word epH message_type_connect, word epH message_type_startHost,
         .packet 0 0 0 epH (SDLNet_Write32 message_type_quit)] = some s ∧
      s.hostsWaiting = 1 ∧ s.waiting[0]? = some none ∧ ¬ WaitingInv s) ∧
    (∃ s, run Server.init
        [word epH message_type_connect, word epH message_type_startHost,
         .packet 1 0 0 epH (SDLNet_Write32 message_type_quit)] = some s ∧
      s.hostsWaiting = 1 ∧ s.waiting[0]? = some (some 0) ∧
      s.deref 0 = some ⟨epH, none, 0, client_status_free⟩ ∧ ¬ WaitingInv s) := by
  refine ⟨⟨_, rfl, rfl, rfl, ?_⟩, ⟨_, rfl, rfl, rfl, rfl, ?_⟩⟩
  · intro h
    obtain ⟨p, c, hw, -, -⟩ := h 0 (by decide)
    exact absurd (hw.symm.trans rfl : some (some p) = some none) (by simp)
  · intro h
    obtain ⟨p, c, hw, hd, hs⟩ := h 0 (by decide)
    have hp : p = 0 := by
      have : some (some p) = some (some 0) := hw.symm.trans rfl
      simpa using this
    subst hp
    have hc : c = ⟨epH, none, 0, client_status_free⟩ := Option.some.inj (hd.symm.trans rfl)
    rw [hc] at hs
    exact absurd hs (by decide)

/-- C4: a repeated `requestHost` is not idempotent.  In the paired state reached by
`pairTrace`, J has status `inGame` and partner H; one more `requestHost` from J
stores `free` into J's status and answers with the four-byte `noHost` message
instead of the ten-byte `foundHost` message. -/
theorem C4_requestHost_retry_changes_state :
    ∃ s0 s1, run Server.init pairTrace = some s0 ∧
      s0.deref 0 = some ⟨epH, some 1, 0, client_status_inGame⟩ ∧
      s0.deref 1 = some ⟨epJ, some 0, 0, client_status_inGame⟩ ∧
      onPacket 0 0 0 epJ (SDLNet_Write32 message_type_requestHost) s0 = some s1 ∧
      s1.deref 1 = some ⟨epJ, some 0, 0, client_status_free⟩ ∧
      s1.sent = s0.sent ++ [⟨epJ, SDLNet_Write32 message_type_noHost⟩] :=
  ⟨_, _, rfl, rfl, rfl, rfl, rfl, rfl⟩

/-- C5: the number of `quit` datagrams sent to the partner is not always three.  In
the paired state reached by `pairTrace`, a `quit` from H frees both records, but the
sending loop `for (int i; i < 3; i++)` starts from an uninitialised counter: from `0`
it sends three datagrams to J, from `3` it sends none. -/
theorem C5_quit_count_depends_on_uninitialised_counter :
    ∃ s0 s1 s2, run Server.init pairTrace = some s0 ∧
      onPacket 0 0 0 epH (SDLNet_Write32 message_type_quit) s0 = some s1 ∧
      s1.sent = s0.sent ++ List.replicate 3 ⟨epJ, SDLNet_Write32 message_type_quit⟩ ∧
      onPacket 0 3 0 epH (SDLNet_Write32 message_type_quit) s0 = some s2 ∧
      s2.sent = s0.sent ∧
      s2.deref 0 = some ⟨epH, none, 0, client_status_free⟩ ∧
      s2.deref 1 = some ⟨epJ, none, 0, client_status_free⟩ :=
  ⟨_, _, _, rfl, rfl, rfl, rfl, rfl, rfl, rfl⟩

/-- C7, as stated, fails.  In the paired state reached by `pairTrace` both records
have `msgTime = 0`.  A sweep at `t = 600000` removes nothing; a sweep at
`t = 600001` removes H, sends no datagram, and leaves J `inGame` with its partner
field still naming the removed record. -/
theorem C7_sweep_at_ten_minutes_counterexample :
    ∃ s0 s1 s2, run Server.init pairTrace = some s0 ∧
      sweep 600000 s0 = some s1 ∧ s1.client = s0.client ∧
      sweep 600001 s0 = some s2 ∧ s2.client = [1] ∧ s2.sent = s0.sent ∧
      s2.deref 0 = none ∧
      s2.deref 1 = some ⟨epJ, some 0, 0, client_status_inGame⟩ :=
  ⟨_, _, _, rfl, rfl, rfl, rfl, rfl, rfl, rfl, rfl⟩

/-- C8: a client that is not silent is swept all the same.  H connects at tick `0`
and sends a check beacon at tick `600000`; the beacon leaves `msgTime = 0`, and the
sweep at tick `600001` deletes the record. -/
theorem C8_active_client_is_swept :
    ∃ s1 s2, run Server.init
        [.packet 0 0 0 epH (SDLNet_Write32 message_type_connect),
         .packet 0 0 600000 epH (SDLNet_Write32 message_type_check)] = some s1 ∧
      s1.deref 0 = some ⟨epH, none, 0, client_status_free⟩ ∧
      sweep 600001 s1 = some s2 ∧ s2.client = [] ∧ s2.deref 0 = none :=
  ⟨_, _, rfl, rfl, rfl, rfl, rfl⟩

/-! ## Reading and writing records -/

theorem deref_lt {s : Server} {p : Nat} {c : Client} (h : s.deref p = some c) :
    p < s.heap.length := by
  unfold Server.deref at h
  by_contra hlt
  rw [List.getElem?_eq_none (Nat.le_of_not_lt hlt)] at h
  simp at h

theorem deref_store_self {s : Server} {p : Nat} {c0 : Client} (c : Client)
    (h : s.deref p = some c0) : (s.store p c).deref p = some c := by
  have hlt := deref_lt h
  simp [Server.deref, Server.store, List.getElem?_set, hlt]

theorem deref_store_ne {s : Server} {p q : Nat} (c : Client) (h : p ≠ q) :
    (s.store p c).deref q = s.deref q := by
  simp [Server.deref, Server.store, List.getElem?_set, h]

theorem findClient_congr (s1 s2 : Server) (h : s1.heap = s2.heap) (addr : IPaddress)
    (l : List Nat) (acc : Option Nat) :
    findClient s1 addr l acc = findClient s2 addr l acc := by
  induction l generalizing acc with
  | nil => rfl
  | cons p ps ih =>
    simp only [findClient, Server.deref, h]
    cases (s2.heap[p]?).join with
    | none => rfl
    | some c => exact ih _

/-- When the datagram has at least four bytes, `packID` is its own first word. -/
theorem packID_recv (s : Server) (src : IPaddress) (bytes : List Nat) (h : 4 ≤ bytes.length) :
    (s.recv src bytes).packID = wordAt bytes 0 := by
  match bytes, h with
  | a :: b :: c :: d :: rest, _ =>
    simp [Server.packID, Server.recv, memcpy, wordAt, SDLNet_Read32]

/-! ## The relay arm -/

/-- C9: relay rule.  Let a datagram arrive from the endpoint of a known client `cl`
whose partner pointer, if set, points to a record, and let the word `id` the server
reads from it be none of `connect`, `quit`, `startHost`, `checkHost`, `requestHost`.
Then the iteration ends normally, no record, table entry, waiting slot or count is
changed, and: if `cl` has a partner and `id < 10000` or `id = 65535`, exactly one
datagram is sent, to the partner's endpoint, with the bytes received; otherwise no
datagram is sent. -/
theorem C9_relay_rule (i0 j0 : Int) (ticks : Nat) (src : IPaddress) (bytes : List Nat)
    (s : Server) (cl : Nat) (c : Client)
    (hfind : findClient s src s.client none = some (some cl))
    (hc : s.deref cl = some c)
    (hlive : ∀ q, c.partner = some q → ∃ qc, s.deref q = some qc)
    (h1 : (s.recv src bytes).packID ≠ message_type_connect)
    (h2 : (s.recv src bytes).packID ≠ message_type_quit)
    (h3 : (s.recv src bytes).packID ≠ message_type_startHost)
    (h4 : (s.recv src bytes).packID ≠ message_type_checkHost)
    (h5 : (s.recv src bytes).packID ≠ message_type_requestHost) :
    ∃ s1, onPacket i0 j0 ticks src bytes s = some s1 ∧
      s1.heap = s.heap ∧ s1.client = s.client ∧ s1.waiting = s.waiting ∧
      s1.hostsWaiting = s.hostsWaiting ∧
      ((c.partner ≠ none ∧ ((s.recv src bytes).packID < 10000 ∨
            (s.recv src bytes).packID = message_type_check) →
          ∃ q qc, c.partner = some q ∧ s.deref q = some qc ∧
            s1.sent = s.sent ++ [⟨qc.ip, bytes.take 512⟩]) ∧
       (¬ (c.partner ≠ none ∧ ((s.recv src bytes).packID < 10000 ∨
            (s.recv src bytes).packID = message_type_check)) →
          s1.sent = s.sent)) := by
  have hfind1 : findClient (s.recv src bytes) (s.recv src bytes).packet.address
      (s.recv src bytes).client none = some (some cl) := by
    exact (findClient_congr (s.recv src bytes) s rfl src s.client none).trans hfind
  have hc1 : (s.recv src bytes).deref cl = some c := hc
  unfold onPacket
  simp only [hfind1, hc1, if_neg h1, if_neg h2, if_neg h4, if_neg h5,
    if_neg (fun h : (s.recv src bytes).packID = message_type_startHost ∧ _ => h3 h.1)]
  by_cases hid : (s.recv src bytes).packID < 10000 ∨
      (s.recv src bytes).packID = message_type_check
  · simp only [if_pos hid]
    cases hp : c.partner with
    | none => exact ⟨_, rfl, rfl, rfl, rfl, rfl, by simp, fun _ => rfl⟩
    | some q =>
      obtain ⟨qc, hqc⟩ := hlive q hp
      have hqc1 : (s.recv src bytes).deref q = some qc := hqc
      have hs : sendPacket (s.recv src bytes) q = some
          ({ (s.recv src bytes) with
              packet := { (s.recv src bytes).packet with address := qc.ip } }).send := by
        simp only [sendPacket, hqc1]
      refine ⟨_, hs, rfl, rfl, rfl, rfl, ?_, ?_⟩
      · intro _
        refine ⟨q, qc, rfl, hqc, ?_⟩
        simp [Server.send, Server.recv, UDPpacket.wire, memcpy]
      · intro h
        exact absurd ⟨by simp, hid⟩ h
  · simp only [if_neg hid]
    exact ⟨_, rfl, rfl, rfl, rfl, rfl, fun h => absurd h.2 hid, fun _ => rfl⟩

/-! ## The `requestHost` arm -/

theorem deref_store (s : Server) (p q : Nat) (c : Client) :
    (s.store p c).deref q = if p = q ∧ p < s.heap.length then some c else s.deref q := by
  by_cases h : p = q
  · subst h
    by_cases hlt : p < s.heap.length
    · simp [Server.deref, Server.store, List.getElem?_set, hlt]
    · have h1 : s.heap[p]? = none := List.getElem?_eq_none (Nat.le_of_not_lt hlt)
      simp [Server.deref, Server.store, List.getElem?_set, hlt, h1]
  · simp [Server.deref, Server.store, List.getElem?_set, h]

theorem store_heap_length (s : Server) (p : Nat) (c : Client) :
    (s.store p c).heap.length = s.heap.length := by
  simp [Server.store]

theorem memmoveWaiting_head (w : List (Option Nat)) (n : Nat) (h : n + 1 ≤ w.length) :
    ∃ w1, memmoveWaiting w 0 1 n = some w1 ∧ w1.length = w.length ∧
      ∀ m, m < n → w1[m]? = w[m + 1]? := by
  refine ⟨(w.drop 1).take n ++ w.drop n, ?_, ?_, ?_⟩
  · have h1 : 1 + n ≤ w.length := by omega
    have h2 : 0 + n ≤ w.length := by omega
    simp [memmoveWaiting, h1]
    omega
  · simp; omega
  · intro m hm
    have hlen : m < ((w.drop 1).take n).length := by simp; omega
    rw [List.getElem?_append_left hlen, List.getElem?_take_of_lt hm, List.getElem?_drop]
    congr 1; omega

theorem popHost_spec (s : Server) (H : Nat) (cH : Client) (hH : s.deref H = some cH)
    (hHs : cH.status = client_status_hostWaiting) :
    ∀ (n : Nat) (w : List (Option Nat)) (k : Nat), n ≤ w.length → k < n →
      w[k]? = some (some H) →
      (∀ m, m < k → w[m]? = some none ∨
        ∃ p c, w[m]? = some (some p) ∧ s.deref p = some c ∧
          c.status ≠ client_status_hostWaiting) →
      ∃ w1, popHost s n w = some (some H, w1, n - (k + 1)) ∧ w1.length = w.length ∧
        ∀ m, m < n - (k + 1) → w1[m]? = w[m + (k + 1)]? := by
  intro n
  induction n with
  | zero => intro w k _ hk; omega
  | succ n ih =>
    intro w k hlen hk hHk hahead
    -- the array after the shift of this iteration
    have hshift : ∃ w1, (if 0 < n then memmoveWaiting w 0 1 n else some w) = some w1 ∧
        w1.length = w.length ∧ ∀ m, m < n → w1[m]? = w[m + 1]? := by
      by_cases hn : 0 < n
      · simpa [hn] using memmoveWaiting_head w n hlen
      · exact ⟨w, by simp [hn], rfl, fun m hm => by omega⟩
    obtain ⟨w1, hw1, hw1len, hw1get⟩ := hshift
    cases k with
    | zero =>
      refine ⟨w1, ?_, hw1len, ?_⟩
      · simp only [popHost, hHk, hw1, hH, hHs, if_true]
        simp
      · intro m hm
        exact hw1get m (by omega)
    | succ k =>
      have hk' : k < n := by omega
      have hrec := ih w1 k (by omega) hk' (by rw [hw1get k hk']; exact hHk)
        (fun m hm => by
          rw [hw1get m (by omega)]
          exact hahead (m + 1) (by omega))
      obtain ⟨w2, hw2, hw2len, hw2get⟩ := hrec
      refine ⟨w2, ?_, by omega, ?_⟩
      · rcases hahead 0 (by omega) with h0 | ⟨p, c, h0, hp, hs⟩
        · simp only [popHost, h0, hw1]
          rw [hw2, Nat.add_sub_add_right]
        · simp only [popHost, h0, hw1, hp, if_neg hs]
          rw [hw2, Nat.add_sub_add_right]
      · intro m hm
        rw [hw2get m (by omega), hw1get (m + (k + 1)) (by omega)]
        rfl


theorem pairingBytes_length (id : Nat) (ip : IPaddress) : (pairingBytes id ip).length = 10 := by
  simp [pairingBytes, SDLNet_Write32, SDLNet_Write16]

theorem popHost_congr {s1 s2 : Server} (h : ∀ p, s1.deref p = s2.deref p) :
    ∀ (n : Nat) (w : List (Option Nat)), popHost s1 n w = popHost s2 n w := by
  intro n
  induction n with
  | zero => intro w; rfl
  | succ n ih =>
    intro w
    simp only [popHost, h, ih]

/-- C3: pairing postcondition.  Let a datagram whose word read by the server is
`requestHost` arrive from the endpoint of a known client J whose status is `free`,
and let `H`, at slot `k` of the waiting list, be the first entry whose status is
`hostWaiting` (each slot ahead of it is null or points to a record with another
status).  Then the iteration ends normally; `H` and the `k` entries ahead of it
are gone from the waiting list, whose remaining entries keep their order; J and H
name each other as partner and both have status `inGame`; no other record changes;
and exactly two datagrams are sent: the ten bytes `[60002][J.host][J.port]` to H and
the ten bytes `[60005][H.host][H.port]` to J. -/
theorem C3_pairing_postcondition (i0 j0 : Int) (ticks : Nat) (src : IPaddress)
    (bytes : List Nat) (s : Server) (J H k : Nat) (cJ cH : Client)
    (hid : (s.recv src bytes).packID = message_type_requestHost)
    (hfind : findClient s src s.client none = some (some J))
    (hJ : s.deref J = some cJ) (hfree : cJ.status = client_status_free)
    (hlen : s.hostsWaiting ≤ s.waiting.length)
    (hk : k < s.hostsWaiting) (hHk : s.waiting[k]? = some (some H))
    (hH : s.deref H = some cH) (hHs : cH.status = client_status_hostWaiting)
    (hahead : ∀ m, m < k → s.waiting[m]? = some none ∨
      ∃ p c, s.waiting[m]? = some (some p) ∧ s.deref p = some c ∧
        c.status ≠ client_status_hostWaiting) :
    ∃ s1, onPacket i0 j0 ticks src bytes s = some s1 ∧
      s1.hostsWaiting = s.hostsWaiting - (k + 1) ∧
      (∀ m, m < s1.hostsWaiting → s1.waiting[m]? = s.waiting[m + (k + 1)]?) ∧
      s1.deref J = some { cJ with partner := some H, status := client_status_inGame } ∧
      s1.deref H = some { cH with partner := some J, status := client_status_inGame } ∧
      (∀ p, p ≠ J → p ≠ H → s1.deref p = s.deref p) ∧
      s1.client = s.client ∧
      s1.sent = s.sent ++
        [⟨cH.ip, SDLNet_Write32 60002 ++ SDLNet_Write32 cJ.ip.host ++ SDLNet_Write16 cJ.ip.port⟩,
         ⟨cJ.ip, SDLNet_Write32 60005 ++ SDLNet_Write32 cH.ip.host ++ SDLNet_Write16 cH.ip.port⟩] := by
  have hne : J ≠ H := by
    intro h
    subst h
    have hc : cJ = cH := Option.some.inj (hJ.symm.trans hH)
    rw [hc, hHs] at hfree
    exact absurd hfree (by decide)
  have hJlt := deref_lt hJ
  have hHlt := deref_lt hH
  have hfind1 : findClient (s.recv src bytes) (s.recv src bytes).packet.address
      (s.recv src bytes).client none = some (some J) :=
    (findClient_congr (s.recv src bytes) s rfl src s.client none).trans hfind
  have hJ1 : (s.recv src bytes).deref J = some cJ := hJ
  have hcJ : ({ cJ with status := client_status_free } : Client) = cJ := by
    cases cJ; simp_all
  -- storing `free` into J's status changes no record
  have hsame : ∀ p, ((s.recv src bytes).store J { cJ with status := client_status_free }).deref p
      = s.deref p := by
    intro p
    rw [deref_store, hcJ]
    by_cases hp : J = p
    · subst hp; simp [Server.recv, hJlt, hJ]
    · simp [hp]; rfl
  obtain ⟨w1, hpop, -, hw1get⟩ :=
    popHost_spec s H cH hH hHs s.hostsWaiting s.waiting k hlen hk hHk hahead
  have hpop1 : popHost ((s.recv src bytes).store J { cJ with status := client_status_free })
      ((s.recv src bytes).store J { cJ with status := client_status_free }).hostsWaiting
      ((s.recv src bytes).store J { cJ with status := client_status_free }).waiting
      = some (some H, w1, s.hostsWaiting - (k + 1)) := by
    rw [popHost_congr hsame]; exact hpop
  have hcond : message_type_connect ≠ message_type_requestHost := by decide
  have hq : message_type_quit ≠ message_type_requestHost := by decide
  have hs : message_type_startHost ≠ message_type_requestHost := by decide
  have hch : message_type_checkHost ≠ message_type_requestHost := by decide
  unfold onPacket
  simp only [hfind1, hJ1, hid, if_neg hcond.symm, if_neg hq.symm, if_neg hch.symm,
    if_neg (fun h : message_type_requestHost = message_type_startHost ∧ _ => hs.symm h.1),
    if_true, requestHostBranch]
  have hfree0 : client_status_free ≠ 0 := by decide
  simp only [if_pos hfree0, hpop1]
  simp only [sendPairing, sendPacket, deref_store, store_heap_length, Server.store,
    Server.deref, Server.send, Server.recv] at hsame hJ hH ⊢
  simp only [Server.deref, Server.recv] at hJlt hHlt
  have hJg : (s.heap[J]?).join = some cJ := hJ
  have hHg : (s.heap[H]?).join = some cH := hH
  have hHe : s.heap[H] = some cH := by
    have h := hHg
    rw [List.getElem?_eq_getElem hHlt] at h
    simpa using h
  have hJe : s.heap[J] = some cJ := by
    have h := hJg
    rw [List.getElem?_eq_getElem hJlt] at h
    simpa using h
  simp [hJlt, hHlt, hne, hne.symm, hJg, hHg, hHe, hJe, hcJ, List.getElem?_set,
    pairingBytes_length, UDPpacket.wire, memcpy, pairingBytes, hfree]
  refine ⟨hw1get, ?_, ?_, ?_⟩
  · intro p hpJ hpH
    have h1 : ¬ H = p := fun h => hpH h.symm
    have h2 : ¬ J = p := fun h => hpJ h.symm
    simp [h1, h2]
  · simp [SDLNet_Write32, SDLNet_Write16, message_type_requestHost]
  · simp [SDLNet_Write32, SDLNet_Write16, message_type_foundHost]

/-! ## Repeated `connect` -/

theorem findClient_none {s : Server} {e : IPaddress} :
    ∀ (l : List Nat) (acc : Option Nat), findClient s e l acc = some none →
      acc = none ∧ ∀ p ∈ l, ∃ c, s.deref p = some c ∧ c.ip ≠ e := by
  intro l
  induction l with
  | nil =>
    intro acc h
    simp only [findClient, Option.some.injEq] at h
    exact ⟨h, by simp⟩
  | cons p ps ih =>
    intro acc h
    simp only [findClient] at h
    cases hp : s.deref p with
    | none => simp [hp] at h
    | some c =>
      simp only [hp] at h
      obtain ⟨hacc, hrest⟩ := ih _ h
      by_cases hm : e.host = c.ip.host ∧ e.port = c.ip.port
      · simp [hm] at hacc
      · simp only [if_neg hm] at hacc
        refine ⟨hacc, ?_⟩
        intro q hq
        rcases List.mem_cons.mp hq with rfl | hq
        · refine ⟨c, hp, ?_⟩
          intro hce
          exact hm ⟨by rw [hce], by rw [hce]⟩
        · exact hrest q hq

theorem findClient_skip {s : Server} {e : IPaddress} :
    ∀ (l : List Nat) (acc : Option Nat), (∀ p ∈ l, ∃ c, s.deref p = some c ∧ c.ip ≠ e) →
      findClient s e l acc = some acc := by
  intro l
  induction l with
  | nil => intro acc _; rfl
  | cons p ps ih =>
    intro acc h
    obtain ⟨c, hc, hne⟩ := h p (List.mem_cons_self _ _)
    have hm : ¬ (e.host = c.ip.host ∧ e.port = c.ip.port) := by
      intro hm
      apply hne
      cases e; cases hce : c.ip
      simp_all
    simp only [findClient, hc, if_neg hm]
    exact ih acc (fun q hq => h q (List.mem_cons_of_mem _ hq))

theorem findClient_append (s : Server) (e : IPaddress) :
    ∀ (l1 l2 : List Nat) (acc : Option Nat),
      findClient s e (l1 ++ l2) acc = (findClient s e l1 acc).bind (findClient s e l2) := by
  intro l1
  induction l1 with
  | nil => intro l2 acc; rfl
  | cons p ps ih =>
    intro l2 acc
    simp only [List.cons_append, findClient]
    cases s.deref p with
    | none => rfl
    | some c => exact ih _ _

theorem deref_append_left (s1 s : Server) (x : Option Client) (h : s1.heap = s.heap ++ [x])
    {p : Nat} (hp : p < s.heap.length) : s1.deref p = s.deref p := by
  simp only [Server.deref, h]
  rw [List.getElem?_append_left hp]

theorem deref_append_last (s1 s : Server) (c : Client) (h : s1.heap = s.heap ++ [some c]) :
    s1.deref s.heap.length = some c := by
  simp [Server.deref, h]

theorem set_same {α : Type} (l : List α) (i : Nat) (a : α) (h : l[i]? = some a) :
    l.set i a = l := by
  apply List.ext_getElem?
  intro j
  rw [List.getElem?_set]
  by_cases hij : i = j
  · subst hij
    have hlt : i < l.length := by
      by_contra hge
      rw [List.getElem?_eq_none (Nat.le_of_not_lt hge)] at h
      exact absurd h (by simp)
    simp [hlt, h]
  · simp [hij]

theorem connect_first (s : Server) (e : IPaddress) (x : Input)
    (hunknown : findClient s e s.client none = some none)
    (hroom : s.client.length < MAX_CLIENTS) (hx : IsConnectFrom e x) :
    ∃ s1 t, step s x = some s1 ∧
      s1.heap = s.heap ++ [some ⟨e, none, t, client_status_free⟩] ∧
      s1.client = s.client ++ [s.heap.length] ∧ s1.waiting = s.waiting ∧
      s1.hostsWaiting = s.hostsWaiting ∧ s1.sent = s.sent ++ echoTo e x := by
  cases x with
  | idle t => exact absurd hx id
  | packet i0 j0 ticks src bytes =>
    obtain ⟨rfl, hlen, hword⟩ := hx
    have hid : (s.recv src bytes).packID = message_type_connect := by
      rw [packID_recv s src bytes hlen]; exact hword
    have hfind : findClient (s.recv src bytes) (s.recv src bytes).packet.address
        (s.recv src bytes).client none = some none :=
      (findClient_congr (s.recv src bytes) s rfl src s.client none).trans hunknown
    have hroom1 : (s.recv src bytes).client.length < MAX_CLIENTS := hroom
    refine ⟨({ (s.recv src bytes) with
        heap := (s.recv src bytes).heap ++
          [some (Client.mk (s.recv src bytes).packet.address none ticks client_status_free)]
        client := (s.recv src bytes).client ++ [(s.recv src bytes).heap.length] }).send,
      ticks, ?_, rfl, rfl, rfl, rfl, ?_⟩
    · simp only [step, onPacket, hfind, hid, if_true, if_pos hroom1]
    · simp [Server.send, Server.recv, UDPpacket.wire, memcpy, echoTo]

theorem connect_again (s1 : Server) (e : IPaddress) (x : Input) (h0 : List (Option Client))
    (l : List Nat) (t : Nat)
    (hold : ∀ p ∈ l, ∃ c, s1.deref p = some c ∧ c.ip ≠ e)
    (hheap : s1.heap = h0 ++ [some ⟨e, none, t, client_status_free⟩])
    (hclient : s1.client = l ++ [h0.length]) (hx : IsConnectFrom e x) :
    ∃ s2, step s1 x = some s2 ∧ s2.heap = s1.heap ∧ s2.client = s1.client ∧
      s2.waiting = s1.waiting ∧ s2.hostsWaiting = s1.hostsWaiting ∧
      s2.sent = s1.sent ++ echoTo e x := by
  cases x with
  | idle t => exact absurd hx id
  | packet i0 j0 ticks src bytes =>
    obtain ⟨rfl, hlen, hword⟩ := hx
    have hid : (s1.recv src bytes).packID = message_type_connect := by
      rw [packID_recv s1 src bytes hlen]; exact hword
    have hnew : s1.deref h0.length = some ⟨src, none, t, client_status_free⟩ := by
      simp [Server.deref, hheap]
    have hfind : findClient (s1.recv src bytes) (s1.recv src bytes).packet.address
        (s1.recv src bytes).client none = some (some h0.length) := by
      rw [findClient_congr (s1.recv src bytes) s1 rfl]
      show findClient s1 src s1.client none = some (some h0.length)
      rw [hclient, findClient_append, findClient_skip l none hold]
      simp [findClient, hnew]
    have hnew1 : (s1.recv src bytes).send.deref h0.length
        = some ⟨src, none, t, client_status_free⟩ := hnew
    have hst : ¬ client_status_free = client_status_hostWaiting := by decide
    have hset : s1.heap.set h0.length (some ⟨src, none, t, client_status_free⟩) = s1.heap := by
      apply set_same
      simp [hheap]
    refine ⟨(s1.recv src bytes).send.store h0.length ⟨src, none, t, client_status_free⟩,
      ?_, ?_, rfl, rfl, rfl, ?_⟩
    · simp only [step, onPacket, hfind, hid, if_true, resetClient, hnew1, if_neg hst]
    · simp only [Server.store, Server.send, Server.recv]
      exact hset
    · simp [Server.store, Server.send, Server.recv, UDPpacket.wire, memcpy, echoTo]

theorem connect_repeat (e : IPaddress) (h0 : List (Option Client)) (l : List Nat) (t : Nat) :
    ∀ (xs : List Input) (s1 : Server),
      (∀ p ∈ l, ∃ c, s1.deref p = some c ∧ c.ip ≠ e) →
      s1.heap = h0 ++ [some ⟨e, none, t, client_status_free⟩] →
      s1.client = l ++ [h0.length] → (∀ x ∈ xs, IsConnectFrom e x) →
      ∃ s2, run s1 xs = some s2 ∧ s2.heap = s1.heap ∧ s2.client = s1.client ∧
        s2.waiting = s1.waiting ∧ s2.hostsWaiting = s1.hostsWaiting ∧
        s2.sent = s1.sent ++ xs.flatMap (echoTo e) := by
  intro xs
  induction xs with
  | nil => intro s1 _ _ _ _; exact ⟨s1, rfl, rfl, rfl, rfl, rfl, by simp⟩
  | cons x xs ih =>
    intro s1 hold hheap hclient hall
    obtain ⟨s2, hstep, hh, hc, hw, hn, hsent⟩ :=
      connect_again s1 e x h0 l t hold hheap hclient (hall x (List.mem_cons_self _ _))
    have hold2 : ∀ p ∈ l, ∃ c, s2.deref p = some c ∧ c.ip ≠ e := by
      intro p hp
      have := hold p hp
      simpa [Server.deref, hh] using this
    obtain ⟨s3, hrun, hh3, hc3, hw3, hn3, hsent3⟩ :=
      ih s2 hold2 (hh.trans hheap) (hc.trans hclient)
        (fun y hy => hall y (List.mem_cons_of_mem _ hy))
    refine ⟨s3, ?_, hh3.trans hh, hc3.trans hc, hw3.trans hw, hn3.trans hn, ?_⟩
    · simp only [run, hstep]; exact hrun
    · rw [hsent3, hsent]; simp

/-- C6: a repeated `connect` does not duplicate the record.  Let endpoint `e` be
unknown to a table that is not full, and let `N ≥ 1` datagrams `x :: xs`, each from
`e` with first word `connect`, be processed one after the other.  Then the run ends
normally; the table is the old table with one new entry appended; the new record has
endpoint `e`, status `free` and no partner; among the entries of the table it is the
only record with endpoint `e` and it occurs once; and the datagrams sent are the `N`
echoes, each to `e` with the bytes received. -/
theorem C6_duplicate_connect_one_record (s : Server) (e : IPaddress) (x : Input)
    (xs : List Input)
    (hunknown : findClient s e s.client none = some none)
    (hroom : s.client.length < MAX_CLIENTS)
    (hall : ∀ y ∈ x :: xs, IsConnectFrom e y) :
    ∃ s1 t, run s (x :: xs) = some s1 ∧
      s1.client = s.client ++ [s.heap.length] ∧
      s1.client.length = s.client.length + 1 ∧
      s1.deref s.heap.length = some ⟨e, none, t, client_status_free⟩ ∧
      (∀ p ∈ s1.client, (∃ c, s1.deref p = some c ∧ c.ip = e) ↔ p = s.heap.length) ∧
      s1.client.count s.heap.length = 1 ∧
      s1.sent = s.sent ++ (x :: xs).flatMap (echoTo e) := by
  obtain ⟨-, hold⟩ := findClient_none s.client none hunknown
  obtain ⟨s1, t, hstep, hheap, hclient, -, -, hsent⟩ :=
    connect_first s e x hunknown hroom (hall x (List.mem_cons_self _ _))
  have hold1 : ∀ p ∈ s.client, ∃ c, s1.deref p = some c ∧ c.ip ≠ e := by
    intro p hp
    obtain ⟨c, hc, hne⟩ := hold p hp
    exact ⟨c, (deref_append_left s1 s _ hheap (deref_lt hc)).trans hc, hne⟩
  obtain ⟨s2, hrun, hh2, hc2, -, -, hsent2⟩ :=
    connect_repeat e s.heap s.client t xs s1 hold1 hheap hclient
      (fun y hy => hall y (List.mem_cons_of_mem _ hy))
  have hderef : ∀ p, s2.deref p = s1.deref p := fun p => by simp [Server.deref, hh2]
  have hnew : s2.deref s.heap.length = some ⟨e, none, t, client_status_free⟩ := by
    rw [hderef]; exact deref_append_last s1 s _ hheap
  have hnotin : s.heap.length ∉ s.client := by
    intro hmem
    obtain ⟨c, hc, -⟩ := hold _ hmem
    exact absurd (deref_lt hc) (Nat.lt_irrefl _)
  refine ⟨s2, t, ?_, hc2.trans hclient, ?_, hnew, ?_, ?_, ?_⟩
  · simp only [run, hstep]; exact hrun
  · rw [hc2, hclient]; simp
  · intro p hp
    rw [hc2, hclient] at hp
    constructor
    · rintro ⟨c, hc, hce⟩
      rcases List.mem_append.mp hp with hp | hp
      · obtain ⟨c1, hc1, hne⟩ := hold1 p hp
        rw [hderef, hc1] at hc
        cases hc
        exact absurd hce hne
      · simpa using hp
    · rintro rfl
      exact ⟨_, hnew, rfl⟩
  · rw [hc2, hclient, List.count_append, List.count_eq_zero_of_not_mem hnotin]
    simp
  · rw [hsent2, hsent]; simp

/-! ## The stale-client sweep -/

theorem sweepKeep_cons_keep (f : Nat → Bool) (a : Nat) (l : List Nat) (h : f a = false) :
    sweepKeep f (a :: l) = a :: sweepKeep f l := by
  cases l with
  | nil => simp [sweepKeep, h]
  | cons b l => simp [sweepKeep, h]

theorem sweepKeep_cons_drop (f : Nat → Bool) (a b : Nat) (l : List Nat) (h : f a = true) :
    sweepKeep f (a :: b :: l) = b :: sweepKeep f l := by
  simp [sweepKeep, h]

theorem sweepKeep_mem (f : Nat → Bool) :
    ∀ (n : Nat) (l : List Nat), l.length ≤ n → ∀ p, p ∈ sweepKeep f l → p ∈ l := by
  intro n
  induction n with
  | zero =>
    intro l hl p hp
    have : l = [] := List.length_eq_zero.mp (Nat.le_zero.mp hl)
    subst this
    simp [sweepKeep] at hp
  | succ n ih =>
    intro l hl p hp
    match l, hl, hp with
    | [], _, hp => simp [sweepKeep] at hp
    | [a], _, hp =>
      by_cases h : f a = true
      · simp [sweepKeep, h] at hp
      · simpa [sweepKeep, h] using hp
    | a :: b :: l, hl, hp =>
      by_cases h : f a = true
      · rw [sweepKeep_cons_drop f a b l h] at hp
        rcases List.mem_cons.mp hp with rfl | hp
        · simp
        · have := ih l (by simp at hl; omega) p hp
          simp [this]
      · have h' : f a = false := by simpa using h
        rw [sweepKeep_cons_keep f a _ h'] at hp
        rcases List.mem_cons.mp hp with rfl | hp
        · simp
        · have := ih (b :: l) (by simp at hl ⊢; omega) p hp
          exact List.mem_cons_of_mem _ this

theorem sweepKeep_keeps (f : Nat → Bool) :
    ∀ (n : Nat) (l : List Nat), l.length ≤ n → ∀ p, p ∈ l → f p = false →
      p ∈ sweepKeep f l := by
  intro n
  induction n with
  | zero =>
    intro l hl p hp
    have : l = [] := List.length_eq_zero.mp (Nat.le_zero.mp hl)
    subst this
    simp at hp
  | succ n ih =>
    intro l hl p hp hf
    match l, hl, hp with
    | [a], _, hp =>
      have : p = a := by simpa using hp
      subst this
      simp [sweepKeep, hf]
    | a :: b :: l, hl, hp =>
      by_cases h : f a = true
      · rw [sweepKeep_cons_drop f a b l h]
        rcases List.mem_cons.mp hp with rfl | hp
        · rw [hf] at h; exact absurd h (by simp)
        · rcases List.mem_cons.mp hp with rfl | hp
          · simp
          · exact List.mem_cons_of_mem _ (ih l (by simp at hl; omega) p hp hf)
      · have h' : f a = false := by simpa using h
        rw [sweepKeep_cons_keep f a _ h']
        rcases List.mem_cons.mp hp with rfl | hp
        · simp
        · exact List.mem_cons_of_mem _ (ih (b :: l) (by simp at hl ⊢; omega) p hp hf)

theorem sweepKeep_first (f : Nat → Bool) (p : Nat) (post : List Nat) :
    ∀ (pre : List Nat), (∀ q ∈ pre, f q = false) → f p = true →
      (pre ++ p :: post).Nodup → p ∉ sweepKeep f (pre ++ p :: post) := by
  intro pre
  induction pre with
  | nil =>
    intro _ hf hnd hmem
    simp only [List.nil_append] at hnd hmem
    have hp : p ∉ post := (List.nodup_cons.mp hnd).1
    cases post with
    | nil => simp [sweepKeep, hf] at hmem
    | cons b l =>
      rw [sweepKeep_cons_drop f p b l hf] at hmem
      rcases List.mem_cons.mp hmem with h | h
      · exact hp (by simp [h])
      · exact hp (List.mem_cons_of_mem _ (sweepKeep_mem f l.length l (Nat.le_refl _) p h))
  | cons a pre ih =>
    intro hpre hf hnd hmem
    have ha : f a = false := hpre a (List.mem_cons_self _ _)
    rw [List.cons_append, sweepKeep_cons_keep f a _ ha] at hmem
    rw [List.cons_append] at hnd
    have hnd' := List.nodup_cons.mp hnd
    rcases List.mem_cons.mp hmem with h | h
    · exact hnd'.1 (by simp [h])
    · exact ih (fun q hq => hpre q (List.mem_cons_of_mem _ hq)) hf hnd'.2 h

theorem sweepKeep_congr (f g : Nat → Bool) :
    ∀ (n : Nat) (l : List Nat), l.length ≤ n → (∀ p ∈ l, f p = g p) →
      sweepKeep f l = sweepKeep g l := by
  intro n
  induction n with
  | zero =>
    intro l hl _
    have : l = [] := List.length_eq_zero.mp (Nat.le_zero.mp hl)
    subst this
    rfl
  | succ n ih =>
    intro l hl h
    match l, hl, h with
    | [], _, _ => rfl
    | [a], _, h => simp [sweepKeep, h a (by simp)]
    | a :: b :: l, hl, h =>
      have ha := h a (by simp)
      have h1 := ih l (by simp at hl; omega) (fun p hp => h p (by simp [hp]))
      have h2 := ih (b :: l) (by simp at hl ⊢; omega)
        (fun p hp => h p (List.mem_cons_of_mem _ hp))
      simp only [sweepKeep, ha, h1]
      cases g a with
      | true => simp
      | false =>
        simp only [Bool.false_eq_true, if_false]
        rw [h2]

theorem sweepFrom_done (t n i : Nat) (s : Server) (h : s.client.length ≤ i) :
    sweepFrom t n i s = some s := by
  cases n with
  | zero => rfl
  | succ n => simp [sweepFrom, Nat.not_lt.mpr h]

theorem eraseIdx_append_cons (pre : List Nat) (p : Nat) (rest : List Nat) :
    (pre ++ p :: rest).eraseIdx pre.length = pre ++ rest := by
  induction pre with
  | nil => rfl
  | cons a pre ih => simp [List.eraseIdx, ih]

theorem isStale_congr {s1 s2 : Server} {p : Nat} (t : Nat) (h : s1.deref p = s2.deref p) :
    isStale t s1 p = isStale t s2 p := by
  simp only [isStale, h]

theorem sweepFrom_spec (t : Nat) :
    ∀ (n : Nat) (pre post : List Nat) (s : Server),
      s.client = pre ++ post → post.length ≤ n → s.client.length < MAX_CLIENTS →
      (∀ p ∈ post, ∃ c, s.deref p = some c) → post.Nodup →
      ∃ s1, sweepFrom t n pre.length s = some s1 ∧
        s1.client = pre ++ sweepKeep (isStale t s) post ∧
        (∀ q, q ∉ post → s1.deref q = s.deref q) := by
  intro n
  induction n with
  | zero =>
    intro pre post s hcl hlen _ _ _
    have : post = [] := List.length_eq_zero.mp (Nat.le_zero.mp hlen)
    subst this
    exact ⟨s, rfl, by simpa [sweepKeep] using hcl, fun _ _ => rfl⟩
  | succ n ih =>
    intro pre post s hcl hlen hroom hlive hnd
    match post, hcl, hlen, hlive, hnd with
    | [], hcl, _, _, _ =>
      refine ⟨s, sweepFrom_done t _ _ s (by simp [hcl]), by simpa [sweepKeep] using hcl,
        fun _ _ => rfl⟩
    | p :: rest, hcl, hlen, hlive, hnd =>
      obtain ⟨c, hc⟩ := hlive p (List.mem_cons_self _ _)
      have hi : pre.length < s.client.length := by simp [hcl]
      have hget : s.client[pre.length]? = some p := by
        rw [hcl, List.getElem?_append_right (Nat.le_refl _)]; simp
      have hpr : p ∉ rest := (List.nodup_cons.mp hnd).1
      have hndr : rest.Nodup := (List.nodup_cons.mp hnd).2
      by_cases hst : (t + 2 ^ 32 - c.msgTime % 2 ^ 32) % 2 ^ 32 > 600000
      · -- the record is deleted and the entry behind it is skipped
        have hsp : isStale t s p = true := by
          simp only [isStale, hc]; exact decide_eq_true hst
        have hunf : sweepFrom t (n + 1) pre.length s = sweepFrom t n (pre.length + 1)
            { s with heap := s.heap.set p none, client := s.client.eraseIdx pre.length } := by
          simp only [sweepFrom, if_pos hi, hget, hc, if_pos hst, if_pos hroom]
        have hcl1 : s.client.eraseIdx pre.length = pre ++ rest := by
          rw [hcl]; exact eraseIdx_append_cons pre p rest
        have hderef : ∀ q, q ≠ p →
            ({ s with heap := s.heap.set p none,
                      client := s.client.eraseIdx pre.length } : Server).deref q
              = s.deref q := by
          intro q hq
          simp [Server.deref, List.getElem?_set, Ne.symm hq]
        match rest, hcl1, hlen, hlive, hpr, hndr with
        | [], hcl1, _, _, _, _ =>
          refine ⟨_, hunf.trans (sweepFrom_done t _ _ _ (by simp [hcl1])), ?_, ?_⟩
          · simp [hcl1, sweepKeep, hsp]
          · intro q hq
            exact hderef q (fun h => hq (by simp [h]))
        | b :: rest, hcl1, hlen, hlive, hpr, hndr =>
          have hcl2 : (pre ++ [b]) ++ rest = pre ++ b :: rest := by simp
          obtain ⟨s1, hrun, hclient, hd⟩ := ih (pre ++ [b]) rest
            { s with heap := s.heap.set p none, client := s.client.eraseIdx pre.length }
            (hcl1.trans hcl2.symm) (by simp at hlen ⊢; omega)
            (by
              show (s.client.eraseIdx pre.length).length < MAX_CLIENTS
              rw [hcl1]; rw [hcl] at hroom; simp at hroom ⊢; omega)
            (fun q hq => by
              obtain ⟨cq, hcq⟩ := hlive q (by simp [hq])
              refine ⟨cq, ?_⟩
              rw [hderef q (fun h => hpr (by simp [← h, hq]))]
              exact hcq)
            (List.nodup_cons.mp hndr).2
          refine ⟨s1, ?_, ?_, ?_⟩
          · rw [hunf]; simpa using hrun
          · rw [hclient, sweepKeep_cons_drop _ p b rest hsp]
            rw [sweepKeep_congr _ (isStale t s) rest.length rest (Nat.le_refl _)
              (fun q hq => isStale_congr t (hderef q (fun h => hpr (by simp [← h, hq]))))]
            simp
          · intro q hq
            rw [hd q (fun h => hq (by simp [h]))]
            exact hderef q (fun h => hq (by simp [h]))
      · -- the record stays
        have hsp : isStale t s p = false := by
          simp only [isStale, hc]; exact decide_eq_false hst
        have hunf : sweepFrom t (n + 1) pre.length s = sweepFrom t n (pre.length + 1) s := by
          simp only [sweepFrom, if_pos hi, hget, hc, if_neg hst]
        have hcl2 : (pre ++ [p]) ++ rest = pre ++ p :: rest := by simp
        obtain ⟨s1, hrun, hclient, hd⟩ := ih (pre ++ [p]) rest s (hcl.trans hcl2.symm)
          (by simp at hlen ⊢; omega) hroom (fun q hq => hlive q (List.mem_cons_of_mem _ hq)) hndr
        refine ⟨s1, ?_, ?_, ?_⟩
        · rw [hunf]; simpa using hrun
        · rw [hclient, sweepKeep_cons_keep _ p rest hsp]; simp
        · intro q hq
          exact hd q (fun h => hq (List.mem_cons_of_mem _ h))

/-- C7, amended: what the sweep removes.  For every server state whose table is not
full and whose entries are distinct and point to records, and every sweep at time
`t`, the sweep ends
normally and (1) every record it takes out of the table passes the age test
`t - msgTime > 600000` (in `Uint32` arithmetic), so a record whose timestamp is
exactly 600000 ms old stays in the table; (2) the first entry of the table that
passes the age test is taken out of the table; (3) no entry is added. -/
theorem C7_sweep_removes_only_older_than_ten_minutes (t : Nat) (s : Server)
    (hlive : ∀ p ∈ s.client, ∃ c, s.deref p = some c) (hnd : s.client.Nodup)
    (hroom : s.client.length < MAX_CLIENTS) :
    ∃ s1, sweep t s = some s1 ∧
      (∀ p ∈ s.client, p ∉ s1.client → isStale t s p = true) ∧
      (∀ p c, p ∈ s.client → s.deref p = some c →
        (t + 2 ^ 32 - c.msgTime % 2 ^ 32) % 2 ^ 32 = 600000 → p ∈ s1.client) ∧
      (∀ pre p post, s.client = pre ++ p :: post → (∀ q ∈ pre, isStale t s q = false) →
        isStale t s p = true → p ∉ s1.client) ∧
      (∀ p ∈ s1.client, p ∈ s.client) := by
  obtain ⟨s1, hrun, hclient, -⟩ :=
    sweepFrom_spec t s.client.length [] s.client s rfl (Nat.le_refl _) hroom hlive hnd
  have hkeep : ∀ p ∈ s.client, isStale t s p = false → p ∈ s1.client := by
    intro p hp hf
    rw [hclient]
    exact sweepKeep_keeps _ s.client.length s.client (Nat.le_refl _) p hp hf
  refine ⟨s1, hrun, ?_, ?_, ?_, ?_⟩
  · intro p hp hnot
    by_contra hf
    exact hnot (hkeep p hp (by simpa using hf))
  · intro p c hp hc hage
    apply hkeep p hp
    simp only [isStale, hc, hage]
    decide
  · intro pre p post hsplit hpre hp
    rw [hclient, List.nil_append, hsplit]
    apply sweepKeep_first _ p post pre hpre hp
    rw [← hsplit]; exact hnd
  · intro p hp
    rw [hclient] at hp
    exact sweepKeep_mem _ s.client.length s.client (Nat.le_refl _) p hp

/-! ## Instances of the general theorems on concrete states -/

/-- Instance of C3 on `staleHeadState`: the waiting list holds K (free) and then H
(waiting); J sends `requestHost` and is paired with H, the entry at slot 1. -/
theorem C3_pairing_postcondition_witness :
    ∃ s1, onPacket 0 0 0 epJ (SDLNet_Write32 message_type_requestHost) staleHeadState = some s1 ∧
      s1.hostsWaiting = 0 ∧
      s1.deref 2 = some ⟨epJ, some 1, 0, client_status_inGame⟩ ∧
      s1.deref 1 = some ⟨epH, some 2, 0, client_status_inGame⟩ ∧
      s1.sent = staleHeadState.sent ++
        [⟨epH, [0, 0, 234, 98, 0, 0, 0, 2, 0, 20]⟩, ⟨epJ, [0, 0, 234, 101, 0, 0, 0, 1, 0, 10]⟩] := by
  obtain ⟨s1, h1, h2, -, h4, h5, -, -, h8⟩ :=
    C3_pairing_postcondition 0 0 0 epJ (SDLNet_Write32 message_type_requestHost)
      staleHeadState 2 1 1 ⟨epJ, none, 0, client_status_free⟩
      ⟨epH, none, 0, client_status_hostWaiting⟩ rfl rfl rfl rfl (by decide) (by decide)
      rfl rfl rfl
      (fun m hm => by
        have hm0 : m = 0 := by omega
        subst hm0
        exact Or.inr ⟨0, ⟨epK, none, 0, client_status_free⟩, rfl, rfl, by decide⟩)
  exact ⟨s1, h1, h2, h4, h5, h8⟩

/-- Instance of C6: endpoint H, unknown to the initial server, sends `connect`
three times. -/
theorem C6_duplicate_connect_one_record_witness :
    ∃ s1 t, run Server.init
        [word epH message_type_connect, word epH message_type_connect,
         word epH message_type_connect] = some s1 ∧
      s1.client = [0] ∧
      s1.deref 0 = some ⟨epH, none, t, client_status_free⟩ ∧
      s1.sent = List.replicate 3 ⟨epH, SDLNet_Write32 message_type_connect⟩ := by
  obtain ⟨s1, t, h1, h2, -, h4, -, -, h7⟩ :=
    C6_duplicate_connect_one_record Server.init epH (word epH message_type_connect)
      [word epH message_type_connect, word epH message_type_connect] rfl (by decide)
      (fun y hy => by
        have hy1 : y = word epH message_type_connect := by
          simp only [List.mem_cons, List.mem_singleton, List.not_mem_nil, or_false,
            or_self] at hy
          exact hy
        subst hy1
        exact ⟨rfl, by decide, by decide⟩)
  exact ⟨s1, t, h1, h2, h4, h7⟩

/-- Instance of C7 (amended) on `pairedState`, whose two records have `msgTime = 0`:
the sweep at `t = 600000` keeps record 0, whose timestamp is exactly 600000 ms
old. -/
theorem C7_sweep_removes_only_older_than_ten_minutes_witness :
    ∃ s1, sweep 600000 pairedState = some s1 ∧ 0 ∈ s1.client := by
  obtain ⟨s1, h1, -, h3, -, -⟩ :=
    C7_sweep_removes_only_older_than_ten_minutes 600000 pairedState
      (fun p hp => by
        have hp1 : p = 0 ∨ p = 1 := by
          have : p ∈ [0, 1] := hp
          simpa using this
        rcases hp1 with rfl | rfl
        · exact ⟨_, rfl⟩
        · exact ⟨_, rfl⟩)
      (by decide) (by decide)
  exact ⟨s1, h1, h3 0 ⟨epH, some 1, 0, client_status_inGame⟩ (by decide) rfl (by decide)⟩

/-- Instance of C9 on `pairedState`: H sends the payload `[seq = 1][0xDEADBEEF]`,
which is relayed unchanged to J. -/
theorem C9_relay_rule_witness :
    ∃ s1, onPacket 0 0 0 epH (SDLNet_Write32 1 ++ SDLNet_Write32 3735928559) pairedState
        = some s1 ∧
      s1.heap = pairedState.heap ∧
      s1.sent = pairedState.sent ++ [⟨epJ, [0, 0, 0, 1, 222, 173, 190, 239]⟩] := by
  obtain ⟨s1, h1, h2, -, -, -, h6, -⟩ :=
    C9_relay_rule 0 0 0 epH (SDLNet_Write32 1 ++ SDLNet_Write32 3735928559) pairedState 0
      ⟨epH, some 1, 0, client_status_inGame⟩ rfl rfl
      (fun q hq => by
        have hq1 : q = 1 := by simpa using hq.symm
        subst hq1
        exact ⟨_, rfl⟩)
      (by decide) (by decide) (by decide) (by decide) (by decide)
  obtain ⟨q, qc, hq, hqc, hsent⟩ := h6 ⟨by simp, Or.inl (by decide)⟩
  have hq1 : q = 1 := by simpa using hq.symm
  subst hq1
  have hqc1 : qc = ⟨epJ, some 0, 0, client_status_inGame⟩ :=
    Option.some.inj (hqc.symm.trans rfl)
  subst hqc1
  exact ⟨s1, h1, h2, hsent⟩

/-! ## The word loop of the receive loop -/

theorem mem_pushFrontRange (lo hi x : Nat) (l : List Nat) :
    x ∈ pushFrontRange lo hi l ↔ (lo ≤ x ∧ x < hi) ∨ x ∈ l := by
  simp only [pushFrontRange, List.mem_append, List.mem_reverse, List.mem_range'_1]
  constructor
  · rintro (⟨h1, h2⟩ | h)
    · exact Or.inl ⟨h1, by omega⟩
    · exact Or.inr h
  · rintro (⟨h1, h2⟩ | h)
    · exact Or.inl ⟨h1, by omega⟩
    · exact Or.inr h

theorem wordAt_take (bytes : List Nat) (i : Nat) (h : i * 4 + 4 ≤ 512) :
    wordAt (bytes.take 512) i = wordAt bytes i := by
  simp only [wordAt, List.drop_take, List.take_take]
  congr 2
  omega

theorem wordLoop_succ (check : Bool) (buf : List Nat) (n k i : Nat) (st : RecvLoop)
    (hi : i < n) :
    wordLoop check buf n (k + 1) i st =
      (match wordStep check buf i st with
        | none => none
        | some st1 => wordLoop check buf n k (i + 1) st1) := by
  simp only [wordLoop, if_pos hi]

theorem wordLoop_done (check : Bool) (buf : List Nat) (n k i : Nat) (st : RecvLoop)
    (hi : ¬ i < n) : wordLoop check buf n k i st = some st := by
  cases k with
  | zero => rfl
  | succ k => simp only [wordLoop, if_neg hi]

theorem wordLoop_preserves_from (P : RecvLoop → Prop) (check : Bool) (buf : List Nat)
    (n i0 : Nat)
    (hstep : ∀ i st st1, i0 ≤ i → i < n → P st → wordStep check buf i st = some st1 → P st1) :
    ∀ (k i : Nat) (st st' : RecvLoop), i0 ≤ i → P st →
      wordLoop check buf n k i st = some st' → P st' := by
  intro k
  induction k with
  | zero =>
    intro i st st' _ h hrun
    simp only [wordLoop, Option.some.injEq] at hrun
    rw [← hrun]; exact h
  | succ k ih =>
    intro i st st' hi0 h hrun
    by_cases hi : i < n
    · rw [wordLoop_succ check buf n k i st hi] at hrun
      cases hstp : wordStep check buf i st with
      | none => rw [hstp] at hrun; exact absurd hrun (by simp)
      | some st1 =>
        rw [hstp] at hrun
        exact ih (i + 1) st1 st' (Nat.le_succ_of_le hi0) (hstep i st st1 hi0 hi h hstp) hrun
    · rw [wordLoop_done check buf n (k + 1) i st hi, Option.some.injEq] at hrun
      rw [← hrun]; exact h

theorem wordLoop_preserves (P : RecvLoop → Prop) (check : Bool) (buf : List Nat) (n : Nat)
    (hstep : ∀ i st st1, i < n → P st → wordStep check buf i st = some st1 → P st1) :
    ∀ (k i : Nat) (st st' : RecvLoop), P st →
      wordLoop check buf n k i st = some st' → P st' := by
  intro k i st st' h hrun
  exact wordLoop_preserves_from P check buf n 0
    (fun j s s1 _ hj hs hstp => hstep j s s1 hj hs hstp) k i st st' (Nat.zero_le i) h hrun

theorem wordLoop_indexed (P : Nat → RecvLoop → Prop) (check : Bool) (buf : List Nat) (n : Nat)
    (hstep : ∀ i st st1, i < n → P i st → wordStep check buf i st = some st1 → P (i + 1) st1) :
    ∀ (k i : Nat) (st st' : RecvLoop), i ≤ n → n - i ≤ k → P i st →
      wordLoop check buf n k i st = some st' → P n st' := by
  intro k
  induction k with
  | zero =>
    intro i st st' hi hk h hrun
    have hin : i = n := by omega
    subst hin
    simp only [wordLoop, Option.some.injEq] at hrun
    rw [← hrun]; exact h
  | succ k ih =>
    intro i st st' hi hk h hrun
    by_cases hlt : i < n
    · rw [wordLoop_succ check buf n k i st hlt] at hrun
      cases hstp : wordStep check buf i st with
      | none => rw [hstp] at hrun; exact absurd hrun (by simp)
      | some st1 =>
        rw [hstp] at hrun
        exact ih (i + 1) st1 st' hlt (by omega) (hstep i st st1 hlt h hstp) hrun
    · have hin : i = n := by omega
      subst hin
      rw [wordLoop_done check buf i (k + 1) i st hlt, Option.some.injEq] at hrun
      rw [← hrun]; exact h

theorem wordLoop_defined (Q : Nat → RecvLoop → Prop) (check : Bool) (buf : List Nat) (n : Nat)
    (hstep : ∀ i st, i < n → Q i st →
      ∃ st1, wordStep check buf i st = some st1 ∧ Q (i + 1) st1) :
    ∀ (k i : Nat) (st : RecvLoop), Q i st → ∃ st', wordLoop check buf n k i st = some st' := by
  intro k
  induction k with
  | zero => intro i st _; exact ⟨st, rfl⟩
  | succ k ih =>
    intro i st h
    by_cases hlt : i < n
    · obtain ⟨st1, hstp, hq⟩ := hstep i st hlt h
      rw [wordLoop_succ check buf n k i st hlt, hstp]
      exact ih (i + 1) st1 hq
    · exact ⟨st, wordLoop_done check buf n (k + 1) i st hlt⟩

theorem wordStep_data (buf : List Nat) (i : Nat) (st : RecvLoop) :
    wordStep false buf i st = some (onDataWord (wordAt buf i) st) := by
  simp [wordStep]

theorem wordStep_check (buf : List Nat) (i : Nat) (st : RecvLoop) :
    wordStep true buf i st = onCheckWord i (wordAt buf i) st := by
  simp [wordStep]

theorem wordLoop_data_defined (buf : List Nat) (n k i : Nat) (st : RecvLoop) :
    ∃ st', wordLoop false buf n k i st = some st' :=
  wordLoop_defined (fun _ _ => True) false buf n
    (fun j s _ _ => ⟨_, wordStep_data buf j s, trivial⟩) k i st trivial

/-! ## The statements ahead of the word loop -/

theorem markReceived_net (t : Nat) (st : RecvLoop) :
    (markReceived t st).net.missingPackList = st.net.missingPackList ∧
    (markReceived t st).net.lastPackID = st.net.lastPackID ∧
    (markReceived t st).net.minPackRcvd = st.net.minPackRcvd ∧
    (markReceived t st).net.messageQueue = st.net.messageQueue ∧
    (markReceived t st).net.sentPackets = st.net.sentPackets ∧
    (markReceived t st).net.sent = st.net.sent ∧
    (markReceived t st).net.target = st.net.target ∧
    (markReceived t st).net.sendCount = st.net.sendCount ∧
    (markReceived t st).net.hash = st.net.hash ∧
    (markReceived t st).net.pauseTime = st.net.pauseTime ∧
    (markReceived t st).net.inSync = st.net.inSync ∧
    (markReceived t st).net.events =
      st.net.events ++ (if st.connected = false then [nc_event.reconnected] else []) := by
  unfold markReceived
  by_cases hconn : st.connected = false
  · simp [hconn, NetworkConnection.pushEvent, NetworkConnection.target]
  · simp [hconn]

theorem markReceived_locals (t : Nat) (st : RecvLoop) :
    (markReceived t st).acceptLastPack = st.acceptLastPack ∧
    (markReceived t st).minPackRvd = st.minPackRvd ∧
    (markReceived t st).hashFail = st.hashFail := by
  unfold markReceived
  by_cases hconn : st.connected = false
  · simp [hconn]
  · simp [hconn]

theorem processPacket_eq (t : Nat) (bytes : List Nat) (st : RecvLoop)
    (hlen : 4 ≤ bytes.length) :
    processPacket t bytes st =
      (match onFirstWord (bytes.take 512).length (wordAt bytes 0) (markReceived t st) with
        | (st3, none) => some st3
        | (st3, some (check, i)) =>
          wordLoop check (bytes.take 512) ((bytes.take 512).length / 4)
            ((bytes.take 512).length / 4) (i + 1) st3) := by
  have hbuf : (bytes.take 512).length ≥ 4 := by
    rw [List.length_take]; omega
  have hdiv : 0 < (bytes.take 512).length / 4 := Nat.div_pos hbuf (by decide)
  have hw0 : wordAt (bytes.take 512) 0 = wordAt bytes 0 := wordAt_take bytes 0 (by decide)
  unfold processPacket
  simp only [hbuf, hdiv, if_true, hw0]

theorem processPacket_short (t : Nat) (bytes : List Nat) (st : RecvLoop)
    (hlen : ¬ 4 ≤ bytes.length) :
    processPacket t bytes st = some (markReceived t st) := by
  have hbuf : ¬ (bytes.take 512).length ≥ 4 := by
    rw [List.length_take]; omega
  unfold processPacket
  simp only [hbuf, if_false]

theorem processAll_cons (st : RecvLoop) (d : Nat × List Nat) (ds : List (Nat × List Nat)) :
    processAll st (d :: ds) =
      (match processPacket d.1 d.2 st with
        | none => none
        | some st1 => processAll st1 ds) := rfl

theorem processAll_cons_some (st st1 : RecvLoop) (d : Nat × List Nat)
    (ds : List (Nat × List Nat)) (h : processPacket d.1 d.2 st = some st1) :
    processAll st (d :: ds) = processAll st1 ds := by
  rw [processAll_cons, h]

theorem processAll_cons_inv (st st' : RecvLoop) (d : Nat × List Nat)
    (ds : List (Nat × List Nat)) (h : processAll st (d :: ds) = some st') :
    ∃ st1, processPacket d.1 d.2 st = some st1 ∧ processAll st1 ds = some st' := by
  rw [processAll_cons] at h
  cases hp : processPacket d.1 d.2 st with
  | none => rw [hp] at h; exact absurd h (by simp)
  | some st1 => rw [hp] at h; exact ⟨st1, rfl, h⟩

theorem processAll_append (st : RecvLoop) (xs ys : List (Nat × List Nat)) :
    processAll st (xs ++ ys) =
      (match processAll st xs with
        | none => none
        | some st1 => processAll st1 ys) := by
  induction xs generalizing st with
  | nil => rfl
  | cons x xs ih =>
    rw [List.cons_append, processAll_cons, processAll_cons]
    cases hp : processPacket x.1 x.2 st with
    | none => rfl
    | some st1 => exact ih st1

/-! ## The body for the first word -/

/-- The body for the first word when it is a sequence number at or below
`lastPackID` that is not dropped at once. -/
theorem onFirstWord_low (len p : Nat) (st : RecvLoop)
    (h1 : p ≠ message_type_check) (h2 : p ≠ message_type_quit) (h3 : p ≠ message_type_ping)
    (hA : ¬ (p > 10000 ∨ (p = st.net.lastPackID ∧ st.acceptLastPack = false)))
    (hB : p ≤ st.net.lastPackID) :
    onFirstWord len p st =
      ({ st with
          acceptLastPack := (if p = st.net.lastPackID then false else st.acceptLastPack)
          net := { st.net with
            missingPackList := st.net.missingPackList.filter (fun x => x ≠ p) } },
        if st.net.missingPackList.length =
            (st.net.missingPackList.filter (fun x => x ≠ p)).length then none
        else some (false, 0)) := by
  unfold onFirstWord
  simp only [if_neg h1, if_neg h2, if_neg h3, if_neg hA, if_pos hB]
  by_cases hl : p = st.net.lastPackID
  · simp only [if_pos hl]
    split_ifs <;> rfl
  · simp only [if_neg hl]
    split_ifs <;> rfl

/-- The body for the first word when it is a sequence number above `lastPackID`. -/
theorem onFirstWord_high (len p : Nat) (st : RecvLoop)
    (h1 : p ≠ message_type_check) (h2 : p ≠ message_type_quit) (h3 : p ≠ message_type_ping)
    (hA : ¬ (p > 10000 ∨ (p = st.net.lastPackID ∧ st.acceptLastPack = false)))
    (hB : ¬ p ≤ st.net.lastPackID) :
    onFirstWord len p st =
      ({ st with
          lastTime := 0
          acceptLastPack := false
          net := { st.net with
            missingPackList :=
              (if p > st.net.lastPackID + 1 then
                pushFrontRange (st.net.lastPackID + 1) p st.net.missingPackList
              else st.net.missingPackList)
            lastPackID := p
            minPackRcvd :=
              if (if p > st.net.lastPackID + 1 then
                    pushFrontRange (st.net.lastPackID + 1) p st.net.missingPackList
                  else st.net.missingPackList).isEmpty then p
              else st.net.minPackRcvd } },
        some (false, 0)) := by
  unfold onFirstWord
  simp only [if_neg h1, if_neg h2, if_neg h3, if_neg hA, if_neg hB]

/-- In every other case the body for the first word leaves the bookkeeping of
sequence numbers as it is. -/
theorem onFirstWord_other (len p : Nat) (st : RecvLoop)
    (h : p = message_type_check ∨ p = message_type_quit ∨ p = message_type_ping ∨
      (p > 10000 ∨ (p = st.net.lastPackID ∧ st.acceptLastPack = false))) :
    (onFirstWord len p st).1.net.missingPackList = st.net.missingPackList ∧
    (onFirstWord len p st).1.net.lastPackID = st.net.lastPackID ∧
    (onFirstWord len p st).1.acceptLastPack = st.acceptLastPack ∧
    (onFirstWord len p st).1.net.messageQueue = st.net.messageQueue := by
  unfold onFirstWord
  by_cases h1 : p = message_type_check
  · simp [h1]
  by_cases h2 : p = message_type_quit
  · rw [if_neg h1, if_pos h2]
    simp [NetworkConnection.pushEvent]
  by_cases h3 : p = message_type_ping
  · rw [if_neg h1, if_neg h2, if_pos h3]
    split_ifs <;> simp
  have hA : p > 10000 ∨ (p = st.net.lastPackID ∧ st.acceptLastPack = false) := by
    rcases h with h | h | h | h
    · exact absurd h h1
    · exact absurd h h2
    · exact absurd h h3
    · exact h
  rw [if_neg h1, if_neg h2, if_neg h3, if_pos hA]
  simp

theorem onFirstWord_queue (len p : Nat) (st : RecvLoop) :
    (onFirstWord len p st).1.net.messageQueue = st.net.messageQueue := by
  by_cases h : p = message_type_check ∨ p = message_type_quit ∨ p = message_type_ping ∨
      (p > 10000 ∨ (p = st.net.lastPackID ∧ st.acceptLastPack = false))
  · exact (onFirstWord_other len p st h).2.2.2
  · have h1 : p ≠ message_type_check := fun e => h (Or.inl e)
    have h2 : p ≠ message_type_quit := fun e => h (Or.inr (Or.inl e))
    have h3 : p ≠ message_type_ping := fun e => h (Or.inr (Or.inr (Or.inl e)))
    have hA : ¬ (p > 10000 ∨ (p = st.net.lastPackID ∧ st.acceptLastPack = false)) :=
      fun e => h (Or.inr (Or.inr (Or.inr e)))
    by_cases hB : p ≤ st.net.lastPackID
    · rw [onFirstWord_low len p st h1 h2 h3 hA hB]
    · rw [onFirstWord_high len p st h1 h2 h3 hA hB]

theorem onFirstWord_snd (len p : Nat) (st : RecvLoop) :
    (onFirstWord len p st).2 =
      (if p = message_type_check then some (true, 0)
      else if p = message_type_quit then some (false, 0)
      else if p = message_type_ping then (if len = 8 then some (false, 1) else some (false, 0))
      else if p > 10000 ∨ (p = st.net.lastPackID ∧ st.acceptLastPack = false) then none
      else if p ≤ st.net.lastPackID then
        (if st.net.missingPackList.length =
            (st.net.missingPackList.filter (fun x => x ≠ p)).length then none
        else some (false, 0))
      else some (false, 0)) := by
  by_cases h1 : p = message_type_check
  · simp [onFirstWord, h1]
  by_cases h2 : p = message_type_quit
  · rw [if_neg h1, if_pos h2]; unfold onFirstWord; rw [if_neg h1, if_pos h2]
  by_cases h3 : p = message_type_ping
  · rw [if_neg h1, if_neg h2, if_pos h3]; unfold onFirstWord
    rw [if_neg h1, if_neg h2, if_pos h3]
    split_ifs <;> rfl
  by_cases hA : p > 10000 ∨ (p = st.net.lastPackID ∧ st.acceptLastPack = false)
  · rw [if_neg h1, if_neg h2, if_neg h3, if_pos hA]; unfold onFirstWord
    rw [if_neg h1, if_neg h2, if_neg h3, if_pos hA]
  rw [if_neg h1, if_neg h2, if_neg h3, if_neg hA]
  by_cases hB : p ≤ st.net.lastPackID
  · rw [if_pos hB, onFirstWord_low len p st h1 h2 h3 hA hB]
  · rw [if_neg hB, onFirstWord_high len p st h1 h2 h3 hA hB]

theorem onFirstWord_snd_congr (len p : Nat) (st st2 : RecvLoop)
    (e1 : st2.net.missingPackList = st.net.missingPackList)
    (e2 : st2.net.lastPackID = st.net.lastPackID)
    (e3 : st2.acceptLastPack = st.acceptLastPack) :
    (onFirstWord len p st2).2 = (onFirstWord len p st).2 := by
  rw [onFirstWord_snd, onFirstWord_snd, e1, e2, e3]

/-! ## The fields the receive loop leaves alone, and when it is defined -/

theorem onFirstWord_check (len : Nat) (st : RecvLoop) :
    onFirstWord len message_type_check st = (st, some (true, 0)) := by
  simp [onFirstWord]

theorem onFirstWord_flag (len p i : Nat) (st : RecvLoop)
    (h : (onFirstWord len p st).2 = some (true, i)) : p = message_type_check := by
  by_contra hne
  rw [onFirstWord_snd, if_neg hne] at h
  split_ifs at h <;> simp at h

theorem onFirstWord_stored (len p : Nat) (st : RecvLoop) :
    (onFirstWord len p st).1.net.sentPackets = st.net.sentPackets ∧
    (onFirstWord len p st).1.net.sent = st.net.sent ∧
    (onFirstWord len p st).1.net.target = st.net.target ∧
    (onFirstWord len p st).1.net.sendCount = st.net.sendCount ∧
    (onFirstWord len p st).1.minPackRvd = st.minPackRvd := by
  by_cases h1 : p = message_type_check
  · rw [h1, onFirstWord_check]; exact ⟨rfl, rfl, rfl, rfl, rfl⟩
  by_cases h2 : p = message_type_quit
  · unfold onFirstWord
    rw [if_neg h1, if_pos h2]; exact ⟨rfl, rfl, rfl, rfl, rfl⟩
  by_cases h3 : p = message_type_ping
  · unfold onFirstWord
    rw [if_neg h1, if_neg h2, if_pos h3]
    split_ifs <;> exact ⟨rfl, rfl, rfl, rfl, rfl⟩
  by_cases hA : p > 10000 ∨ (p = st.net.lastPackID ∧ st.acceptLastPack = false)
  · unfold onFirstWord
    rw [if_neg h1, if_neg h2, if_neg h3, if_pos hA]; exact ⟨rfl, rfl, rfl, rfl, rfl⟩
  by_cases hB : p ≤ st.net.lastPackID
  · rw [onFirstWord_low len p st h1 h2 h3 hA hB]; exact ⟨rfl, rfl, rfl, rfl, rfl⟩
  · rw [onFirstWord_high len p st h1 h2 h3 hA hB]; exact ⟨rfl, rfl, rfl, rfl, rfl⟩

theorem onDataWord_stored (u : Nat) (st : RecvLoop) :
    (onDataWord u st).net.sentPackets = st.net.sentPackets ∧
    (onDataWord u st).net.sent = st.net.sent ∧
    (onDataWord u st).net.target = st.net.target ∧
    (onDataWord u st).net.sendCount = st.net.sendCount ∧
    (onDataWord u st).minPackRvd = st.minPackRvd := by
  unfold onDataWord
  by_cases h : u = message_type_newGame <;>
    simp [h, NetworkConnection.pushEvent, NetworkConnection.target]

theorem onCheckWord_stored (i u : Nat) (st st1 : RecvLoop)
    (hs : onCheckWord i u st = some st1) :
    st1.net.sentPackets = st.net.sentPackets ∧
    st1.net.target = st.net.target ∧
    st1.net.sendCount = st.net.sendCount ∧
    st1.minPackRvd = (if i = 3 then u else st.minPackRvd) := by
  unfold onCheckWord at hs
  by_cases h1 : i = 1
  · rw [if_pos h1] at hs
    injection hs with hs; subst hs
    have h3 : ¬ i = 3 := by omega
    rw [if_neg h3]; exact ⟨rfl, rfl, rfl, rfl⟩
  rw [if_neg h1] at hs
  by_cases h2 : i = 2
  · rw [if_pos h2] at hs
    have h3 : ¬ i = 3 := by omega
    rw [if_neg h3]
    split_ifs at hs <;> (injection hs with hs; subst hs; exact ⟨rfl, rfl, rfl, rfl⟩)
  rw [if_neg h2] at hs
  by_cases h3 : i = 3
  · rw [if_pos h3] at hs
    injection hs with hs; subst hs
    rw [if_pos h3]; exact ⟨rfl, rfl, rfl, rfl⟩
  rw [if_neg h3] at hs
  rw [if_neg h3]
  by_cases h4 : i = 4
  · rw [if_pos h4] at hs
    split_ifs at hs <;> (injection hs with hs; subst hs; exact ⟨rfl, rfl, rfl, rfl⟩)
  rw [if_neg h4] at hs
  split_ifs at hs
  injection hs with hs; subst hs
  exact ⟨rfl, rfl, rfl, rfl⟩

theorem onCheckWord_defined (i u : Nat) (st : RecvLoop) (hi : 1 ≤ i)
    (h : 5 ≤ i → erasesStored st = false) : ∃ st1, onCheckWord i u st = some st1 := by
  unfold onCheckWord
  by_cases h1 : i = 1
  · rw [if_pos h1]; exact ⟨_, rfl⟩
  rw [if_neg h1]
  by_cases h2 : i = 2
  · rw [if_pos h2]
    split_ifs <;> exact ⟨_, rfl⟩
  rw [if_neg h2]
  by_cases h3 : i = 3
  · rw [if_pos h3]; exact ⟨_, rfl⟩
  rw [if_neg h3]
  by_cases h4 : i = 4
  · rw [if_pos h4]
    split_ifs <;> exact ⟨_, rfl⟩
  rw [if_neg h4]
  have he : ¬ erasesStored st = true := by
    rw [h (by omega)]; simp
  rw [if_neg he]; exact ⟨_, rfl⟩

theorem wordStep_stored (check : Bool) (buf : List Nat) (i : Nat) (st st1 : RecvLoop)
    (hs : wordStep check buf i st = some st1) :
    st1.net.sentPackets = st.net.sentPackets ∧ st1.net.target = st.net.target ∧
    st1.net.sendCount = st.net.sendCount := by
  cases check with
  | true =>
    rw [wordStep_check] at hs
    obtain ⟨f1, f2, f3, -⟩ := onCheckWord_stored i (wordAt buf i) st st1 hs
    exact ⟨f1, f2, f3⟩
  | false =>
    rw [wordStep_data, Option.some.injEq] at hs
    obtain ⟨f1, -, f3, f4, -⟩ := onDataWord_stored (wordAt buf i) st
    rw [← hs]; exact ⟨f1, f3, f4⟩

theorem processPacket_stored (t : Nat) (bytes : List Nat) (st st' : RecvLoop)
    (hrun : processPacket t bytes st = some st') :
    st'.net.sentPackets = st.net.sentPackets ∧ st'.net.target = st.net.target ∧
    st'.net.sendCount = st.net.sendCount := by
  obtain ⟨-, -, -, -, m5, -, m7, m8, -⟩ := markReceived_net t st
  by_cases hlen : 4 ≤ bytes.length
  · rw [processPacket_eq t bytes st hlen] at hrun
    obtain ⟨f1, -, f3, f4, -⟩ :=
      onFirstWord_stored (bytes.take 512).length (wordAt bytes 0) (markReceived t st)
    cases hres : onFirstWord (bytes.take 512).length (wordAt bytes 0) (markReceived t st) with
    | mk st3 r =>
      rw [hres] at hrun f1 f3 f4
      cases r with
      | none =>
        simp only [Option.some.injEq] at hrun
        rw [← hrun]; exact ⟨f1.trans m5, f3.trans m7, f4.trans m8⟩
      | some ci =>
        obtain ⟨c, i⟩ := ci
        simp only at hrun
        exact wordLoop_preserves
          (fun s => s.net.sentPackets = st.net.sentPackets ∧ s.net.target = st.net.target ∧
            s.net.sendCount = st.net.sendCount) c (bytes.take 512) _
          (fun j s s1 _ hs hstp => by
            obtain ⟨g1, g2, g3⟩ := wordStep_stored c (bytes.take 512) j s s1 hstp
            exact ⟨g1.trans hs.1, g2.trans hs.2.1, g3.trans hs.2.2⟩)
          _ _ st3 st' ⟨f1.trans m5, f3.trans m7, f4.trans m8⟩ hrun
  · rw [processPacket_short t bytes st hlen, Option.some.injEq] at hrun
    rw [← hrun]; exact ⟨m5, m7, m8⟩

theorem erasesStored_false (st : RecvLoop)
    (h : ∀ pd ∈ st.net.sentPackets, ¬ packetSeq pd < st.minPackRvd) :
    erasesStored st = false := by
  unfold erasesStored
  rw [List.any_eq_false]
  intro pd hpd
  have := h pd hpd
  simpa [packetSeq] using this

theorem processPacket_defined (t : Nat) (bytes : List Nat) (st : RecvLoop)
    (hne : NoErase st.net.sentPackets bytes) : ∃ st', processPacket t bytes st = some st' := by
  by_cases hlen : 4 ≤ bytes.length
  · rw [processPacket_eq t bytes st hlen]
    obtain ⟨-, -, -, -, m5, -⟩ := markReceived_net t st
    cases hres : onFirstWord (bytes.take 512).length (wordAt bytes 0) (markReceived t st) with
    | mk st3 r =>
      cases r with
      | none => exact ⟨st3, rfl⟩
      | some ci =>
        obtain ⟨c, i⟩ := ci
        simp only
        cases c with
        | false => exact wordLoop_data_defined _ _ _ _ _
        | true =>
          have hchk : wordAt bytes 0 = message_type_check :=
            onFirstWord_flag _ _ i (markReceived t st) (by rw [hres])
          rw [hchk, onFirstWord_check] at hres
          injection hres with h1 h2
          injection h2 with h2
          injection h2 with h3 h4
          subst h1; subst h4
          refine wordLoop_defined
            (fun j s => 1 ≤ j ∧ s.net.sentPackets = st.net.sentPackets ∧
              (4 ≤ j → s.minPackRvd = wordAt bytes 3)) true (bytes.take 512) _ ?_ _ _ _
            ⟨Nat.le_refl _, m5, fun h => absurd h (by decide)⟩
          intro j s hj ⟨hj1, hsp, hmin⟩
          have hjl : j * 4 + 4 ≤ (bytes.take 512).length := by omega
          have hjb : j * 4 + 4 ≤ bytes.length ∧ j * 4 + 4 ≤ 512 := by
            rw [List.length_take] at hjl; omega
          rw [wordStep_check]
          obtain ⟨s1, hs1⟩ := onCheckWord_defined j (wordAt (bytes.take 512) j) s hj1
            (by
              intro h5
              apply erasesStored_false
              intro pd hpd
              rw [hmin (by omega)]
              exact hne hchk (by omega) pd (hsp ▸ hpd))
          obtain ⟨g1, -, -, g4⟩ := onCheckWord_stored j _ s s1 hs1
          refine ⟨s1, hs1, by omega, g1.trans hsp, ?_⟩
          intro h4
          rw [g4]
          by_cases h3 : j = 3
          · rw [if_pos h3, h3]; exact wordAt_take bytes 3 (by decide)
          · rw [if_neg h3]; exact hmin (by omega)
  · exact ⟨_, processPacket_short t bytes st hlen⟩

theorem processAll_defined :
    ∀ (ds : List (Nat × List Nat)) (st : RecvLoop),
      (∀ d ∈ ds, NoErase st.net.sentPackets d.2) → ∃ st', processAll st ds = some st' := by
  intro ds
  induction ds with
  | nil => intro st _; exact ⟨st, rfl⟩
  | cons d ds ih =>
    intro st hne
    obtain ⟨st1, h1⟩ := processPacket_defined d.1 d.2 st (hne d (List.mem_cons_self _ _))
    obtain ⟨f1, -, -⟩ := processPacket_stored d.1 d.2 st st1 h1
    rw [processAll_cons_some st st1 d ds h1]
    exact ih st1 (fun e he => f1 ▸ hne e (List.mem_cons_of_mem _ he))

theorem processAll_stored :
    ∀ (ds : List (Nat × List Nat)) (st st' : RecvLoop), processAll st ds = some st' →
      st'.net.sentPackets = st.net.sentPackets ∧ st'.net.target = st.net.target ∧
      st'.net.sendCount = st.net.sendCount := by
  intro ds
  induction ds with
  | nil =>
    intro st st' h
    simp only [processAll, Option.some.injEq] at h
    rw [← h]; exact ⟨rfl, rfl, rfl⟩
  | cons d ds ih =>
    intro st st' h
    obtain ⟨st1, h1, h2⟩ := processAll_cons_inv st st' d ds h
    obtain ⟨f1, f2, f3⟩ := processPacket_stored d.1 d.2 st st1 h1
    obtain ⟨g1, g2, g3⟩ := ih st1 st' h2
    exact ⟨g1.trans f1, g2.trans f2, g3.trans f3⟩

/-! ## The missing list of the receive loop -/

theorem onDataWord_fields (u : Nat) (st : RecvLoop) :
    (onDataWord u st).net.missingPackList = st.net.missingPackList ∧
    (onDataWord u st).net.lastPackID = st.net.lastPackID ∧
    (onDataWord u st).acceptLastPack = st.acceptLastPack := by
  unfold onDataWord
  by_cases h : u = message_type_newGame <;> simp [h, NetworkConnection.pushEvent]

theorem onCheckWord_inv (seen : Nat → Prop) (i u : Nat) (st st1 : RecvLoop)
    (hu : i = 4 → u < 10000)
    (h : MissingInv st.net.missingPackList st.net.lastPackID st.acceptLastPack seen)
    (hs : onCheckWord i u st = some st1) :
    MissingInv st1.net.missingPackList st1.net.lastPackID st1.acceptLastPack seen := by
  unfold onCheckWord at hs
  by_cases h1 : i = 1
  · rw [if_pos h1] at hs
    injection hs with hs; subst hs; exact h
  rw [if_neg h1] at hs
  by_cases h2 : i = 2
  · rw [if_pos h2] at hs
    split_ifs at hs <;> (injection hs with hs; subst hs; exact h)
  rw [if_neg h2] at hs
  by_cases h3 : i = 3
  · rw [if_pos h3] at hs
    injection hs with hs; subst hs; exact h
  rw [if_neg h3] at hs
  by_cases h4 : i = 4
  · rw [if_pos h4] at hs
    have hu4 := hu h4
    by_cases hgt : u > st.net.lastPackID
    · have hmod : (u + 1) % 2 ^ 32 = u + 1 := Nat.mod_eq_of_lt (by omega)
      rw [if_pos hgt, hmod] at hs
      injection hs with hs; subst hs
      obtain ⟨hI1, hI2, hI3⟩ := h
      refine ⟨?_, ?_, ?_⟩
      · intro q
        show q ∈ pushFrontRange (st.net.lastPackID + 1) (u + 1) st.net.missingPackList ↔
          1 ≤ q ∧ q ≤ u ∧ ¬ seen q
        rw [mem_pushFrontRange, hI1]
        constructor
        · rintro (⟨ha, hb⟩ | ⟨ha, hb, hc⟩)
          · exact ⟨by omega, by omega, fun hs => by have := hI3 q hs; omega⟩
          · exact ⟨ha, by omega, hc⟩
        · rintro ⟨ha, hb, hc⟩
          by_cases hq : q ≤ st.net.lastPackID
          · exact Or.inr ⟨ha, hq, hc⟩
          · exact Or.inl ⟨by omega, by omega⟩
      · intro hf; exact absurd hf (by simp)
      · intro q hs
        have := hI3 q hs
        show q ≤ u
        omega
    · rw [if_neg hgt] at hs
      injection hs with hs; subst hs; exact h
  rw [if_neg h4] at hs
  split_ifs at hs
  injection hs with hs; subst hs; exact h

theorem filter_inv (seen : Nat → Prop) (q : Nat) (missing : List Nat) (last : Nat)
    (accept accept1 : Bool) (hB : q ≤ last)
    (hacc : accept1 = false → q = last ∨ accept = false)
    (h : MissingInv missing last accept seen) :
    MissingInv (missing.filter (fun y => decide (y ≠ q))) last accept1
      (fun x => seen x ∨ x = q) := by
  obtain ⟨hI1, hI2, hI3⟩ := h
  refine ⟨?_, ?_, ?_⟩
  · intro x
    have hmem : x ∈ missing.filter (fun y => decide (y ≠ q)) ↔ x ∈ missing ∧ x ≠ q := by
      simp [List.mem_filter]
    rw [hmem, hI1]
    constructor
    · rintro ⟨⟨ha, hb, hs⟩, hne⟩
      exact ⟨ha, hb, fun h => h.elim hs hne⟩
    · rintro ⟨ha, hb, hs⟩
      exact ⟨⟨ha, hb, fun h => hs (Or.inl h)⟩, fun h => hs (Or.inr h)⟩
  · intro hf
    rcases hacc hf with hl | ha
    · exact Or.inr (Or.inr hl.symm)
    · rcases hI2 ha with h0 | hsl
      · exact Or.inl h0
      · exact Or.inr (Or.inl hsl)
  · rintro x (hs | hx)
    · exact hI3 x hs
    · rw [hx]; exact hB

theorem onFirstWord_payload_inv (seen : Nat → Prop) (len q : Nat) (st : RecvLoop)
    (hq : q < 10000)
    (h : MissingInv st.net.missingPackList st.net.lastPackID st.acceptLastPack seen) :
    MissingInv (onFirstWord len q st).1.net.missingPackList
      (onFirstWord len q st).1.net.lastPackID (onFirstWord len q st).1.acceptLastPack
      (fun x => seen x ∨ x = q) ∧
    ∀ c i, (onFirstWord len q st).2 = some (c, i) → c = false := by
  obtain ⟨hI1, hI2, hI3⟩ := h
  have hc : q ≠ message_type_check := by
    intro h; rw [h] at hq; exact absurd hq (by decide)
  have hqt : q ≠ message_type_quit := by
    intro h; rw [h] at hq; exact absurd hq (by decide)
  have hpg : q ≠ message_type_ping := by
    intro h; rw [h] at hq; exact absurd hq (by decide)
  unfold onFirstWord
  simp only [if_neg hc, if_neg hqt, if_neg hpg]
  by_cases hA : q > 10000 ∨ (q = st.net.lastPackID ∧ st.acceptLastPack = false)
  · -- a repeat of the last packet: dropped
    simp only [if_pos hA]
    have hA' : q = st.net.lastPackID ∧ st.acceptLastPack = false := by
      rcases hA with hA | hA
      · omega
      · exact hA
    refine ⟨⟨?_, ?_, ?_⟩, by simp⟩
    · intro x
      rw [hI1]
      constructor
      · rintro ⟨ha, hb, hs⟩
        refine ⟨ha, hb, ?_⟩
        rintro (hs' | hxq)
        · exact hs hs'
        · rcases hI2 hA'.2 with h0 | hsl
          · omega
          · rw [hxq, hA'.1] at hs; exact hs hsl
      · rintro ⟨ha, hb, hs⟩
        exact ⟨ha, hb, fun hs' => hs (Or.inl hs')⟩
    · intro _; exact Or.inr (Or.inr hA'.1.symm)
    · rintro x (hs | hx)
      · exact hI3 x hs
      · rw [hx, hA'.1]
  · simp only [if_neg hA]
    by_cases hB : q ≤ st.net.lastPackID
    · -- a packet at or below the last one: taken off the missing list
      simp only [if_pos hB]
      have hfull : MissingInv st.net.missingPackList st.net.lastPackID st.acceptLastPack seen :=
        ⟨hI1, hI2, hI3⟩
      by_cases hl : q = st.net.lastPackID
      · simp only [if_pos hl]
        split_ifs
        · exact ⟨filter_inv seen q _ _ st.acceptLastPack false hB (fun _ => Or.inl hl) hfull,
            by simp⟩
        · exact ⟨filter_inv seen q _ _ st.acceptLastPack false hB (fun _ => Or.inl hl) hfull,
            by simp⟩
      · simp only [if_neg hl]
        split_ifs
        · exact ⟨filter_inv seen q _ _ st.acceptLastPack _ hB (fun h => Or.inr h) hfull,
            by simp⟩
        · exact ⟨filter_inv seen q _ _ st.acceptLastPack _ hB (fun h => Or.inr h) hfull,
            by simp⟩
    · -- a packet above the last one: the gap is put on the missing list
      simp only [if_neg hB]
      have hgt : st.net.lastPackID < q := Nat.lt_of_not_le hB
      have hmem : ∀ x, x ∈ (if q > st.net.lastPackID + 1 then
            pushFrontRange (st.net.lastPackID + 1) q st.net.missingPackList
          else st.net.missingPackList) ↔
          (st.net.lastPackID + 1 ≤ x ∧ x < q) ∨ x ∈ st.net.missingPackList := by
        intro x
        by_cases hg : q > st.net.lastPackID + 1
        · simp only [if_pos hg, mem_pushFrontRange]
        · simp only [if_neg hg]
          constructor
          · exact Or.inr
          · rintro (⟨ha, hb⟩ | h)
            · omega
            · exact h
      refine ⟨⟨?_, ?_, ?_⟩, by simp⟩
      · intro x
        show x ∈ (if q > st.net.lastPackID + 1 then
            pushFrontRange (st.net.lastPackID + 1) q st.net.missingPackList
          else st.net.missingPackList) ↔ _
        rw [hmem, hI1]
        show _ ↔ 1 ≤ x ∧ x ≤ q ∧ ¬ (seen x ∨ x = q)
        constructor
        · rintro (⟨ha, hb⟩ | ⟨ha, hb, hs⟩)
          · refine ⟨by omega, by omega, ?_⟩
            rintro (hs | hx)
            · have := hI3 x hs; omega
            · omega
          · refine ⟨ha, by omega, ?_⟩
            rintro (hs' | hx)
            · exact hs hs'
            · omega
        · rintro ⟨ha, hb, hs⟩
          by_cases hx : x ≤ st.net.lastPackID
          · exact Or.inr ⟨ha, hx, fun h => hs (Or.inl h)⟩
          · refine Or.inl ⟨by omega, ?_⟩
            have : x ≠ q := fun h => hs (Or.inr h)
            omega
      · intro _
        exact Or.inr (Or.inr rfl)
      · rintro x (hs | hx)
        · have := hI3 x hs
          show x ≤ q
          omega
        · show x ≤ q
          omega

theorem MissingInv_congr {missing : List Nat} {last : Nat} {accept : Bool}
    {seen seen1 : Nat → Prop} (hiff : ∀ x, seen x ↔ seen1 x)
    (h : MissingInv missing last accept seen) : MissingInv missing last accept seen1 := by
  obtain ⟨hI1, hI2, hI3⟩ := h
  refine ⟨fun q => ?_, fun ha => ?_, fun q hs => hI3 q ((hiff q).mpr hs)⟩
  · rw [hI1, hiff]
  · rcases hI2 ha with h0 | hs
    · exact Or.inl h0
    · exact Or.inr ((hiff _).mp hs)

theorem processPacket_inv (seen : Nat → Prop) (t : Nat) (bytes : List Nat) (st st' : RecvLoop)
    (hd : (∃ q, IsPayload bytes q) ∨ IsBeacon bytes)
    (h : MissingInv st.net.missingPackList st.net.lastPackID st.acceptLastPack seen)
    (hrun : processPacket t bytes st = some st') :
    MissingInv st'.net.missingPackList st'.net.lastPackID st'.acceptLastPack
      (fun x => seen x ∨ IsPayload bytes x) := by
  have hlen4 : 4 ≤ bytes.length := by
    rcases hd with ⟨q, hq⟩ | hb
    · exact hq.1
    · exact hb.1
  obtain ⟨m1, m2, -⟩ := markReceived_net t st
  obtain ⟨m3, -⟩ := markReceived_locals t st
  have h2 : MissingInv (markReceived t st).net.missingPackList
      (markReceived t st).net.lastPackID (markReceived t st).acceptLastPack seen := by
    rw [m1, m2, m3]; exact h
  rw [processPacket_eq t bytes st hlen4] at hrun
  rcases hd with ⟨q, hq⟩ | hb
  · -- a payload datagram
    have hiff : ∀ x, (seen x ∨ x = q) ↔ (seen x ∨ IsPayload bytes x) := by
      intro x
      constructor
      · rintro (hs | hx)
        · exact Or.inl hs
        · rw [hx]; exact Or.inr hq
      · rintro (hs | hx)
        · exact Or.inl hs
        · exact Or.inr (hx.2.1.symm.trans hq.2.1)
    obtain ⟨hinv, hchk⟩ :=
      onFirstWord_payload_inv seen (bytes.take 512).length q (markReceived t st) hq.2.2 h2
    rw [hq.2.1] at hrun
    cases hres : onFirstWord (bytes.take 512).length q (markReceived t st) with
    | mk st3 r =>
      rw [hres] at hinv hchk hrun
      cases r with
      | none =>
        simp only [Option.some.injEq] at hrun
        rw [← hrun]; exact MissingInv_congr hiff hinv
      | some ci =>
        obtain ⟨c, i⟩ := ci
        have hc : c = false := hchk c i rfl
        subst hc
        simp only at hrun
        exact wordLoop_preserves
          (fun s => MissingInv s.net.missingPackList s.net.lastPackID s.acceptLastPack
            (fun x => seen x ∨ IsPayload bytes x)) false (bytes.take 512) _
          (fun j s s1 _ hs hstp => by
            rw [wordStep_data, Option.some.injEq] at hstp
            obtain ⟨f1, f2, f3⟩ := onDataWord_fields (wordAt (bytes.take 512) j) s
            rw [← hstp, f1, f2, f3]; exact hs)
          _ _ st3 st' (MissingInv_congr hiff hinv) hrun
  · -- a check beacon
    have hiff : ∀ x, seen x ↔ (seen x ∨ IsPayload bytes x) := by
      intro x
      constructor
      · exact Or.inl
      · rintro (hs | hx)
        · exact hs
        · have h1 := hx.2.1
          have h2 := hx.2.2
          rw [hb.2.1] at h1
          rw [← h1] at h2
          exact absurd h2 (by decide)
    rw [hb.2.1, onFirstWord_check] at hrun
    simp only at hrun
    exact wordLoop_preserves
      (fun s => MissingInv s.net.missingPackList s.net.lastPackID s.acceptLastPack
        (fun x => seen x ∨ IsPayload bytes x)) true (bytes.take 512) _
      (fun j s s1 hj hs hstp => by
        rw [wordStep_check] at hstp
        refine onCheckWord_inv _ j _ s s1 ?_ hs hstp
        intro hi4
        subst hi4
        have hl : 20 ≤ (bytes.take 512).length := by omega
        have hl2 : 20 ≤ bytes.length := by
          rw [List.length_take] at hl; omega
        rw [wordAt_take bytes 4 (by decide)]
        exact hb.2.2 hl2)
      _ _ _ st' (MissingInv_congr hiff h2) hrun

theorem processAll_inv :
    ∀ (ds : List (Nat × List Nat)) (st st' : RecvLoop) (seen : Nat → Prop),
      (∀ d ∈ ds, (∃ q, IsPayload d.2 q) ∨ IsBeacon d.2) →
      MissingInv st.net.missingPackList st.net.lastPackID st.acceptLastPack seen →
      processAll st ds = some st' →
      MissingInv st'.net.missingPackList st'.net.lastPackID st'.acceptLastPack
        (fun x => seen x ∨ ∃ d ∈ ds, IsPayload d.2 x) := by
  intro ds
  induction ds with
  | nil =>
    intro st st' seen _ h hrun
    simp only [processAll, Option.some.injEq] at hrun
    rw [← hrun]
    exact MissingInv_congr (fun x => by simp) h
  | cons d ds ih =>
    intro st st' seen hds h hrun
    obtain ⟨st1, hp, hrest⟩ := processAll_cons_inv st st' d ds hrun
    have h1 := processPacket_inv seen d.1 d.2 st st1 (hds d (List.mem_cons_self _ _)) h hp
    have h2 := ih st1 st' _ (fun e he => hds e (List.mem_cons_of_mem _ he)) h1 hrest
    refine MissingInv_congr (fun x => ?_) h2
    simp only [List.mem_cons, exists_eq_or_imp, or_assoc]

/-- C10: missing-set invariant.  Start the receive loop in a state with
`lastPackID = 0` and an empty missing list (a fresh session), and let it process any
finite list of datagrams each of which is a payload datagram (first word below 10000)
or a check beacon (whose `send_count` field, if present, is below 10000), none of
which makes the loop erase a stored packet.  Then the loop reaches a state, and there
the missing list holds exactly the numbers `q` with `1 ≤ q ≤ lastPackID` for which no
payload datagram with sequence `q` was among the datagrams processed. -/
theorem C10_missing_set_invariant (st : RecvLoop) (ds : List (Nat × List Nat))
    (hlast : st.net.lastPackID = 0) (hmiss : st.net.missingPackList = [])
    (hds : ∀ d ∈ ds, (∃ q, IsPayload d.2 q) ∨ IsBeacon d.2)
    (hne : ∀ d ∈ ds, NoErase st.net.sentPackets d.2) :
    ∃ st', processAll st ds = some st' ∧
      ∀ q, q ∈ st'.net.missingPackList ↔
        1 ≤ q ∧ q ≤ st'.net.lastPackID ∧ ¬ ∃ d ∈ ds, IsPayload d.2 q := by
  have h0 : MissingInv st.net.missingPackList st.net.lastPackID st.acceptLastPack
      (fun _ => False) := by
    refine ⟨fun q => ?_, fun _ => Or.inl hlast, fun q hq => hq.elim⟩
    rw [hmiss, hlast]
    constructor
    · intro h; exact absurd h (List.not_mem_nil q)
    · rintro ⟨h1, h2, -⟩; omega
  obtain ⟨st', hrun⟩ := processAll_defined ds st hne
  have h1 := processAll_inv ds st st' _ hds h0 hrun
  refine ⟨st', hrun, fun q => ?_⟩
  rw [h1.1 q]
  simp

/-- Instance of C10 on a fresh session that receives the payloads with sequence
numbers 1, 2 and 4: the number 3 is on the missing list. -/
theorem C10_missing_set_invariant_witness :
    ∃ st', processAll freshLoop lossTrace = some st' ∧
      ∀ q, q ∈ st'.net.missingPackList ↔
        1 ≤ q ∧ q ≤ st'.net.lastPackID ∧ ¬ ∃ d ∈ lossTrace, IsPayload d.2 q :=
  C10_missing_set_invariant freshLoop lossTrace rfl rfl
    (fun d hd => by
      have hd1 : d = (0, SDLNet_Write32 1 ++ SDLNet_Write32 7) ∨
          d = (0, SDLNet_Write32 2 ++ SDLNet_Write32 8) ∨
          d = (0, SDLNet_Write32 4 ++ SDLNet_Write32 9) := by
        simpa [lossTrace] using hd
      rcases hd1 with rfl | rfl | rfl
      · exact Or.inl ⟨1, by decide, by decide, by decide⟩
      · exact Or.inl ⟨2, by decide, by decide, by decide⟩
      · exact Or.inl ⟨4, by decide, by decide, by decide⟩)
    (fun d _ _ _ pd hpd => absurd hpd (List.not_mem_nil pd))

/-! ## The sending side -/

set_option maxRecDepth 100000

/-- C13: `sendUdpPacket` sends nothing.  For every session the log of datagrams sent
is the same before and after the call: the function prepares the packet and its
address but never calls `SDLNet_UDP_Send`.  On the connected session the rest of the
postcondition holds: the buffer `[0, 0, 0, 1]` is pushed to `sentPackets`,
`sendCount` becomes 1 and the buffer is reset to the word 2 with `sendSize = 4`. -/
theorem C13_sendUdpPacket_emits_nothing :
    (∀ net : NetworkConnection, (sendUdpPacket net).sent = net.sent) ∧
    (sendUdpPacket connectedSession).sentPackets = [[0, 0, 0, 1]] ∧
    (sendUdpPacket connectedSession).sendCount = 1 ∧
    (sendUdpPacket connectedSession).sendSize = 4 ∧
    (sendUdpPacket connectedSession).sendBuff.take 4 = [0, 0, 0, 2] ∧
    (sendUdpPacket connectedSession).sent = connectedSession.sent := by
  refine ⟨?_, rfl, rfl, rfl, rfl, rfl⟩
  intro net
  unfold sendUdpPacket
  cases net.packet with
  | none => rfl
  | some pkt =>
    simp only
    split_ifs <;> rfl

theorem addToSendBuf_inv (w : Nat) (net : NetworkConnection) (h : SendBufInv net) :
    SendBufInv (addToSendBuf w net) := by
  simp only [SendBufInv, NET_MAX_PACKET_SIZE] at h ⊢
  obtain ⟨h1, h2, h3⟩ := h
  unfold addToSendBuf
  by_cases hfull : net.sendSize ≥ NET_MAX_PACKET_SIZE
  · simp only [if_pos hfull]; exact ⟨h1, h2, h3⟩
  · simp only [if_neg hfull]
    simp only [NET_MAX_PACKET_SIZE, ge_iff_le, not_le] at hfull
    refine ⟨?_, ?_, ?_⟩
    · simp [memcpyAt, SDLNet_Write32]; omega
    · show (net.sendSize + 4) % 4 = 0
      omega
    · show net.sendSize + 4 ≤ 512
      omega

theorem sendUdpPacket_inv (net : NetworkConnection) (h : SendBufInv net) :
    SendBufInv (sendUdpPacket net) := by
  simp only [SendBufInv, NET_MAX_PACKET_SIZE] at h ⊢
  obtain ⟨h1, h2, h3⟩ := h
  unfold sendUdpPacket
  cases net.packet with
  | none => exact ⟨h1, h2, h3⟩
  | some pkt =>
    simp only
    split_ifs
    · exact ⟨h1, h2, h3⟩
    · refine ⟨?_, by simp, by simp⟩
      simp [memcpy, SDLNet_Write32]; omega

theorem applyOps_inv (ops : List SendOp) :
    ∀ net : NetworkConnection, SendBufInv net → SendBufInv (applyOps net ops) := by
  induction ops with
  | nil => intro net h; exact h
  | cons op ops ih =>
    intro net h
    simp only [applyOps, List.foldl_cons]
    apply ih
    cases op with
    | add data => exact addToSendBuf_inv data net h
    | send => exact sendUdpPacket_inv net h

/-- C14: outbound buffer bound.  Start from a session whose buffer array has 512 bytes
and whose `sendSize` is 0 (freshly constructed) or 4 (freshly connected), and apply
any sequence of `addToSendBuf` and `sendUdpPacket` calls.  Then `sendSize` is a
multiple of 4 and at most 512; a further `addToSendBuf(w)` appends the four
big-endian bytes of `w` to the first `sendSize` bytes when `sendSize ≤ 508`, and
leaves the session unchanged when `sendSize = 512`. -/
theorem C14_outbound_buffer_bound (net0 : NetworkConnection) (ops : List SendOp)
    (hlen : net0.sendBuff.length = NET_MAX_PACKET_SIZE)
    (hfresh : net0.sendSize = 0 ∨ net0.sendSize = 4) :
    (applyOps net0 ops).sendSize % 4 = 0 ∧ (applyOps net0 ops).sendSize ≤ 512 ∧
    ∀ w, ((applyOps net0 ops).sendSize ≤ 508 →
        (addToSendBuf w (applyOps net0 ops)).sendSize = (applyOps net0 ops).sendSize + 4 ∧
        (addToSendBuf w (applyOps net0 ops)).sendBuff.take
            (addToSendBuf w (applyOps net0 ops)).sendSize =
          (applyOps net0 ops).sendBuff.take (applyOps net0 ops).sendSize ++ SDLNet_Write32 w) ∧
      ((applyOps net0 ops).sendSize = 512 →
        addToSendBuf w (applyOps net0 ops) = applyOps net0 ops) := by
  have h0 : SendBufInv net0 := by
    refine ⟨hlen, ?_, ?_⟩
    · rcases hfresh with h | h <;> rw [h]
    · rcases hfresh with h | h <;> rw [h] <;> decide
  obtain ⟨h1, h2, h3⟩ := applyOps_inv ops net0 h0
  simp only [NET_MAX_PACKET_SIZE] at h1 h3
  refine ⟨h2, h3, ?_⟩
  intro w
  constructor
  · intro hle
    have hnot : ¬ (applyOps net0 ops).sendSize ≥ NET_MAX_PACKET_SIZE := by
      simp only [NET_MAX_PACKET_SIZE]; omega
    have hl : ((applyOps net0 ops).sendBuff.take (applyOps net0 ops).sendSize ++
        SDLNet_Write32 w).length = (applyOps net0 ops).sendSize + 4 := by
      rw [List.length_append, List.length_take]
      have hw : (SDLNet_Write32 w).length = 4 := rfl
      omega
    rw [addToSendBuf, if_neg hnot]
    exact ⟨rfl, List.take_left' hl⟩
  · intro hfull
    have hge : (applyOps net0 ops).sendSize ≥ NET_MAX_PACKET_SIZE := by
      simp only [NET_MAX_PACKET_SIZE]; omega
    rw [addToSendBuf, if_pos hge]

/-- Instance of C14: on the connected session, after 130 calls of `addToSendBuf` and
none of `sendUdpPacket`, `sendSize` is a multiple of four and at most 512. -/
theorem C14_outbound_buffer_bound_witness :
    (applyOps connectedSession (List.replicate 130 (SendOp.add 9))).sendSize % 4 = 0 ∧
    (applyOps connectedSession (List.replicate 130 (SendOp.add 9))).sendSize ≤ 512 :=
  let h := C14_outbound_buffer_bound connectedSession (List.replicate 130 (SendOp.add 9))
    rfl (Or.inr rfl)
  ⟨h.1, h.2.1⟩

/-! ## Concrete runs of the session -/

/-- C15: the hash ring does not keep the last `HASH_NUM` hashes.  After
`updateHash(1)`, `updateHash(2)`, `updateHash(3)` the hash `1` (two updates old) is
not in the ring: the `memmove` shifts `HASH_NUM - 1 = 4` bytes, one entry, so the
ring is `[3, 2, 0, 0, 0]`.  A beacon carrying hash `1`, processed with
`pauseTime = 0` in a session flagged out of sync, counts as a failure and leaves
`inSync = false`. -/
theorem C15_hash_ring_keeps_two_entries :
    threeHashes.hash = [3, 2, 0, 0, 0] ∧ threeHashes.hash[2]? ≠ some 1 ∧
    threeHashes.pauseTime = 0 ∧
    (processPacket 0 (SDLNet_Write32 message_type_check ++ SDLNet_Write32 0 ++ SDLNet_Write32 1)
      (RecvLoop.enter threeHashes 0)).map (fun s => (s.net.inSync, s.hashFail)) =
      some (false, 1) := by
  refine ⟨rfl, by decide, rfl, rfl⟩

/-- C18: the watermark bound fails from a freshly constructed session.  The
constructor does not assign `minPackRcvd`; when the storage holds `7` there, the
session has `minPackRcvd = 7 > 0 = lastPackID` before any datagram and still after
a one-word check beacon. -/
theorem C18_watermark_unset_by_constructor :
    (RecvLoop.enter (constructed 7) 0).net.minPackRcvd = 7 ∧
    (RecvLoop.enter (constructed 7) 0).net.lastPackID = 0 ∧
    (processPacket 0 (SDLNet_Write32 message_type_check)
      (RecvLoop.enter (constructed 7) 0)).map (fun s => (s.net.minPackRcvd, s.net.lastPackID)) =
      some (7, 0) :=
  ⟨rfl, rfl, rfl⟩

/-- C19: a failed handshake is not surfaced.  With no reply from the server,
`connectToInternetServer` returns `0` after the 10 s deadline; the callers test the
return value against `-1`, so on the host path and on the joiner path the event
`connectedToServer` is pushed, `connectionFailed` is not, and the role message
(`startHost`, `requestHost`) is sent after the three `connect` datagrams. -/
theorem C19_handshake_failure_not_surfaced :
    (connectToInternetServer timeoutEnv (constructed 0)).map (fun r => r.1) = some 0 ∧
    (netStartHost timeoutEnv (constructed 0)).map (fun r => (r.1, r.2.events, r.2.sent)) =
      some (Progress.waiting, [nc_event.connectedToServer],
        [⟨⟨7, 55777⟩, SDLNet_Write32 message_type_connect⟩,
         ⟨⟨7, 55777⟩, SDLNet_Write32 message_type_connect⟩,
         ⟨⟨7, 55777⟩, SDLNet_Write32 message_type_connect⟩,
         ⟨⟨7, 55777⟩, SDLNet_Write32 message_type_startHost⟩]) ∧
    (netConnectToHost timeoutEnv (constructed 0)).map (fun r => (r.1, r.2.events, r.2.sent)) =
      some (Progress.waiting, [nc_event.connectedToServer],
        [⟨⟨7, 55777⟩, SDLNet_Write32 message_type_connect⟩,
         ⟨⟨7, 55777⟩, SDLNet_Write32 message_type_connect⟩,
         ⟨⟨7, 55777⟩, SDLNet_Write32 message_type_connect⟩,
         ⟨⟨7, 55777⟩, SDLNet_Write32 message_type_requestHost⟩]) ∧
    (netStartHost sendFailEnv (constructed 0)).map (fun r => (r.1, r.2.events, r.2.sent)) =
      some (Progress.waiting, [nc_event.connectedToServer],
        [⟨⟨7, 55777⟩, SDLNet_Write32 message_type_startHost⟩]) :=
  ⟨rfl, rfl, rfl, rfl⟩

/-! ## First-word dispatch and the hash check -/

/-- C20, as stated, fails.  A datagram with first word `10000` is handled as a
payload: on a fresh session `[10000][77]` sets `lastPackID = 10000` and puts `77` in
the inbox.  And a datagram with first word `20000`, met when the link is flagged as
lost, pushes the event `reconnected`. -/
theorem C20_first_word_10000_counterexample :
    (processPacket 0 (SDLNet_Write32 10000 ++ SDLNet_Write32 77) freshLoop).map
      (fun s => (s.net.lastPackID, s.net.messageQueue)) = some (10000, [77]) ∧
    freshLoop.net.lastPackID = 0 ∧ freshLoop.net.messageQueue = [] ∧
    (processPacket 0 (SDLNet_Write32 20000) lostLoop).map (fun s => s.net.events) =
      some [nc_event.reconnected] ∧
    lostLoop.net.events = [] :=
  ⟨rfl, rfl, rfl, rfl, rfl⟩

/-- C20, amended: first words above 10000 are ignored.  For every datagram of at
least four bytes whose first word `v` satisfies `10001 ≤ v ≤ 65534` and is neither
`quit` nor `ping`, the receive step returns a state in which `lastPackID`,
`minPackRcvd`, the missing list and the inbox are unchanged, and it pushes no event
except `reconnected` when the link was flagged as lost. -/
theorem C20_first_word_above_10000_ignored (t : Nat) (bytes : List Nat) (st : RecvLoop)
    (hlen : 4 ≤ bytes.length) (hlo : 10001 ≤ wordAt bytes 0) (hhi : wordAt bytes 0 ≤ 65534)
    (hq : wordAt bytes 0 ≠ message_type_quit) (hp : wordAt bytes 0 ≠ message_type_ping) :
    ∃ st', processPacket t bytes st = some st' ∧
      st'.net.lastPackID = st.net.lastPackID ∧
      st'.net.minPackRcvd = st.net.minPackRcvd ∧
      st'.net.missingPackList = st.net.missingPackList ∧
      st'.net.messageQueue = st.net.messageQueue ∧
      st'.net.events =
        st.net.events ++ (if st.connected = false then [nc_event.reconnected] else []) := by
  have hc : wordAt bytes 0 ≠ message_type_check := by
    intro h; rw [h] at hhi; exact absurd hhi (by decide)
  have hfw : ∀ st2 : RecvLoop,
      onFirstWord (bytes.take 512).length (wordAt bytes 0) st2 = (st2, none) := by
    intro st2
    have hgt : wordAt bytes 0 > 10000 ∨
        (wordAt bytes 0 = st2.net.lastPackID ∧ st2.acceptLastPack = false) :=
      Or.inl (by omega)
    simp only [onFirstWord, if_neg hc, if_neg hq, if_neg hp, if_pos hgt]
  obtain ⟨m1, m2, m3, m4, -, -, -, -, -, -, -, m12⟩ := markReceived_net t st
  refine ⟨markReceived t st, ?_, m2, m3, m1, m4, m12⟩
  rw [processPacket_eq t bytes st hlen, hfw]

/-- Instance of C20 (amended): the one-word datagram `[20000]` on a fresh session. -/
theorem C20_first_word_above_10000_ignored_witness :
    ∃ st', processPacket 0 (SDLNet_Write32 20000) freshLoop = some st' ∧
      st'.net.lastPackID = freshLoop.net.lastPackID ∧
      st'.net.minPackRcvd = freshLoop.net.minPackRcvd ∧
      st'.net.missingPackList = freshLoop.net.missingPackList ∧
      st'.net.messageQueue = freshLoop.net.messageQueue ∧
      st'.net.events = freshLoop.net.events ++
        (if freshLoop.connected = false then [nc_event.reconnected] else []) :=
  C20_first_word_above_10000_ignored 0 (SDLNet_Write32 20000) freshLoop
    (by decide) (by decide) (by decide) (by decide) (by decide)

theorem wordLoop_succ_inv (check : Bool) (buf : List Nat) (n k i : Nat) (st st' : RecvLoop)
    (hi : i < n) (hrun : wordLoop check buf n (k + 1) i st = some st') :
    ∃ s1, wordStep check buf i st = some s1 ∧ wordLoop check buf n k (i + 1) s1 = some st' := by
  rw [wordLoop_succ check buf n k i st hi] at hrun
  cases hstp : wordStep check buf i st with
  | none => rw [hstp] at hrun; exact absurd hrun (by simp)
  | some s1 => rw [hstp] at hrun; exact ⟨s1, rfl, hrun⟩

theorem onCheckWord_hash_fields (i u : Nat) (st st1 : RecvLoop) (hi : i ≠ 2)
    (hs : onCheckWord i u st = some st1) :
    st1.hashFail = st.hashFail ∧ st1.net.inSync = st.net.inSync ∧
    st1.net.hash = st.net.hash ∧ st1.net.pauseTime = st.net.pauseTime := by
  unfold onCheckWord at hs
  rw [if_neg hi] at hs
  split_ifs at hs <;> (injection hs with hs; subst hs; exact ⟨rfl, rfl, rfl, rfl⟩)

theorem onCheckWord_hash (u : Nat) (st st1 : RecvLoop) (hpause : st.net.pauseTime = 0)
    (hs : onCheckWord 2 u st = some st1) :
    st1.net.hash = st.net.hash ∧ st1.net.pauseTime = 0 ∧
    (u ∈ st.net.hash.take HASH_NUM → st1.hashFail = 0 ∧ st1.net.inSync = true) ∧
    (u ∉ st.net.hash.take HASH_NUM →
      st1.hashFail = st.hashFail + 1 ∧
      st1.net.inSync = (if st.hashFail + 1 > 3 then false else st.net.inSync)) := by
  have hH : 0 < HASH_NUM ∧ st.net.pauseTime = 0 := ⟨by decide, hpause⟩
  unfold onCheckWord at hs
  rw [if_neg (by decide), if_pos rfl, if_pos hH] at hs
  by_cases hin : u ∈ st.net.hash.take HASH_NUM
  · rw [if_pos hin] at hs
    injection hs with hs; subst hs
    exact ⟨rfl, hpause, fun _ => ⟨rfl, rfl⟩, fun h => absurd hin h⟩
  · rw [if_neg hin] at hs
    by_cases hgt : st.hashFail + 1 > 3
    · rw [if_pos hgt] at hs
      injection hs with hs; subst hs
      exact ⟨rfl, hpause, fun h => absurd h hin, fun _ => ⟨rfl, by rw [if_pos hgt]⟩⟩
    · rw [if_neg hgt] at hs
      injection hs with hs; subst hs
      exact ⟨rfl, hpause, fun h => absurd h hin, fun _ => ⟨rfl, by rw [if_neg hgt]⟩⟩

theorem beacon_tail_hash_fields (buf : List Nat) (n : Nat) (k i : Nat) (st st' : RecvLoop)
    (hi : 3 ≤ i) (hrun : wordLoop true buf n k i st = some st') :
    st'.hashFail = st.hashFail ∧ st'.net.inSync = st.net.inSync ∧
    st'.net.hash = st.net.hash ∧ st'.net.pauseTime = st.net.pauseTime :=
  wordLoop_preserves_from
    (fun s => s.hashFail = st.hashFail ∧ s.net.inSync = st.net.inSync ∧
      s.net.hash = st.net.hash ∧ s.net.pauseTime = st.net.pauseTime) true buf n 3
    (fun j s s1 hj _ hs hstp => by
      rw [wordStep_check] at hstp
      obtain ⟨f1, f2, f3, f4⟩ := onCheckWord_hash_fields j (wordAt buf j) s s1 (by omega) hstp
      exact ⟨f1.trans hs.1, f2.trans hs.2.1, f3.trans hs.2.2.1, f4.trans hs.2.2.2⟩)
    k i st st' hi ⟨rfl, rfl, rfl, rfl⟩ hrun

theorem markReceived_hash (t : Nat) (st : RecvLoop) :
    (markReceived t st).net.hash = st.net.hash ∧
    (markReceived t st).net.pauseTime = st.net.pauseTime ∧
    (markReceived t st).hashFail = st.hashFail ∧
    (markReceived t st).net.inSync = st.net.inSync := by
  obtain ⟨-, -, -, -, -, -, -, -, m9, m10, m11, -⟩ := markReceived_net t st
  exact ⟨m9, m10, (markReceived_locals t st).2.2, m11⟩

theorem beacon_hash_step (t : Nat) (bytes : List Nat) (h : Nat) (st st' : RecvLoop)
    (hb : IsHashBeacon bytes h) (hpause : st.net.pauseTime = 0)
    (hrun : processPacket t bytes st = some st') :
    st'.net.hash = st.net.hash ∧ st'.net.pauseTime = 0 ∧
    (h ∈ st.net.hash.take HASH_NUM → st'.hashFail = 0 ∧ st'.net.inSync = true) ∧
    (h ∉ st.net.hash.take HASH_NUM →
      st'.hashFail = st.hashFail + 1 ∧
      st'.net.inSync = (if st.hashFail + 1 > 3 then false else st.net.inSync)) := by
  obtain ⟨hlen, hw, hh⟩ := hb
  have hbuf : 12 ≤ (bytes.take 512).length := by
    rw [List.length_take]; omega
  have hn : ∃ m, (bytes.take 512).length / 4 = m + 3 := by
    have : 3 ≤ (bytes.take 512).length / 4 := by omega
    exact ⟨(bytes.take 512).length / 4 - 3, by omega⟩
  obtain ⟨m, hm⟩ := hn
  have hw2 : wordAt (bytes.take 512) 2 = h := (wordAt_take bytes 2 (by decide)).trans hh
  obtain ⟨e1, e2, e3, e4⟩ := markReceived_hash t st
  rw [processPacket_eq t bytes st (by omega), hw, onFirstWord_check] at hrun
  simp only [hm] at hrun
  rw [show m + 3 = (m + 1 + 1) + 1 from rfl] at hrun
  obtain ⟨s1, hs1, hrun1⟩ := wordLoop_succ_inv true _ _ _ _ _ _ (by omega) hrun
  obtain ⟨s2, hs2, hrun2⟩ := wordLoop_succ_inv true _ _ _ _ _ _ (by omega) hrun1
  rw [wordStep_check] at hs1 hs2
  rw [hw2] at hs2
  obtain ⟨a1, a2, a3, a4⟩ := onCheckWord_hash_fields 1 _ _ s1 (by decide) hs1
  obtain ⟨b1, b2, b3, b4⟩ := onCheckWord_hash h s1 s2 (by rw [a4, e2]; exact hpause) hs2
  obtain ⟨f1, f2, f3, f4⟩ := beacon_tail_hash_fields _ _ _ _ s2 st' (Nat.le_refl _) hrun2
  refine ⟨by rw [f3, b1, a3, e1], by rw [f4, b2], ?_, ?_⟩
  · intro hin
    obtain ⟨g1, g2⟩ := b3 (by rw [a3, e1]; exact hin)
    exact ⟨by rw [f1, g1], by rw [f2, g2]⟩
  · intro hnot
    obtain ⟨g1, g2⟩ := b4 (by rw [a3, e1]; exact hnot)
    exact ⟨by rw [f1, g1, a1, e3], by rw [f2, g2, a1, a2, e3, e4]⟩

theorem failing_beacons_run :
    ∀ (ds : List (Nat × List Nat)) (st st' : RecvLoop) (a : Nat) (hs : List Nat),
      st.net.hash = hs → st.net.pauseTime = 0 → st.hashFail = (a : Int) →
      (st.net.inSync = true ↔ a ≤ 3) →
      (∀ x ∈ ds, ∃ h, IsHashBeacon x.2 h ∧ h ∉ hs.take HASH_NUM) →
      processAll st ds = some st' →
      st'.net.hash = hs ∧ st'.net.pauseTime = 0 ∧
      st'.hashFail = ((a + ds.length : Nat) : Int) ∧
      (st'.net.inSync = true ↔ a + ds.length ≤ 3) := by
  intro ds
  induction ds with
  | nil =>
    intro st st' a hs e1 e2 e3 e4 _ hrun
    simp only [processAll, Option.some.injEq] at hrun
    subst hrun
    exact ⟨e1, e2, by simpa using e3, by simpa using e4⟩
  | cons d ds ih =>
    intro st st' a hs e1 e2 e3 e4 hds hrun
    obtain ⟨st1, hp, hrest⟩ := processAll_cons_inv st st' d ds hrun
    obtain ⟨h, hb, hnot⟩ := hds d (List.mem_cons_self _ _)
    obtain ⟨g1, g2, -, g4⟩ := beacon_hash_step d.1 d.2 h st st1 hb e2 hp
    obtain ⟨g5, g6⟩ := g4 (by rw [e1]; exact hnot)
    have step := ih st1 st' (a + 1) hs (g1.trans e1) g2
      (by rw [g5, e3]; push_cast; ring)
      (by
        rw [g6, e3]
        by_cases hgt : (a : Int) + 1 > 3
        · simp only [if_pos hgt]
          constructor
          · intro hf; exact absurd hf (by simp)
          · intro hle; omega
        · simp only [if_neg hgt]
          rw [e4]
          constructor
          · intro _; omega
          · intro _; omega)
      (fun x hx => hds x (List.mem_cons_of_mem _ hx)) hrest
    simp only [List.length_cons]
    obtain ⟨r1, r2, r3, r4⟩ := step
    refine ⟨r1, r2, ?_, ?_⟩
    · rw [r3]; congr 1; omega
    · rw [r4]; omega

/-- C16: desync detection threshold.  Start the receive loop with `pauseTime = 0`,
`inSync = true` and a failure count of `0`, and let it process `n` beacons whose
state hash equals none of the `HASH_NUM` entries of the hash ring, none of which
makes the loop erase a stored packet.  Then the loop reaches a state in which the
failure count is `n` and `inSync` is true exactly when `n ≤ 3`.  One more such
beacon, whose hash equals an entry of the ring, gives a state with `inSync = true`
and the failure count `0`. -/
theorem C16_desync_threshold (st : RecvLoop) (ds : List (Nat × List Nat))
    (d : Nat × List Nat)
    (hpause : st.net.pauseTime = 0) (hsync : st.net.inSync = true) (hfail : st.hashFail = 0)
    (hds : ∀ x ∈ ds, ∃ h, IsHashBeacon x.2 h ∧ h ∉ st.net.hash.take HASH_NUM)
    (hd : ∃ h, IsHashBeacon d.2 h ∧ h ∈ st.net.hash.take HASH_NUM)
    (hne : ∀ x ∈ ds ++ [d], NoErase st.net.sentPackets x.2) :
    ∃ sA sB, processAll st ds = some sA ∧ processPacket d.1 d.2 sA = some sB ∧
      sA.hashFail = (ds.length : Int) ∧
      (sA.net.inSync = true ↔ ds.length ≤ 3) ∧
      sB.net.inSync = true ∧ sB.hashFail = 0 := by
  obtain ⟨sA, hA⟩ := processAll_defined ds st (fun x hx => hne x (List.mem_append_left _ hx))
  obtain ⟨fA, -, -⟩ := processAll_stored ds st sA hA
  obtain ⟨sB, hB⟩ := processPacket_defined d.1 d.2 sA
    (by rw [fA]; exact hne d (List.mem_append_right _ (List.mem_singleton.mpr rfl)))
  obtain ⟨r1, r2, r3, r4⟩ := failing_beacons_run ds st sA 0 st.net.hash rfl hpause
    (by simpa using hfail) (by simp [hsync]) hds hA
  obtain ⟨h, hb, hin⟩ := hd
  obtain ⟨-, -, g3, -⟩ := beacon_hash_step d.1 d.2 h sA sB hb r2 hB
  obtain ⟨g5, g6⟩ := g3 (by rw [r1]; exact hin)
  exact ⟨sA, sB, hA, hB, by simpa using r3, by simpa using r4, g6, g5⟩

/-- Instance of C16 on a fresh session whose hash ring holds zeros: four beacons
carrying the hash `9` switch `inSync` off, a beacon carrying `0` switches it on. -/
theorem C16_desync_threshold_witness :
    ∃ sA sB, processAll freshLoop desyncTrace = some sA ∧
      processPacket 0
        (SDLNet_Write32 message_type_check ++ SDLNet_Write32 0 ++ SDLNet_Write32 0) sA =
        some sB ∧
      sA.hashFail = (desyncTrace.length : Int) ∧
      (sA.net.inSync = true ↔ desyncTrace.length ≤ 3) ∧
      sB.net.inSync = true ∧ sB.hashFail = 0 :=
  C16_desync_threshold freshLoop desyncTrace
    (0, SDLNet_Write32 message_type_check ++ SDLNet_Write32 0 ++ SDLNet_Write32 0)
    rfl rfl rfl
    (fun x hx => by
      have hx1 : x = (0, SDLNet_Write32 message_type_check ++ SDLNet_Write32 0 ++
          SDLNet_Write32 9) := by
        simpa [desyncTrace] using hx
      subst hx1
      exact ⟨9, ⟨by decide, by decide, by decide⟩, by decide⟩)
    ⟨0, ⟨by decide, by decide, by decide⟩, by decide⟩
    (fun x _ _ _ pd hpd => absurd hpd (List.not_mem_nil pd))
/-! ## Pruning of `sentPackets` -/

/-- C17: stored packets are not pruned by a beacon.  The session `twoSent` holds the
packets with sequence numbers 2 and 1 and has `sendCount = 2`.  The beacon `ackBeacon`
reports `min_pack_rcvd = 2` and names no missing id: after it both packets are still
stored, although their sequence numbers are not above 2.  The same beacon followed by
the missing id 9 makes the loop erase the packet 1 from the list it is iterating
over and increment the erased iterator: the step is undefined. -/
theorem C17_stored_packets_not_pruned :
    twoSent.net.sentPackets = [[0, 0, 0, 2], [0, 0, 0, 1]] ∧ twoSent.net.sendCount = 2 ∧
    wordAt ackBeacon 3 = 2 ∧ ackBeacon.length = 20 ∧
    (processPacket 0 ackBeacon twoSent).map (fun s => (s.minPackRvd, s.net.sentPackets)) =
      some (2, [[0, 0, 0, 2], [0, 0, 0, 1]]) ∧
    processPacket 0 (ackBeacon ++ SDLNet_Write32 9) twoSent = none :=
  ⟨rfl, rfl, rfl, rfl, rfl, rfl⟩

/-! ## Duplicate payloads -/

theorem onFirstWord_keeps (len p q : Nat) (st : RecvLoop) (hb : MissingBelow st) :
    MissingBelow (onFirstWord len p st).1 ∧
    (SeqDone st q → SeqDone (onFirstWord len p st).1 q) := by
  by_cases h : p = message_type_check ∨ p = message_type_quit ∨ p = message_type_ping ∨
      (p > 10000 ∨ (p = st.net.lastPackID ∧ st.acceptLastPack = false))
  · obtain ⟨e1, e2, e3, -⟩ := onFirstWord_other len p st h
    simp only [MissingBelow, SeqDone, e1, e2, e3]
    exact ⟨hb, id⟩
  · have h1 : p ≠ message_type_check := fun e => h (Or.inl e)
    have h2 : p ≠ message_type_quit := fun e => h (Or.inr (Or.inl e))
    have h3 : p ≠ message_type_ping := fun e => h (Or.inr (Or.inr (Or.inl e)))
    have hA : ¬ (p > 10000 ∨ (p = st.net.lastPackID ∧ st.acceptLastPack = false)) :=
      fun e => h (Or.inr (Or.inr (Or.inr e)))
    by_cases hB : p ≤ st.net.lastPackID
    · rw [onFirstWord_low len p st h1 h2 h3 hA hB]
      refine ⟨fun x hx => hb x (List.mem_filter.mp hx).1, ?_⟩
      rintro ⟨d1, d2, d3⟩
      refine ⟨d1, fun hmem => d2 (List.mem_filter.mp hmem).1, ?_⟩
      intro hq
      show (if p = st.net.lastPackID then false else st.acceptLastPack) = false
      by_cases hl : p = st.net.lastPackID
      · rw [if_pos hl]
      · rw [if_neg hl]; exact d3 hq
    · rw [onFirstWord_high len p st h1 h2 h3 hA hB]
      have hgt : st.net.lastPackID < p := Nat.lt_of_not_le hB
      have hmem : ∀ x, x ∈ (if p > st.net.lastPackID + 1 then
            pushFrontRange (st.net.lastPackID + 1) p st.net.missingPackList
          else st.net.missingPackList) →
          (st.net.lastPackID + 1 ≤ x ∧ x < p) ∨ x ∈ st.net.missingPackList := by
        intro x hx
        by_cases hg : p > st.net.lastPackID + 1
        · rw [if_pos hg] at hx; exact (mem_pushFrontRange _ _ _ _).mp hx
        · rw [if_neg hg] at hx; exact Or.inr hx
      refine ⟨?_, ?_⟩
      · intro x hx
        show x ≤ p
        rcases hmem x hx with ⟨-, hlt⟩ | hin
        · omega
        · have := hb x hin; omega
      · rintro ⟨d1, d2, d3⟩
        refine ⟨?_, ?_, fun _ => rfl⟩
        · show q ≤ p
          omega
        · intro hin
          rcases hmem q hin with ⟨hlo, -⟩ | hin'
          · omega
          · exact d2 hin'

theorem onFirstWord_accept (len q : Nat) (st : RecvLoop) (hq : q < 10000)
    (hb : MissingBelow st) (hacc : (onFirstWord len q st).2 ≠ none) :
    SeqDone (onFirstWord len q st).1 q := by
  have h1 : q ≠ message_type_check := by
    intro h; rw [h] at hq; exact absurd hq (by decide)
  have h2 : q ≠ message_type_quit := by
    intro h; rw [h] at hq; exact absurd hq (by decide)
  have h3 : q ≠ message_type_ping := by
    intro h; rw [h] at hq; exact absurd hq (by decide)
  by_cases hA : q > 10000 ∨ (q = st.net.lastPackID ∧ st.acceptLastPack = false)
  · exfalso
    apply hacc
    unfold onFirstWord
    simp only [if_neg h1, if_neg h2, if_neg h3, if_pos hA]
  by_cases hB : q ≤ st.net.lastPackID
  · rw [onFirstWord_low len q st h1 h2 h3 hA hB]
    refine ⟨hB, ?_, ?_⟩
    · intro hin
      have := (List.mem_filter.mp hin).2
      simp at this
    · intro hl
      show (if q = st.net.lastPackID then false else st.acceptLastPack) = false
      rw [if_pos hl]
  · rw [onFirstWord_high len q st h1 h2 h3 hA hB]
    refine ⟨Nat.le_refl _, ?_, fun _ => rfl⟩
    intro hin
    have hin' : q ∈ (if q > st.net.lastPackID + 1 then
          pushFrontRange (st.net.lastPackID + 1) q st.net.missingPackList
        else st.net.missingPackList) := hin
    by_cases hg : q > st.net.lastPackID + 1
    · rw [if_pos hg] at hin'
      rcases (mem_pushFrontRange _ _ _ _).mp hin' with ⟨-, hlt⟩ | hin2
      · omega
      · have := hb q hin2; omega
    · rw [if_neg hg] at hin'
      have := hb q hin'; omega

theorem onFirstWord_drop (len q : Nat) (st : RecvLoop) (hq : q < 10000)
    (hd : SeqDone st q) : (onFirstWord len q st).2 = none := by
  obtain ⟨d1, d2, d3⟩ := hd
  have h1 : q ≠ message_type_check := by
    intro h; rw [h] at hq; exact absurd hq (by decide)
  have h2 : q ≠ message_type_quit := by
    intro h; rw [h] at hq; exact absurd hq (by decide)
  have h3 : q ≠ message_type_ping := by
    intro h; rw [h] at hq; exact absurd hq (by decide)
  by_cases hA : q > 10000 ∨ (q = st.net.lastPackID ∧ st.acceptLastPack = false)
  · unfold onFirstWord
    simp only [if_neg h1, if_neg h2, if_neg h3, if_pos hA]
  · rw [onFirstWord_low len q st h1 h2 h3 hA d1]
    have hf : st.net.missingPackList.filter (fun x => x ≠ q) = st.net.missingPackList := by
      apply List.filter_eq_self.mpr
      intro x hx
      have : x ≠ q := fun e => d2 (e ▸ hx)
      simpa using this
    simp only [hf, if_true]

theorem onCheckWord_keeps (i u q : Nat) (st st1 : RecvLoop) (hb : MissingBelow st)
    (hs : onCheckWord i u st = some st1) :
    MissingBelow st1 ∧ (SeqDone st q → SeqDone st1 q) := by
  unfold onCheckWord at hs
  by_cases h1 : i = 1
  · rw [if_pos h1] at hs
    injection hs with hs; subst hs; exact ⟨hb, id⟩
  rw [if_neg h1] at hs
  by_cases h2 : i = 2
  · rw [if_pos h2] at hs
    split_ifs at hs <;> (injection hs with hs; subst hs; exact ⟨hb, id⟩)
  rw [if_neg h2] at hs
  by_cases h3 : i = 3
  · rw [if_pos h3] at hs
    injection hs with hs; subst hs; exact ⟨hb, id⟩
  rw [if_neg h3] at hs
  by_cases h4 : i = 4
  · rw [if_pos h4] at hs
    by_cases hgt : u > st.net.lastPackID
    · rw [if_pos hgt] at hs
      injection hs with hs; subst hs
      have hle : (u + 1) % 2 ^ 32 ≤ u + 1 := Nat.mod_le _ _
      refine ⟨?_, ?_⟩
      · intro x hx
        show x ≤ u
        rcases (mem_pushFrontRange _ _ _ _).mp hx with ⟨-, hlt⟩ | hin
        · omega
        · have := hb x hin; omega
      · rintro ⟨d1, d2, d3⟩
        refine ⟨?_, ?_, ?_⟩
        · show q ≤ u
          omega
        · intro hin
          rcases (mem_pushFrontRange _ _ _ _).mp hin with ⟨hlo, -⟩ | hin'
          · omega
          · exact d2 hin'
        · intro hq
          have hq' : q = u := hq
          omega
    · rw [if_neg hgt] at hs
      injection hs with hs; subst hs; exact ⟨hb, id⟩
  rw [if_neg h4] at hs
  split_ifs at hs
  injection hs with hs; subst hs; exact ⟨hb, id⟩

theorem onCheckWord_queue (i u : Nat) (st st1 : RecvLoop)
    (hs : onCheckWord i u st = some st1) :
    st1.net.messageQueue = st.net.messageQueue := by
  unfold onCheckWord at hs
  split_ifs at hs <;> (injection hs with hs; subst hs; rfl)

theorem wordStep_keeps (check : Bool) (buf : List Nat) (i q : Nat) (st st1 : RecvLoop)
    (hb : MissingBelow st) (hs : wordStep check buf i st = some st1) :
    MissingBelow st1 ∧ (SeqDone st q → SeqDone st1 q) := by
  cases check with
  | true =>
    rw [wordStep_check] at hs
    exact onCheckWord_keeps i (wordAt buf i) q st st1 hb hs
  | false =>
    rw [wordStep_data, Option.some.injEq] at hs
    obtain ⟨f1, f2, f3⟩ := onDataWord_fields (wordAt buf i) st
    rw [← hs]
    simp only [MissingBelow, SeqDone, f1, f2, f3]
    exact ⟨hb, id⟩

theorem wordLoop_keeps (check : Bool) (buf : List Nat) (n q : Nat) (k i : Nat)
    (st st' : RecvLoop) (hb : MissingBelow st)
    (hrun : wordLoop check buf n k i st = some st') :
    MissingBelow st' ∧ (SeqDone st q → SeqDone st' q) := by
  refine ⟨?_, ?_⟩
  · exact wordLoop_preserves MissingBelow check buf n
      (fun j s s1 _ hs hstp => (wordStep_keeps check buf j q s s1 hs hstp).1) k i st st' hb hrun
  · intro hd
    exact (wordLoop_preserves (fun s => MissingBelow s ∧ SeqDone s q) check buf n
      (fun j s s1 _ hs hstp =>
        ⟨(wordStep_keeps check buf j q s s1 hs.1 hstp).1,
          (wordStep_keeps check buf j q s s1 hs.1 hstp).2 hs.2⟩) k i st st' ⟨hb, hd⟩ hrun).2

theorem MissingBelow_congr {st st2 : RecvLoop}
    (e1 : st2.net.missingPackList = st.net.missingPackList)
    (e2 : st2.net.lastPackID = st.net.lastPackID) (h : MissingBelow st) : MissingBelow st2 := by
  intro x hx
  rw [e1] at hx; rw [e2]; exact h x hx

theorem SeqDone_congr {st st2 : RecvLoop} {q : Nat}
    (e1 : st2.net.missingPackList = st.net.missingPackList)
    (e2 : st2.net.lastPackID = st.net.lastPackID)
    (e3 : st2.acceptLastPack = st.acceptLastPack) (h : SeqDone st q) : SeqDone st2 q := by
  unfold SeqDone at h ⊢
  rw [e1, e2, e3]; exact h

theorem processPacket_keeps (t : Nat) (bytes : List Nat) (q : Nat) (st st' : RecvLoop)
    (hb : MissingBelow st) (hrun : processPacket t bytes st = some st') :
    MissingBelow st' ∧ (SeqDone st q → SeqDone st' q) := by
  obtain ⟨e1, e2, -⟩ := markReceived_net t st
  obtain ⟨e3, -⟩ := markReceived_locals t st
  have hb2 : MissingBelow (markReceived t st) := MissingBelow_congr e1 e2 hb
  by_cases hlen : 4 ≤ bytes.length
  · rw [processPacket_eq t bytes st hlen] at hrun
    obtain ⟨k1, k2⟩ :=
      onFirstWord_keeps (bytes.take 512).length (wordAt bytes 0) q (markReceived t st) hb2
    cases hres : onFirstWord (bytes.take 512).length (wordAt bytes 0) (markReceived t st) with
    | mk st3 r =>
      rw [hres] at k1 k2 hrun
      cases r with
      | none =>
        simp only [Option.some.injEq] at hrun
        rw [← hrun]
        exact ⟨k1, fun hd => k2 (SeqDone_congr e1 e2 e3 hd)⟩
      | some ci =>
        obtain ⟨c, i⟩ := ci
        simp only at hrun
        obtain ⟨w1, w2⟩ := wordLoop_keeps c (bytes.take 512) ((bytes.take 512).length / 4) q
          ((bytes.take 512).length / 4) (i + 1) st3 st' k1 hrun
        exact ⟨w1, fun hd => w2 (k2 (SeqDone_congr e1 e2 e3 hd))⟩
  · rw [processPacket_short t bytes st hlen, Option.some.injEq] at hrun
    rw [← hrun]
    exact ⟨hb2, fun hd => SeqDone_congr e1 e2 e3 hd⟩

theorem processPacket_accept (t : Nat) (bytes : List Nat) (q : Nat) (st st' : RecvLoop)
    (hb : MissingBelow st) (hp : IsPayload bytes q) (hacc : Accepts st bytes)
    (hrun : processPacket t bytes st = some st') :
    SeqDone st' q := by
  obtain ⟨hlen, hw, hq⟩ := hp
  obtain ⟨e1, e2, -⟩ := markReceived_net t st
  obtain ⟨e3, -⟩ := markReceived_locals t st
  have hb2 : MissingBelow (markReceived t st) := MissingBelow_congr e1 e2 hb
  have hacc2 : (onFirstWord (bytes.take 512).length q (markReceived t st)).2 ≠ none := by
    rw [onFirstWord_snd_congr _ _ st (markReceived t st) e1 e2 e3, ← hw]; exact hacc.2
  have hdone := onFirstWord_accept (bytes.take 512).length q (markReceived t st) hq hb2 hacc2
  have hkeep := (onFirstWord_keeps (bytes.take 512).length q q (markReceived t st) hb2).1
  rw [processPacket_eq t bytes st hlen, hw] at hrun
  cases hres : onFirstWord (bytes.take 512).length q (markReceived t st) with
  | mk st3 r =>
    rw [hres] at hdone hkeep hrun
    cases r with
    | none =>
      simp only [Option.some.injEq] at hrun
      rw [← hrun]; exact hdone
    | some ci =>
      obtain ⟨c, i⟩ := ci
      simp only at hrun
      exact (wordLoop_keeps c (bytes.take 512) ((bytes.take 512).length / 4) q
        ((bytes.take 512).length / 4) (i + 1) st3 st' hkeep hrun).2 hdone

theorem processPacket_dropped (t : Nat) (bytes : List Nat) (st st' : RecvLoop)
    (hlen : 4 ≤ bytes.length)
    (hnone : (onFirstWord (bytes.take 512).length (wordAt bytes 0) st).2 = none)
    (hrun : processPacket t bytes st = some st') :
    st'.net.messageQueue = st.net.messageQueue := by
  obtain ⟨e1, e2, -, e4, -⟩ := markReceived_net t st
  obtain ⟨e3, -⟩ := markReceived_locals t st
  have hnone2 :
      (onFirstWord (bytes.take 512).length (wordAt bytes 0) (markReceived t st)).2 = none := by
    rw [onFirstWord_snd_congr _ _ st (markReceived t st) e1 e2 e3]; exact hnone
  have hqueue := onFirstWord_queue (bytes.take 512).length (wordAt bytes 0) (markReceived t st)
  rw [processPacket_eq t bytes st hlen] at hrun
  cases hres : onFirstWord (bytes.take 512).length (wordAt bytes 0) (markReceived t st) with
  | mk st3 r =>
    rw [hres] at hnone2 hqueue hrun
    simp only at hnone2
    subst hnone2
    simp only [Option.some.injEq] at hrun
    rw [← hrun]
    exact hqueue.trans e4

theorem processPacket_drop (t : Nat) (bytes : List Nat) (q : Nat) (st st' : RecvLoop)
    (hp : IsPayload bytes q) (hd : SeqDone st q)
    (hrun : processPacket t bytes st = some st') :
    ¬ Accepts st bytes ∧ st'.net.messageQueue = st.net.messageQueue := by
  obtain ⟨hlen, hw, hq⟩ := hp
  have hnone := onFirstWord_drop (bytes.take 512).length q st hq hd
  exact ⟨fun hacc => hacc.2 (by rw [hw]; exact hnone),
    processPacket_dropped t bytes st st' hlen (by rw [hw]; exact hnone) hrun⟩

theorem processPacket_changed (t : Nat) (bytes : List Nat) (st st' : RecvLoop)
    (hrun : processPacket t bytes st = some st')
    (hch : st'.net.messageQueue ≠ st.net.messageQueue) :
    Accepts st bytes := by
  by_cases hlen : 4 ≤ bytes.length
  · refine ⟨hlen, ?_⟩
    intro hnone
    exact hch (processPacket_dropped t bytes st st' hlen hnone hrun)
  · rw [processPacket_short t bytes st hlen, Option.some.injEq] at hrun
    exact absurd (by rw [← hrun]; exact (markReceived_net t st).2.2.2.1) hch

theorem processAll_keeps (q : Nat) :
    ∀ (ds : List (Nat × List Nat)) (st st' : RecvLoop), MissingBelow st →
      processAll st ds = some st' →
      MissingBelow st' ∧ (SeqDone st q → SeqDone st' q) := by
  intro ds
  induction ds with
  | nil =>
    intro st st' hb hrun
    simp only [processAll, Option.some.injEq] at hrun
    rw [← hrun]; exact ⟨hb, id⟩
  | cons d ds ih =>
    intro st st' hb hrun
    obtain ⟨st1, hp, hrest⟩ := processAll_cons_inv st st' d ds hrun
    obtain ⟨k1, k2⟩ := processPacket_keeps d.1 d.2 q st st1 hb hp
    obtain ⟨r1, r2⟩ := ih st1 st' k1 hrest
    exact ⟨r1, fun hd => r2 (k2 hd)⟩

theorem NoErase_payload (stored : List (List Nat)) (bytes : List Nat) (q : Nat)
    (hp : IsPayload bytes q) : NoErase stored bytes := by
  intro hchk
  have h1 := hp.2.1
  have h2 := hp.2.2
  rw [hchk] at h1
  rw [← h1] at h2
  exact absurd h2 (by decide)

/-- C11: no duplicate delivery.  Let the receive loop start from a session whose
missing list is empty, as in a fresh session, and process any datagrams `pre`, then a
payload datagram `d1` with sequence number `q`, then any datagrams `mid`, then a
second payload datagram `d2` with the same sequence number, where no datagram of
`pre` and `mid` makes the loop erase a stored packet.  Then the loop reaches a state
after each of these steps.  If `d1` put words into the inbox then it was accepted;
and if `d1` was accepted then `d2` is dropped at its first word and leaves the inbox
as it is.  So the words of at most one datagram carrying `q` reach the inbox. -/
theorem C11_no_duplicate_delivery (st0 : RecvLoop) (pre mid : List (Nat × List Nat))
    (d1 d2 : Nat × List Nat) (q : Nat)
    (hmiss : st0.net.missingPackList = [])
    (h1 : IsPayload d1.2 q) (h2 : IsPayload d2.2 q)
    (hne : ∀ d ∈ pre ++ mid, NoErase st0.net.sentPackets d.2) :
    ∃ sA s1 sB sC, processAll st0 pre = some sA ∧ processPacket d1.1 d1.2 sA = some s1 ∧
      processAll st0 (pre ++ d1 :: mid) = some sB ∧ processPacket d2.1 d2.2 sB = some sC ∧
      (s1.net.messageQueue ≠ sA.net.messageQueue → Accepts sA d1.2) ∧
      (Accepts sA d1.2 →
        ¬ Accepts sB d2.2 ∧ sC.net.messageQueue = sB.net.messageQueue) := by
  have hb0 : MissingBelow st0 := by
    intro x hx; rw [hmiss] at hx; exact absurd hx (List.not_mem_nil x)
  obtain ⟨sA, hA⟩ := processAll_defined pre st0
    (fun d hd => hne d (List.mem_append_left _ hd))
  obtain ⟨fA, -, -⟩ := processAll_stored pre st0 sA hA
  obtain ⟨s1, hs1⟩ := processPacket_defined d1.1 d1.2 sA (NoErase_payload _ _ q h1)
  obtain ⟨f1, -, -⟩ := processPacket_stored d1.1 d1.2 sA s1 hs1
  obtain ⟨sB, hB⟩ := processAll_defined mid s1
    (fun d hd => by rw [f1, fA]; exact hne d (List.mem_append_right _ hd))
  obtain ⟨sC, hC⟩ := processPacket_defined d2.1 d2.2 sB (NoErase_payload _ _ q h2)
  have hAB : processAll st0 (pre ++ d1 :: mid) = some sB := by
    rw [processAll_append, hA]
    simp only
    rw [processAll_cons_some sA s1 d1 mid hs1]; exact hB
  have hbA : MissingBelow sA := (processAll_keeps q pre st0 sA hb0 hA).1
  refine ⟨sA, s1, sB, sC, hA, hs1, hAB, hC,
    processPacket_changed d1.1 d1.2 sA s1 hs1, ?_⟩
  intro hacc
  have hdone1 : SeqDone s1 q := processPacket_accept d1.1 d1.2 q sA s1 hbA h1 hacc hs1
  have hb1 : MissingBelow s1 := (processPacket_keeps d1.1 d1.2 q sA s1 hbA hs1).1
  have hdoneB : SeqDone sB q := (processAll_keeps q mid s1 sB hb1 hB).2 hdone1
  exact processPacket_drop d2.1 d2.2 q sB sC h2 hdoneB hC

/-- Instance of C11 on a fresh session that has received the payloads 1, 2 and 4 and
then receives the payload with sequence number 3 twice: the first is accepted, the
second is dropped and leaves the inbox as it is. -/
theorem C11_no_duplicate_delivery_witness :
    ∃ sA s1 sB sC, processAll freshLoop lossTrace = some sA ∧
      processPacket 0 (SDLNet_Write32 3 ++ SDLNet_Write32 5) sA = some s1 ∧
      processAll freshLoop (lossTrace ++ (0, SDLNet_Write32 3 ++ SDLNet_Write32 5) :: []) =
        some sB ∧
      processPacket 7 (SDLNet_Write32 3 ++ SDLNet_Write32 5) sB = some sC ∧
      Accepts sA (SDLNet_Write32 3 ++ SDLNet_Write32 5) ∧
      ¬ Accepts sB (SDLNet_Write32 3 ++ SDLNet_Write32 5) ∧
      sC.net.messageQueue = sB.net.messageQueue := by
  obtain ⟨sA, s1, sB, sC, hA, h1, hB, hC, -, hacc⟩ :=
    C11_no_duplicate_delivery freshLoop lossTrace []
      (0, SDLNet_Write32 3 ++ SDLNet_Write32 5) (7, SDLNet_Write32 3 ++ SDLNet_Write32 5) 3
      rfl ⟨by decide, by decide, by decide⟩ ⟨by decide, by decide, by decide⟩
      (fun d _ _ _ pd hpd => absurd hpd (List.not_mem_nil pd))
  have e : sA = (processAll freshLoop lossTrace).getD freshLoop :=
    Option.some.inj (hA.symm.trans rfl)
  have acc : Accepts sA (SDLNet_Write32 3 ++ SDLNet_Write32 5) := by
    rw [e]; exact ⟨by decide, by decide⟩
  exact ⟨sA, s1, sB, sC, hA, h1, hB, hC, acc, (hacc acc).1, (hacc acc).2⟩

/-! ## The round trip of a payload datagram -/

theorem Read32_Write32 (w : Nat) (h : w < 2 ^ 32) : SDLNet_Read32 (SDLNet_Write32 w) = w := by
  simp only [SDLNet_Read32, SDLNet_Write32, List.getD_cons_zero, List.getD_cons_succ]
  norm_num at h ⊢
  omega

theorem Write32_length (w : Nat) : (SDLNet_Write32 w).length = 4 := rfl

theorem flatMap_Write32_length (ws : List Nat) :
    (ws.flatMap SDLNet_Write32).length = 4 * ws.length := by
  induction ws with
  | nil => rfl
  | cons w ws ih => simp only [List.flatMap_cons, List.length_append, ih, Write32_length,
      List.length_cons]; omega

theorem onDataWord_queue (u : Nat) (st : RecvLoop) :
    (onDataWord u st).net.messageQueue = st.net.messageQueue ++ [u] := by
  unfold onDataWord
  by_cases h : u = message_type_newGame
  · simp [h, NetworkConnection.pushEvent]
  · simp [h]

theorem wordLoop_data_queue :
    ∀ (ws : List Nat) (pre : List Nat) (i fuel n : Nat) (st : RecvLoop),
      (∀ w ∈ ws, w < 2 ^ 32) → pre.length = i * 4 → n = i + ws.length → ws.length ≤ fuel →
      ∃ st', wordLoop false (pre ++ ws.flatMap SDLNet_Write32) n fuel i st = some st' ∧
        st'.net.messageQueue = st.net.messageQueue ++ ws := by
  intro ws
  induction ws with
  | nil =>
    intro pre i fuel n st _ _ hn _
    have : ¬ i < n := by simp at hn; omega
    exact ⟨st, wordLoop_done _ _ _ _ _ _ this, by simp⟩
  | cons w ws ih =>
    intro pre i fuel n st hw hpre hn hfuel
    cases fuel with
    | zero => simp at hfuel
    | succ k =>
      have hlt : i < n := by simp at hn; omega
      have hword : wordAt (pre ++ (w :: ws).flatMap SDLNet_Write32) i = w := by
        unfold wordAt
        rw [← hpre, List.drop_left, List.flatMap_cons, List.take_left' (Write32_length w)]
        exact Read32_Write32 w (hw w (List.mem_cons_self _ _))
      have hbuf : pre ++ (w :: ws).flatMap SDLNet_Write32 =
          (pre ++ SDLNet_Write32 w) ++ ws.flatMap SDLNet_Write32 := by
        rw [List.flatMap_cons, List.append_assoc]
      rw [wordLoop_succ false _ n k i st hlt, wordStep_data]
      simp only
      rw [hword, hbuf]
      obtain ⟨st', h1, h2⟩ := ih (pre ++ SDLNet_Write32 w) (i + 1) k n (onDataWord w st)
        (fun x hx => hw x (List.mem_cons_of_mem _ hx))
        (by rw [List.length_append, hpre, Write32_length]; omega)
        (by simp at hn; omega) (by simp at hfuel; omega)
      refine ⟨st', h1, ?_⟩
      rw [h2, onDataWord_queue, List.append_assoc]; rfl

theorem pullMessages_queue :
    ∀ (ws : List Nat) (net : NetworkConnection), net.messageQueue = ws →
      pullMessages ws.length net = ws.map some := by
  intro ws
  induction ws with
  | nil => intro net _; rfl
  | cons w ws ih =>
    intro net h
    have h1 : (pullMessage net).1 = some w := by simp [pullMessage, h]
    have h2 : (pullMessage net).2.messageQueue = ws := by simp [pullMessage, h]
    simp only [List.length_cons, pullMessages, List.map_cons, h1, ih _ h2]

theorem addWords_spec :
    ∀ (ws : List Nat) (net : NetworkConnection) (body : List Nat),
      net.sendBuff.length = NET_MAX_PACKET_SIZE →
      net.sendSize + 4 * ws.length ≤ NET_MAX_PACKET_SIZE →
      net.sendBuff.take net.sendSize = body →
      (addWords ws net).sendSize = net.sendSize + 4 * ws.length ∧
      (addWords ws net).sendBuff.length = NET_MAX_PACKET_SIZE ∧
      (addWords ws net).sendBuff.take (addWords ws net).sendSize =
        body ++ ws.flatMap SDLNet_Write32 ∧
      (addWords ws net).packet = net.packet ∧
      (addWords ws net).sentPackets = net.sentPackets ∧
      (addWords ws net).sendCount = net.sendCount := by
  intro ws
  induction ws with
  | nil =>
    intro net body hlen _ hbody
    simp [addWords, hlen, hbody]
  | cons w ws ih =>
    intro net body hlen hroom hbody
    simp only [NET_MAX_PACKET_SIZE, List.length_cons] at hlen hroom
    have hfull : ¬ net.sendSize ≥ NET_MAX_PACKET_SIZE := by
      simp only [NET_MAX_PACKET_SIZE]; omega
    have hsize : (addToSendBuf w net).sendSize = net.sendSize + 4 := by
      unfold addToSendBuf; rw [if_neg hfull]
    have hbuf : (addToSendBuf w net).sendBuff =
        net.sendBuff.take net.sendSize ++ SDLNet_Write32 w ++
          net.sendBuff.drop (net.sendSize + 4) := by
      unfold addToSendBuf; rw [if_neg hfull]; rfl
    have htl : (net.sendBuff.take net.sendSize).length = net.sendSize := by
      rw [List.length_take]; omega
    have hlen1 : (addToSendBuf w net).sendBuff.length = NET_MAX_PACKET_SIZE := by
      rw [hbuf]
      simp only [List.length_append, htl, Write32_length, List.length_drop,
        NET_MAX_PACKET_SIZE]
      omega
    have htake : (addToSendBuf w net).sendBuff.take (addToSendBuf w net).sendSize =
        body ++ SDLNet_Write32 w := by
      rw [hbuf, hsize, hbody]
      apply List.take_left'
      rw [List.length_append, ← hbody, htl, Write32_length]
    have hp : (addToSendBuf w net).packet = net.packet := by
      unfold addToSendBuf; rw [if_neg hfull]
    have hsp : (addToSendBuf w net).sentPackets = net.sentPackets := by
      unfold addToSendBuf; rw [if_neg hfull]
    have hsc : (addToSendBuf w net).sendCount = net.sendCount := by
      unfold addToSendBuf; rw [if_neg hfull]
    obtain ⟨r1, r2, r3, r4, r5, r6⟩ := ih (addToSendBuf w net) (body ++ SDLNet_Write32 w) hlen1
      (by rw [hsize]; simp only [NET_MAX_PACKET_SIZE]; omega) htake
    have hstep : addWords (w :: ws) net = addWords ws (addToSendBuf w net) := rfl
    rw [hstep]
    refine ⟨by rw [r1, hsize, List.length_cons]; omega, r2, ?_, r4.trans hp, r5.trans hsp,
      r6.trans hsc⟩
    rw [r3, List.flatMap_cons, List.append_assoc]

theorem sendUdpPacket_spec (net : NetworkConnection) (p : UDPpacket)
    (hp : net.packet = some p) (hmax : net.sendSize ≤ p.data.length) :
    (sendUdpPacket net).packet =
      some ⟨memcpy p.data (net.sendBuff.take net.sendSize), net.sendSize, net.target⟩ ∧
    (sendUdpPacket net).sentPackets = net.sendBuff.take net.sendSize :: net.sentPackets ∧
    (sendUdpPacket net).sendCount = (net.sendCount + 1) % 2 ^ 32 ∧
    (sendUdpPacket net).sendBuff = memcpy net.sendBuff
      (SDLNet_Write32 (((net.sendCount + 1) % 2 ^ 32 + 1) % 2 ^ 32)) ∧
    (sendUdpPacket net).sendSize = 4 := by
  unfold sendUdpPacket
  rw [hp]
  simp only
  rw [if_neg (by omega)]
  exact ⟨rfl, rfl, rfl, rfl, rfl⟩

theorem payloadBytes_length (s : Nat) (ws : List Nat) :
    (payloadBytes s ws).length = 4 + 4 * ws.length := by
  unfold payloadBytes
  rw [List.length_append, Write32_length, flatMap_Write32_length]

theorem built_datagram (net : NetworkConnection) (p : UDPpacket) (s : Nat) (ws : List Nat)
    (hbuf : net.sendBuff.length = NET_MAX_PACKET_SIZE) (hsize : net.sendSize = 4)
    (hhead : net.sendBuff.take 4 = SDLNet_Write32 s)
    (hp : net.packet = some p) (hmax : NET_MAX_PACKET_SIZE ≤ p.data.length)
    (hk : ws.length ≤ 127) :
    (∃ q, (sendUdpPacket (addWords ws net)).packet = some q ∧
      q.wire.data = payloadBytes s ws) ∧
    (sendUdpPacket (addWords ws net)).sentPackets.head? = some (payloadBytes s ws) := by
  obtain ⟨r1, r2, r3, r4, -, -⟩ := addWords_spec ws net (SDLNet_Write32 s) hbuf
    (by rw [hsize]; simp only [NET_MAX_PACKET_SIZE]; omega) (by rw [hsize]; exact hhead)
  have hsz : (addWords ws net).sendSize ≤ p.data.length := by
    rw [r1, hsize]; simp only [NET_MAX_PACKET_SIZE] at hmax; omega
  obtain ⟨g1, g2, -, -, -⟩ := sendUdpPacket_spec (addWords ws net) p (r4.trans hp) hsz
  have hl : ((addWords ws net).sendBuff.take (addWords ws net).sendSize).length =
      (addWords ws net).sendSize := by
    rw [r3, r1, hsize]
    exact payloadBytes_length s ws
  refine ⟨⟨_, g1, ?_⟩, ?_⟩
  · show (memcpy p.data _).take (addWords ws net).sendSize = payloadBytes s ws
    unfold memcpy
    rw [List.take_left' hl, r3]; rfl
  · rw [g2, r3]; rfl

theorem received_payload (t s : Nat) (ws : List Nat) (st : RecvLoop)
    (hk : ws.length ≤ 127) (hws : ∀ w ∈ ws, w < 2 ^ 32)
    (hlast : st.net.lastPackID < s) (hs : s ≤ 10000) :
    ∃ st', processPacket t (payloadBytes s ws) st = some st' ∧
      st'.net.messageQueue = st.net.messageQueue ++ ws := by
  have hlen := payloadBytes_length s ws
  have htake : (payloadBytes s ws).take 512 = payloadBytes s ws :=
    List.take_of_length_le (by rw [hlen]; omega)
  have hw0 : wordAt (payloadBytes s ws) 0 = s := by
    unfold wordAt payloadBytes
    rw [Nat.zero_mul, List.drop_zero, List.take_left' (Write32_length s)]
    exact Read32_Write32 s (by norm_num; omega)
  obtain ⟨-, e2, -, e4, -⟩ := markReceived_net t st
  have hs1 : s ≠ message_type_check := by simp only [message_type_check]; omega
  have hs2 : s ≠ message_type_quit := by simp only [message_type_quit]; omega
  have hs3 : s ≠ message_type_ping := by simp only [message_type_ping]; omega
  rw [processPacket_eq t (payloadBytes s ws) st (by rw [hlen]; omega), hw0, htake,
    onFirstWord_high _ s (markReceived t st) hs1 hs2 hs3 (by rw [e2]; omega)
      (by rw [e2]; omega)]
  simp only
  have hdiv : (payloadBytes s ws).length / 4 = 1 + ws.length := by rw [hlen]; omega
  rw [hdiv]
  obtain ⟨st', h1, h2⟩ := wordLoop_data_queue ws (SDLNet_Write32 s) 1 (1 + ws.length)
    (1 + ws.length)
    { markReceived t st with
          lastTime := 0
          acceptLastPack := false
          net := { (markReceived t st).net with
            missingPackList :=
              (if s > (markReceived t st).net.lastPackID + 1 then
                pushFrontRange ((markReceived t st).net.lastPackID + 1) s
                  (markReceived t st).net.missingPackList
              else (markReceived t st).net.missingPackList)
            lastPackID := s
            minPackRcvd :=
              if (if s > (markReceived t st).net.lastPackID + 1 then
                    pushFrontRange ((markReceived t st).net.lastPackID + 1) s
                      (markReceived t st).net.missingPackList
                  else (markReceived t st).net.missingPackList).isEmpty then s
              else (markReceived t st).net.minPackRcvd } }
    hws rfl rfl (by omega)
  refine ⟨st', h1, ?_⟩
  rw [h2]
  simp only [e4]

theorem sends_state :
    ∀ n : Nat, n + 2 < 2 ^ 32 →
      (applyOps connectedSession (List.replicate n SendOp.send)).sendCount = n ∧
      (applyOps connectedSession (List.replicate n SendOp.send)).sendSize = 4 ∧
      (applyOps connectedSession (List.replicate n SendOp.send)).sendBuff.take 4 =
        SDLNet_Write32 (n + 1) ∧
      (applyOps connectedSession (List.replicate n SendOp.send)).sendBuff.length =
        NET_MAX_PACKET_SIZE ∧
      ∃ p, (applyOps connectedSession (List.replicate n SendOp.send)).packet = some p ∧
        p.data.length = NET_MAX_PACKET_SIZE := by
  intro n
  induction n with
  | zero => intro _; exact ⟨rfl, rfl, rfl, rfl, _, rfl, rfl⟩
  | succ n ih =>
    intro hn
    obtain ⟨h1, h2, h3, h4, p, h5, h6⟩ := ih (by omega)
    have hstep : applyOps connectedSession (List.replicate (n + 1) SendOp.send) =
        sendUdpPacket (applyOps connectedSession (List.replicate n SendOp.send)) := by
      rw [List.replicate_succ', applyOps, List.foldl_append]; rfl
    rw [hstep]
    obtain ⟨g1, -, g3, g4, g5⟩ := sendUdpPacket_spec _ p h5
      (by rw [h2, h6]; simp only [NET_MAX_PACKET_SIZE]; omega)
    have e1 : (n + 1) % 2 ^ 32 = n + 1 := Nat.mod_eq_of_lt (by omega)
    have e2 : (n + 1 + 1) % 2 ^ 32 = n + 1 + 1 := Nat.mod_eq_of_lt (by omega)
    simp only [NET_MAX_PACKET_SIZE] at h4 h6
    refine ⟨by rw [g3, h1, e1], g5, ?_, ?_, _, g1, ?_⟩
    · rw [g4, h1, e1, e2]
      unfold memcpy
      exact List.take_left' (Write32_length _)
    · rw [g4]
      unfold memcpy
      rw [List.length_append, Write32_length, List.length_drop, h4]; rfl
    · show (memcpy p.data _).length = NET_MAX_PACKET_SIZE
      unfold memcpy
      rw [List.length_append, List.length_drop, List.length_take, h2, h4, h6]; rfl

/-- C12, counterexample: the 10001st datagram of a session.  After 10000 calls of
`sendUdpPacket` the sender builds, with one `addToSendBuf(42)` and `sendUdpPacket`, the
datagram with sequence number 10001 and the word 42.  A fresh receiver, whose
`lastPackID` is 0, leaves its inbox empty on that datagram (the test
`packID > 10000` ends the parse), and `pullMessage` then returns no word. -/
theorem C12_round_trip_counterexample :
    (sendUdpPacket (addWords [42] lateSender)).sentPackets.head? =
      some (payloadBytes 10001 [42]) ∧
    freshLoop.net.lastPackID < 10001 ∧
    (processPacket 0 (payloadBytes 10001 [42]) freshLoop).map
      (fun s => s.net.messageQueue) = some [] ∧
    (processPacket 0 (payloadBytes 10001 [42]) freshLoop).map
      (fun s => pullMessages 1 s.net) = some [none] := by
  obtain ⟨-, h2, h3, h4, p, h5, h6⟩ := sends_state 10000 (by norm_num)
  exact ⟨(built_datagram lateSender p 10001 [42] h4 h2 h3 h5 (le_of_eq h6.symm)
    (by decide)).2, by decide, by decide, by decide⟩

/-- C12: payload round trip, for sequence numbers up to 10000.  Let the sender's buffer
hold the sequence number `s` (`sendSize = 4`) and let its packet have room for 512
bytes.  After `addToSendBuf` for each of the words `ws` (at most 127, each below
`2 ^ 32`) and `sendUdpPacket`, the packet and the head of `sentPackets` hold the bytes
of `s` followed by the bytes of the words.  A receiver with `lastPackID < s` and
`s ≤ 10000` that parses these bytes reaches a state in which exactly `ws`, in order,
have been appended to its inbox; and if the inbox was empty before, `ws.length`
calls of `pullMessage` return the words of `ws` in order. -/
theorem C12_payload_round_trip (net : NetworkConnection) (p : UDPpacket) (st : RecvLoop)
    (t s : Nat) (ws : List Nat)
    (hbuf : net.sendBuff.length = NET_MAX_PACKET_SIZE) (hsize : net.sendSize = 4)
    (hhead : net.sendBuff.take 4 = SDLNet_Write32 s)
    (hp : net.packet = some p) (hmax : NET_MAX_PACKET_SIZE ≤ p.data.length)
    (hk : ws.length ≤ 127) (hws : ∀ w ∈ ws, w < 2 ^ 32)
    (hlast : st.net.lastPackID < s) (hs : s ≤ 10000) :
    (∃ q, (sendUdpPacket (addWords ws net)).packet = some q ∧
      q.wire.data = payloadBytes s ws) ∧
    (sendUdpPacket (addWords ws net)).sentPackets.head? = some (payloadBytes s ws) ∧
    ∃ st', processPacket t (payloadBytes s ws) st = some st' ∧
      st'.net.messageQueue = st.net.messageQueue ++ ws ∧
      (st.net.messageQueue = [] → pullMessages ws.length st'.net = ws.map some) := by
  obtain ⟨b1, b2⟩ := built_datagram net p s ws hbuf hsize hhead hp hmax hk
  obtain ⟨st', hrun, hq⟩ := received_payload t s ws st hk hws hlast hs
  refine ⟨b1, b2, st', hrun, hq, fun hempty => pullMessages_queue ws _ ?_⟩
  rw [hq, hempty, List.nil_append]

/-- Instance of C12: the connected session sends the words 7, 8, 9 in its first
datagram, and a fresh receiver delivers them in that order. -/
theorem C12_payload_round_trip_witness :
    (∃ q, (sendUdpPacket (addWords [7, 8, 9] connectedSession)).packet = some q ∧
      q.wire.data = payloadBytes 1 [7, 8, 9]) ∧
    (sendUdpPacket (addWords [7, 8, 9] connectedSession)).sentPackets.head? =
      some (payloadBytes 1 [7, 8, 9]) ∧
    ∃ st', processPacket 0 (payloadBytes 1 [7, 8, 9]) freshLoop = some st' ∧
      st'.net.messageQueue = freshLoop.net.messageQueue ++ [7, 8, 9] ∧
      pullMessages 3 st'.net = [some 7, some 8, some 9] :=
  have h := C12_payload_round_trip connectedSession
    ⟨SDLNet_Write32 message_type_connect ++ List.replicate 508 0, 4, ⟨7, 55777⟩⟩
    freshLoop 0 1 [7, 8, 9] rfl rfl rfl rfl (by decide) (by decide) (by decide) (by decide)
    (by decide)
  ⟨h.1, h.2.1, h.2.2.elim (fun st' hst => ⟨st', hst.1, hst.2.1, hst.2.2 rfl⟩)⟩
/-! ## The watermark and the beacon interval -/

/-- C21: a gap fill does not advance the watermark.  From a fresh session, after the
payloads with sequence numbers 1, 2 and 4 the missing list is `[3]`,
`lastPackID = 4` and `minPackRcvd = 2`.  The payload with sequence number 3 then
empties the missing list and puts its word in the inbox, but `minPackRcvd` is still
2, not 4: the branch for `packID <= lastPackID` never assigns it. -/
theorem C21_gap_fill_keeps_watermark :
    processAll connectedLoop lossTrace = some gapState ∧
    gapState.net.missingPackList = [3] ∧ gapState.net.lastPackID = 4 ∧
    gapState.net.minPackRcvd = 2 ∧
    (processPacket 0 (SDLNet_Write32 3 ++ SDLNet_Write32 5) gapState).map
      (fun s => (s.net.missingPackList, s.net.lastPackID, s.net.messageQueue)) =
      some ([], 4, [7, 8, 9, 5]) ∧
    (processPacket 0 (SDLNet_Write32 3 ++ SDLNet_Write32 5) gapState).map
      (fun s => s.net.minPackRcvd) = some 2 :=
  ⟨rfl, rfl, rfl, rfl, rfl, rfl⟩

/-- C22: slow beacons while a packet is missing.  In `gapState` the missing list is
`[3]`; the iteration at time 1000 sends the check packet that names 3 and gives
`gapBeaconed`.  There the missing list is still `[3]`, and `sendCount` and the peer's
`min_pack_rcvd` are both 0: the interval selected is 500, not 200.  The iterations
300 ms and 500 ms later send nothing and change nothing; the next check packet goes
out at 1501. -/
theorem C22_slow_beacons_while_packet_missing :
    processAll connectedLoop lossTrace = some gapState ∧
    gapState.net.missingPackList = [3] ∧
    loopHead 1000 1000 gapState = some gapBeaconed ∧
    gapBeaconed.net.sent =
      gapState.net.sent ++ [⟨⟨7, 55777⟩, checkBytes 1000 gapState.net⟩] ∧
    gapBeaconed.net.missingPackList = [3] ∧ gapBeaconed.lastTime = 1000 ∧
    gapBeaconed.minPackRvd = 0 ∧ gapBeaconed.net.sendCount = 0 ∧
    timeLen gapBeaconed = 500 ∧
    loopHead 1300 1300 gapBeaconed = some gapBeaconed ∧
    loopHead 1500 1500 gapBeaconed = some gapBeaconed ∧
    (loopHead 1501 1501 gapBeaconed).map (fun s => s.net.sent) =
      some (gapBeaconed.net.sent ++ [⟨⟨7, 55777⟩, checkBytes 1501 gapBeaconed.net⟩]) :=
  ⟨rfl, rfl, rfl, rfl, rfl, rfl, rfl, rfl, rfl, rfl, rfl, rfl⟩

/-! ## Retransmission of the packets a beacon reports missing -/

/-- C23: a retransmission the beacon asks for comes after an erase.  The session
`threeSent` stores the packets 3, 2 and 1.  The beacon `eraseBeacon` reports
`min_pack_rcvd = 2` and names the ids 9 and 3 as missing; the packet 3 is stored and
is not below 2.  Handling the id 9, the loop over `sentPackets` reaches the packet 1,
erases it from the list it is iterating over and increments the erased iterator: the
run is undefined before the id 3 is looked at.  Where no stored packet lies below
`min_pack_rcvd` the packet asked for is sent again: on `twoSent` the beacon
`nakBeacon` (`min_pack_rcvd = 1`, ids 9 and 2) gives the answer to the time word and
the stored packet 2. -/
theorem C23_retransmission_after_erase :
    threeSent.net.sentPackets = [[0, 0, 0, 3], [0, 0, 0, 2], [0, 0, 0, 1]] ∧
    wordAt eraseBeacon 3 = 2 ∧ wordAt eraseBeacon 5 = 9 ∧ wordAt eraseBeacon 6 = 3 ∧
    eraseBeacon.length = 28 ∧
    processPacket 0 eraseBeacon threeSent = none ∧
    (processPacket 0 nakBeacon twoSent).map (fun s => s.net.sent) =
      some (twoSent.net.sent ++
        [pingEcho nakBeacon twoSent.net, ⟨⟨7, 55777⟩, [0, 0, 0, 2]⟩]) :=
  ⟨rfl, rfl, rfl, rfl, rfl, rfl, rfl⟩

theorem onCheckWord_emit (i u : Nat) (st st1 : RecvLoop) (h1 : 1 ≤ i)
    (hs : onCheckWord i u st = some st1) :
    st1.net.sent = st.net.sent ++
      (if i = 1 then
        [⟨st.net.target, SDLNet_Write32 message_type_ping ++ SDLNet_Write32 u⟩]
      else if 5 ≤ i then
        (st.net.sentPackets.filter (fun pd => SDLNet_Read32 (pd.take 4) = u)).map
          (fun pd => (⟨st.net.target, pd⟩ : Datagram))
      else []) := by
  unfold onCheckWord at hs
  by_cases e1 : i = 1
  · rw [if_pos e1] at hs
    injection hs with hs; subst hs
    rw [if_pos e1]
  rw [if_neg e1] at hs
  rw [if_neg e1]
  by_cases e2 : i = 2
  · rw [if_pos e2] at hs
    have h5 : ¬ 5 ≤ i := by omega
    rw [if_neg h5, List.append_nil]
    split_ifs at hs <;> (injection hs with hs; subst hs; rfl)
  rw [if_neg e2] at hs
  by_cases e3 : i = 3
  · rw [if_pos e3] at hs
    have h5 : ¬ 5 ≤ i := by omega
    rw [if_neg h5, List.append_nil]
    injection hs with hs; subst hs; rfl
  rw [if_neg e3] at hs
  by_cases e4 : i = 4
  · rw [if_pos e4] at hs
    have h5 : ¬ 5 ≤ i := by omega
    rw [if_neg h5, List.append_nil]
    split_ifs at hs <;> (injection hs with hs; subst hs; rfl)
  rw [if_neg e4] at hs
  have h5 : 5 ≤ i := by omega
  rw [if_pos h5]
  split_ifs at hs
  injection hs with hs; subst hs; rfl

/-- Retransmission where nothing is erased.  Let the receive loop process a check
beacon of at most 512 bytes that does not make it erase a stored packet.  Then the
loop reaches a state; the datagrams it has emitted contain, for every missing-id
entry `m` (a word at index 5 or above) and every entry of `sentPackets` with sequence
number `m`, the datagram with exactly the bytes of that entry, addressed to the
partner when `p2p` is set and to the server otherwise; and every datagram emitted is
the answer to the beacon's time word or such a copy of a stored entry. -/
theorem nak_retransmission_without_erase (t : Nat) (bytes : List Nat) (st : RecvLoop)
    (hlen4 : 4 ≤ bytes.length) (hlen : bytes.length ≤ 512)
    (hw : wordAt bytes 0 = message_type_check)
    (hne : NoErase st.net.sentPackets bytes) :
    ∃ st' extra, processPacket t bytes st = some st' ∧
      st'.net.sent = st.net.sent ++ extra ∧
      (∀ i pd, 5 ≤ i → i * 4 + 4 ≤ bytes.length → pd ∈ st.net.sentPackets →
        packetSeq pd = wordAt bytes i → (⟨st.net.target, pd⟩ : Datagram) ∈ extra) ∧
      (∀ d ∈ extra, d = pingEcho bytes st.net ∨ Retransmits bytes st.net d) := by
  obtain ⟨st', hrun⟩ := processPacket_defined t bytes st hne
  have htake : bytes.take 512 = bytes := List.take_of_length_le hlen
  obtain ⟨-, -, -, -, m5, m6, m7, -⟩ := markReceived_net t st
  have hrun2 := hrun
  rw [processPacket_eq t bytes st hlen4, hw, onFirstWord_check, htake] at hrun2
  simp only at hrun2
  have hn : 1 ≤ bytes.length / 4 := by omega
  have h := wordLoop_indexed
    (fun j s => 1 ≤ j ∧ s.net.target = st.net.target ∧
      s.net.sentPackets = st.net.sentPackets ∧
      ∃ extra, s.net.sent = st.net.sent ++ extra ∧
        (∀ i pd, 5 ≤ i → i < j → pd ∈ st.net.sentPackets →
          packetSeq pd = wordAt bytes i → (⟨st.net.target, pd⟩ : Datagram) ∈ extra) ∧
        (∀ d ∈ extra, d = pingEcho bytes st.net ∨ Retransmits bytes st.net d))
    true bytes (bytes.length / 4)
    (by
      intro j s s1 hjn ⟨hj1, ht, hsp, extra, hsent, ha, hb⟩ hstp
      rw [wordStep_check] at hstp
      obtain ⟨g1, g2, -, -⟩ := onCheckWord_stored j (wordAt bytes j) s s1 hstp
      have g4 := onCheckWord_emit j (wordAt bytes j) s s1 hj1 hstp
      refine ⟨by omega, g2.trans ht, g1.trans hsp, extra ++ _,
        by rw [g4, hsent, List.append_assoc], ?_, ?_⟩
      · intro i pd hi5 hij hpd hseq
        by_cases hlt : i < j
        · exact List.mem_append_left _ (ha i pd hi5 hlt hpd hseq)
        · have hij2 : i = j := by omega
          subst hij2
          have hne1 : ¬ i = 1 := by omega
          rw [if_neg hne1, if_pos hi5]
          refine List.mem_append_right _ (List.mem_map.mpr ⟨pd, ?_, by rw [ht]⟩)
          exact List.mem_filter.mpr ⟨hsp ▸ hpd, decide_eq_true hseq⟩
      · intro d hd
        rcases List.mem_append.mp hd with hd | hd
        · exact hb d hd
        · by_cases hj : j = 1
          · rw [if_pos hj] at hd
            left
            rw [List.mem_singleton.mp hd, hj, ht]; rfl
          · rw [if_neg hj] at hd
            by_cases h5 : 5 ≤ j
            · rw [if_pos h5] at hd
              obtain ⟨x, hx, hdx⟩ := List.mem_map.mp hd
              obtain ⟨hxs, hxq⟩ := List.mem_filter.mp hx
              right
              refine ⟨x, hsp ▸ hxs, by rw [← hdx, ht], j, h5, by omega, ?_⟩
              exact (of_decide_eq_true hxq).symm
            · rw [if_neg h5] at hd
              exact absurd hd (List.not_mem_nil d))
    (bytes.length / 4) 1 (markReceived t st) st' hn (by omega)
    ⟨Nat.le_refl 1, m7, m5, [], by rw [m6, List.append_nil],
      fun i pd h5 h1 => absurd h1 (by omega), fun d hd => absurd hd (List.not_mem_nil d)⟩
    hrun2
  obtain ⟨-, -, -, extra, hsent, ha, hb⟩ := h
  exact ⟨st', extra, hrun, hsent, fun i pd h5 hin => ha i pd h5 (by omega), hb⟩

end NetConn
